import Mathlib

/-!
# Scopes and the literal pool of the tealang compiler (`compiler/ast.go`)

A shallow embedding of the scope chain (`context`) and of the literal pool
(`literalInfo`) of `compiler/ast.go`, with the properties of the operations
on them.

Modelling decisions.

* A Go `map[string]T` is an association list with `mapGet` and `mapSet`;
  `mapSet` overwrites the entry of a key in place and puts a new key at the
  end.  The order of the list stands for the (unspecified) iteration order of
  the Go map; theorems hold for every order.
* A `*context` is the receiver's own fields (`cur`), the scopes reached
  through the `parent` pointers (`parents`, nearest first) and the pool
  reached through the `literals` pointer, which all scopes of one tree share.
  Two sibling scopes are two chains with the same `parents`.
* A Go method that mutates its receiver returns the receiver after the call
  next to its Go results, so that the state after a failed call is explicit.
* An `error` is `Option String`: `none` is `nil`, `some msg` carries the
  text built by `fmt.Errorf`.
* A `uint` is a natural number below `2^64` (the 64-bit platforms), and `++`
  on an address counter wraps around: `(n + 1) % 2 ^ 64`.  The offsets of the
  pool are lengths of slices (`uint(len(...))`), which no arithmetic follows.
* `parseStringLiteral`, `falseConstValue` and `trueConstValue` are declared
  in other files of the package; they are parameters here, and so are the
  tables of the builtin specification (`langSpec`).
* The syntax tree is a tree: an expression node (`expr`) or a statement node
  (`node`) holds its children by value, and the scope a node points to is the
  scope at the time of the call.  `getType` writes the types it caches into
  the nodes, so it returns the node after the call next to its Go results.
* A call that ends in a run-time panic has the outcome `run.panic`.
-/

namespace compiler

/-! ## Go maps -/

/-- The Go expression `m[k]` in its two-result form: the value if present. -/
def mapGet {α : Type} (m : List (String × α)) (k : String) : Option α :=
  match m with
  | [] => none
  | (k', v) :: rest => if k' = k then some v else mapGet rest k

/-- The Go statement `m[k] = v`. -/
def mapSet {α : Type} (m : List (String × α)) (k : String) (v : α) : List (String × α) :=
  match m with
  | [] => [(k, v)]
  | (k', v') :: rest => if k' = k then (k, v) :: rest else (k', v') :: mapSet rest k v

/-! ## Types of the data model -/

/-- The Go type `exprType` with its four constants. -/
inductive exprType where
  | unknownType
  | intType
  | bytesType
  | invalidType
deriving DecidableEq, Repr

export exprType (unknownType intType bytesType invalidType)

/-- The method `exprType.String`. -/
def exprType.String : exprType → String
  | .intType => "uint64"
  | .bytesType => "byte[]"
  | .invalidType => "invalid"
  | .unknownType => "unknown"

/-- The Go type `varKind`: `variableKind` is the zero value that `newVar`
writes, the two others are the declared constants. -/
inductive varKind where
  | variableKind
  | constantKind
  | functionKind
deriving DecidableEq, Repr

export varKind (variableKind constantKind functionKind)

/-- A Go `error`. -/
abbrev error := Option String

structure literalDesc where
  offset : Nat
  theType : exprType
deriving DecidableEq, Repr

structure literalInfo where
  literals : List (String × literalDesc)
  intc : List String
  bytec : List (List UInt8)
deriving DecidableEq, Repr

/-- The descriptor `varInfo`; `parser` and `node` are references, kept as
handles. -/
structure varInfo where
  name : String
  theType : exprType
  kind : varKind
  address : Nat
  value : Option String
  parser : Option Nat
  node : Option Nat
deriving DecidableEq, Repr

/-- The Go zero value `varInfo{}`. -/
def varInfo.zero : varInfo :=
  { name := "", theType := unknownType, kind := variableKind, address := 0,
    value := none, parser := none, node := none }

def varInfo.constant (v : varInfo) : Bool := v.kind = constantKind

def varInfo.function (v : varInfo) : Bool := v.kind = functionKind

/-- The fields of a Go `context` that are not pointers. -/
structure scope where
  name : String
  vars : List (String × varInfo)
  functions : List (String × Nat)
  addressEntry : Nat
  addressNext : Nat
deriving DecidableEq, Repr

/-- A `*context`: its own fields, its ancestors (nearest first) and the
shared literal pool. -/
structure context where
  literals : literalInfo
  cur : scope
  parents : List scope
deriving DecidableEq, Repr

/-- The scopes of a chain, innermost first. -/
def context.chain (ctx : context) : List scope := ctx.cur :: ctx.parents

def newLiteralInfo : literalInfo :=
  { literals := [], intc := [], bytec := [] }

/-! ## Operations -/

section ops

variable (parseStringLiteral : String → Except String (List UInt8))

/-- The method `context.addLiteral`: the receiver after the call, the offset
and the error. -/
def context.addLiteral (ctx : context) (value : String) (theType : exprType) :
    context × Nat × error :=
  match mapGet ctx.literals.literals value with
  | none =>
    if theType = intType then
      let offset := ctx.literals.intc.length
      let lits := { ctx.literals with intc := ctx.literals.intc ++ [value] }
      let lits := { lits with literals := mapSet lits.literals value ⟨offset, intType⟩ }
      ({ ctx with literals := lits }, offset, none)
    else if theType = bytesType then
      let offset := ctx.literals.bytec.length
      match parseStringLiteral value with
      | .error e => (ctx, 0, some e)
      | .ok parsed =>
        let lits := { ctx.literals with bytec := ctx.literals.bytec ++ [parsed] }
        let lits := { lits with literals := mapSet lits.literals value ⟨offset, bytesType⟩ }
        ({ ctx with literals := lits }, offset, none)
    else
      (ctx, 0, some ("unknown literal type " ++ theType.String ++ " (" ++ value ++ ")"))
  | some info => (ctx, info.offset, none)

/-- The function `newContext`; `parent = none` is the Go `nil`. -/
def newContext (falseConstValue trueConstValue : String) (name : String)
    (parent : Option context) : context :=
  match parent with
  | some p =>
    { literals := p.literals
      cur := { name := name, vars := [], functions := [],
               addressEntry := p.cur.addressNext, addressNext := p.cur.addressNext }
      parents := p.cur :: p.parents }
  | none =>
    let ctx : context :=
      { literals := newLiteralInfo
        cur := { name := name, vars := [], functions := [], addressEntry := 0, addressNext := 0 }
        parents := [] }
    let ctx := (ctx.addLiteral parseStringLiteral falseConstValue intType).1
    (ctx.addLiteral parseStringLiteral trueConstValue intType).1

/-- The loop of `context.lookup` over the chain that starts at `current`. -/
def lookupChain (name : String) : List scope → varInfo × error
  | [] => (varInfo.zero, some ("ident '" ++ name ++ "' not defined"))
  | current :: rest =>
    match mapGet current.vars name with
    | some varable => (varable, none)
    | none => lookupChain name rest

/-- The method `context.lookup`. -/
def context.lookup (ctx : context) (name : String) : varInfo × error :=
  lookupChain name ctx.chain

/-- The loop of `context.update` over the chain that starts at `current`:
the chain after the loop, and whether the name was found. -/
def updateChain (name : String) (info : varInfo) : List scope → List scope × Bool
  | [] => ([], false)
  | current :: rest =>
    match mapGet current.vars name with
    | some _ => ({ current with vars := mapSet current.vars name info } :: rest, true)
    | none => ((current :: (updateChain name info rest).1), (updateChain name info rest).2)

/-- The method `context.update`: the receiver after the call and the error. -/
def context.update (ctx : context) (name : String) (info : varInfo) : context × error :=
  match mapGet ctx.cur.vars name with
  | some _ => ({ ctx with cur := { ctx.cur with vars := mapSet ctx.cur.vars name info } }, none)
  | none =>
    if (updateChain name info ctx.parents).2 then
      ({ ctx with parents := (updateChain name info ctx.parents).1 }, none)
    else
      (ctx, some ("failed to update ident " ++ name))

/-- Insertion of a descriptor into a list ordered by address. -/
def insertByAddress (x : varInfo) : List varInfo → List varInfo
  | [] => [x]
  | y :: ys => if x.address < y.address then x :: y :: ys else y :: insertByAddress x ys

/-- The call `sort.Slice(vars, func(i, j) bool { vars[i].address < vars[j].address })`:
the descriptors in ascending order of address.  Go leaves the order of
descriptors with equal addresses open; with pairwise different addresses the
result is the only sorted order. -/
def sortByAddress : List varInfo → List varInfo
  | [] => []
  | x :: xs => insertByAddress x (sortByAddress xs)

/-- The second loop of `context.remapTo`: the receiver and `newBase` after
the loop; `newBase++` wraps around. -/
def remapLoop (ctx : context) (newBase : Nat) : List varInfo → context × Nat
  | [] => (ctx, newBase)
  | info :: rest =>
    remapLoop (ctx.update info.name { info with address := newBase }).1
      ((newBase + 1) % 2 ^ 64) rest

/-- The method `context.remapTo`; the argument is a `uint`, and the last
`newBase` of the loop, wrapped around as the loop left it, is the new
`addressNext`. -/
def context.remapTo (ctx : context) (newBase : Nat) : context :=
  let vars := sortByAddress (ctx.cur.vars.map Prod.snd)
  let ctx := { ctx with cur := { ctx.cur with addressEntry := newBase } }
  let r := remapLoop ctx newBase vars
  { r.1 with cur := { r.1.cur with addressNext := r.2 } }

/-- The method `context.newVar`; `ctx.addressNext++` wraps around. -/
def context.newVar (ctx : context) (name : String) (theType : exprType) : context × error :=
  match mapGet ctx.cur.vars name with
  | some _ => (ctx, some ("variable '" ++ name ++ "' already declared"))
  | none =>
    ({ ctx with cur := { ctx.cur with
          vars := mapSet ctx.cur.vars name
            { name := name, theType := theType, kind := variableKind,
              address := ctx.cur.addressNext, value := none, parser := none, node := none }
          addressNext := (ctx.cur.addressNext + 1) % 2 ^ 64 } }, none)

/-- The method `context.newConst`. -/
def context.newConst (ctx : context) (name : String) (theType : exprType) (value : String) :
    context × error :=
  match mapGet ctx.cur.vars name with
  | some _ => (ctx, some ("const '" ++ name ++ "' already declared"))
  | none =>
    match ctx.addLiteral parseStringLiteral value theType with
    | (ctx1, _, some err) => (ctx1, some err)
    | (ctx1, offset, none) =>
      ({ ctx1 with cur := { ctx1.cur with
            vars := mapSet ctx1.cur.vars name
              { name := name, theType := theType, kind := constantKind,
                address := offset, value := some value, parser := none, node := none } } }, none)

/-- The method `context.newFunc`; `callDefParser` is a handle of the parser. -/
def context.newFunc (ctx : context) (name : String) (theType : exprType)
    (callDefParser : Option Nat) : context × error :=
  match mapGet ctx.cur.vars name with
  | some _ => (ctx, some ("function '" ++ name ++ "' already defined"))
  | none =>
    ({ ctx with cur := { ctx.cur with
          vars := mapSet ctx.cur.vars name
            { name := name, theType := theType, kind := functionKind,
              address := 0, value := none, parser := callDefParser, node := none } } }, none)

def context.EntryAddress (ctx : context) : Nat := ctx.cur.addressEntry

def context.LastAddress (ctx : context) : Nat := ctx.cur.addressNext

end ops

/-! ## Call sequences and sample inputs -/

/-- A sequence of `newVar` calls on one scope, in order: the scope after the
last call and the error of each call. -/
def newVars (ctx : context) : List (String × exprType) → context × List error
  | [] => (ctx, [])
  | (name, theType) :: rest =>
    ((newVars (ctx.newVar name theType).1 rest).1,
      (ctx.newVar name theType).2 :: (newVars (ctx.newVar name theType).1 rest).2)

/-- The name table that declaring `decls` in order from address `a` builds
while the addresses stay below `2^64`. -/
def varsFrom (a : Nat) : List (String × exprType) → List (String × varInfo)
  | [] => []
  | (name, theType) :: rest =>
    (name, { name := name, theType := theType, kind := variableKind, address := a,
             value := none, parser := none, node := none }) :: varsFrom (a + 1) rest

/-- A byte-string parser for the examples: it rejects the text `bad` and
returns the character codes of any other text. -/
def sampleParse (s : String) : Except String (List UInt8) :=
  if s = "bad" then .error "malformed literal" else .ok (s.toList.map (fun c => c.toNat.toUInt8))

/-- A variable descriptor as `newVar` writes it. -/
def sampleVar (name : String) (theType : exprType) (address : Nat) : varInfo :=
  { name := name, theType := theType, kind := variableKind, address := address,
    value := none, parser := none, node := none }

/-- A scope with the given name table and address range. -/
def sampleScope (vars : List (String × varInfo)) (addressEntry addressNext : Nat) : scope :=
  { name := "scope", vars := vars, functions := [],
    addressEntry := addressEntry, addressNext := addressNext }

/-- The name table after the second loop of `remapTo`, when every descriptor
is stored under its own name. -/
def remapVars (vars : List (String × varInfo)) (newBase : Nat) :
    List varInfo → List (String × varInfo)
  | [] => vars
  | info :: rest =>
    remapVars (mapSet vars info.name { info with address := newBase })
      ((newBase + 1) % 2 ^ 64) rest

/-- A call of one of the declaring and interning methods of a scope. -/
inductive call where
  | addLiteral (value : String) (theType : exprType)
  | newConst (name : String) (theType : exprType) (value : String)
  | newVar (name : String) (theType : exprType)
  | newFunc (name : String) (theType : exprType) (callDefParser : Option Nat)

/-- The receiver after one call, whether the call succeeds or fails. -/
def context.afterCall (parseStringLiteral : String → Except String (List UInt8))
    (ctx : context) : call → context
  | .addLiteral value theType => (ctx.addLiteral parseStringLiteral value theType).1
  | .newConst name theType value => (ctx.newConst parseStringLiteral name theType value).1
  | .newVar name theType => (ctx.newVar name theType).1
  | .newFunc name theType callDefParser => (ctx.newFunc name theType callDefParser).1

/-- The receiver after a sequence of calls, in order. -/
def context.afterCalls (parseStringLiteral : String → Except String (List UInt8))
    (ctx : context) : List call → context
  | [] => ctx
  | c :: rest => (ctx.afterCall parseStringLiteral c).afterCalls parseStringLiteral rest

/-- The three effects a call can have on the pool: none, a new integer
literal, a new byte literal. -/
def poolStep (parseStringLiteral : String → Except String (List UInt8))
    (L L' : literalInfo) : Prop :=
  L' = L ∨
  (∃ v, mapGet L.literals v = none ∧
    L' = { literals := mapSet L.literals v ⟨L.intc.length, intType⟩
           intc := L.intc ++ [v], bytec := L.bytec }) ∨
  (∃ v b, mapGet L.literals v = none ∧ parseStringLiteral v = .ok b ∧
    L' = { literals := mapSet L.literals v ⟨L.bytec.length, bytesType⟩
           intc := L.intc, bytec := L.bytec ++ [b] })

/-- The invariant of the literal pool: every recorded value sits in the
sequence of its recorded type at its recorded offset, and every slot of
either sequence is the slot of exactly one recorded value. -/
def poolInvariant (parseStringLiteral : String → Except String (List UInt8))
    (L : literalInfo) : Prop :=
  (∀ v d, mapGet L.literals v = some d →
    (d.theType = intType ∧ L.intc[d.offset]? = some v) ∨
    (d.theType = bytesType ∧
      ∃ b, parseStringLiteral v = .ok b ∧ L.bytec[d.offset]? = some b)) ∧
  (∀ i, i < L.intc.length → ∃! v, mapGet L.literals v = some ⟨i, intType⟩) ∧
  (∀ i, i < L.bytec.length → ∃! v, mapGet L.literals v = some ⟨i, bytesType⟩)

/-- A name table as the declaring methods build it: no name twice (it is a
Go map) and every descriptor under its own name. -/
def scopeWellFormed (vars : List (String × varInfo)) : Prop :=
  (vars.map Prod.fst).Nodup ∧ ∀ p ∈ vars, p.2.name = p.1

/-- The root scope of the examples after `newVar a`, `newVar b` and
`newConst c = 7`. -/
def sampleRoot : context :=
  (((((newContext sampleParse "0" "1" "global" none).newVar "a" intType).1.newVar
    "b" bytesType).1).newConst sampleParse "c" intType "7").1

/-! ## The syntax tree and type inference -/

/-- The outcome of a Go call: its results, or a run-time panic (a nil
dereference, an index out of range). -/
inductive run (α : Type) where
  | done (results : α)
  | panic
deriving DecidableEq, Repr

/-- The results of a call seen through `f`. -/
def run.map {α β : Type} (f : α → β) : run α → run β
  | .done a => .done (f a)
  | .panic => .panic

/-- The tables and functions of the builtin specification, declared in
other files of the package. -/
structure langSpec where
  opTypeFromSpec : String → Nat → exprType × error
  argOpTypeFromSpec : String → Nat → exprType × error
  builtinFun : String → Bool
  builtinFunDependantTypes : String → Option Nat
  runtimeFieldTypeFromSpec : String → String → exprType × error

mutual
/-- The nodes behind the interface `ExprNodeIf`, each with the fields of its
Go struct that type inference and rendering read. -/
inductive expr where
  | exprLiteralNode (exprType : exprType) (value : String)
  | exprIdentNode (ctx : context) (exprType : exprType) (name : String)
  | exprBinOpNode (exprType : exprType) (op : String) (lhs rhs : expr)
  | exprGroupNode (value : expr)
  | exprUnOpNode (op : String) (value : expr)
  | ifExprNode (condExpr condTrueExpr condFalseExpr : expr)
  | typeCastNode (expr : expr) (targetType : exprType)
  | funCallNode (ctx : context) (name field index1 index2 : String) (funType : exprType)
      (definition : Option node) (children : List expr)
  | runtimeFieldNode (op field index1 index2 : String) (exprType : exprType)
  | runtimeArgNode (op number : String) (exprType : exprType)
  | constNode (name : String) (exprType : exprType) (value : String)
/-- The nodes behind the interface `TreeNodeIf` as the statements of a block:
the four kinds that the checks of control flow tell apart, the function
definition, and `other` for every other kind, with the text of its
`String()`. -/
inductive node where
  | returnNode (value : Option expr) (children : List node)
  | errorNode (children : List node)
  | ifStatementNode (condExpr : expr) (children : List node)
  | blockNode (children : List node)
  | funDefNode (name : String) (args : List (String × exprType)) (inline : Bool)
      (children : List node)
  | other (text : String) (children : List node)
end

/-- The method `children`. -/
def node.children : node → List node
  | .returnNode _ ch => ch
  | .errorNode ch => ch
  | .ifStatementNode _ ch => ch
  | .blockNode ch => ch
  | .funDefNode _ _ _ ch => ch
  | .other _ ch => ch

/-- The node with other children. -/
def node.withChildren : node → List node → node
  | .returnNode v _, ch => .returnNode v ch
  | .errorNode _, ch => .errorNode ch
  | .ifStatementNode c _, ch => .ifStatementNode c ch
  | .blockNode _, ch => .blockNode ch
  | .funDefNode n a i _, ch => .funDefNode n a i ch
  | .other t _, ch => .other t ch

/-- The method `runtimeFieldNode.String`. -/
def runtimeFieldNode.String (op field index1 index2 : String) : String :=
  if op = "gtxn" then op ++ "[" ++ index1 ++ "]." ++ field ++ "\n"
  else if op = "gtxna" then op ++ "[" ++ index1 ++ "]." ++ field ++ "[" ++ index2 ++ "]\n"
  else if op = "txna" then op ++ "." ++ field ++ "[" ++ index1 ++ "]\n"
  else if op = "txnas" then op ++ "." ++ field ++ "[var]\n"
  else op ++ "." ++ field ++ "\n"

mutual
/-- The method `String` of the expression nodes. -/
def expr.String : expr → String
  | .exprLiteralNode _ value => value
  | .exprIdentNode _ _ name => "ident " ++ name
  | .exprBinOpNode _ op lhs rhs => lhs.String ++ " " ++ op ++ " " ++ rhs.String
  | .exprGroupNode value => "(" ++ value.String ++ ")"
  | .exprUnOpNode op value => op ++ " " ++ value.String
  | .ifExprNode c t f =>
    "if " ++ c.String ++ " \x7b " ++ t.String ++ " \x7d else \x7b " ++ f.String ++ " \x7d"
  | .typeCastNode _ targetType => "type cast (" ++ targetType.String ++ ")"
  | .funCallNode _ name _ _ _ _ _ children => name ++ " ([" ++ exprsString children ++ "])"
  | .runtimeFieldNode op field index1 index2 _ => runtimeFieldNode.String op field index1 index2
  | .runtimeArgNode _ _ _ => "runtime arg"
  | .constNode name t value => "const (" ++ t.String ++ ") " ++ name ++ " = " ++ value
/-- The elements of a slice of nodes as `fmt` prints them, separated by
blanks. -/
def exprsString : List expr → String
  | [] => ""
  | [x] => x.String
  | x :: next :: rest => x.String ++ " " ++ exprsString (next :: rest)
end

/-- The second loop of `determineBlockReturnType` from the second element
on, with the common type so far. -/
def unifyFrom (commonType : exprType) : List exprType → exprType × error
  | [] => (commonType, none)
  | tp :: rest =>
    if commonType = unknownType ∧ tp ≠ unknownType then unifyFrom tp rest
    else if commonType ≠ unknownType ∧ tp ≠ commonType then
      (invalidType,
        some ("block types mismatch: " ++ commonType.String ++ " vs " ++ tp.String))
    else unifyFrom commonType rest

/-- The end of `determineBlockReturnType`: the common type of the types
seen. -/
def unifyReturnTypes : List exprType → exprType × error
  | [] => (unknownType, none)
  | first :: rest => unifyFrom first (first :: rest)

/-- The checks of `exprBinOpNode.getType` after both operands are typed;
`n` is the text of the node. -/
def binOpCheck (sp : langSpec) (op : String) (tp lhs rhs : exprType) (n : String) :
    exprType × error :=
  match sp.argOpTypeFromSpec op 0 with
  | (_, some err) => (invalidType, some err)
  | (opLHS, none) =>
    if opLHS ≠ unknownType ∧ lhs ≠ opLHS then
      (invalidType, some ("incompatible left operand type: '" ++ opLHS.String ++ "' vs '"
        ++ lhs.String ++ "' in expr '" ++ n ++ "'"))
    else
      match sp.argOpTypeFromSpec op 1 with
      | (_, some err) => (invalidType, some err)
      | (opRHS, none) =>
        if opRHS ≠ unknownType ∧ rhs ≠ opRHS then
          (invalidType, some ("incompatible right operand type: '" ++ opRHS.String ++ "' vs '"
            ++ rhs.String ++ "' in expr '" ++ n ++ "'"))
        else if lhs ≠ rhs then
          (invalidType, some ("incompatible types: '" ++ lhs.String ++ "' vs '"
            ++ rhs.String ++ "' in expr '" ++ n ++ "'"))
        else (tp, none)

/-- The checks of `exprUnOpNode.getType` after the operand is typed. -/
def unOpCheck (sp : langSpec) (op : String) (tp valType : exprType) (n : String) :
    exprType × error :=
  match sp.argOpTypeFromSpec op 0 with
  | (_, some err) => (invalidType, some err)
  | (operandType, none) =>
    if operandType ≠ unknownType ∧ valType ≠ operandType then
      (invalidType, some ("incompatible operand type: '" ++ operandType.String ++ "' vs "
        ++ valType.String ++ " in expr '" ++ n ++ "'"))
    else if tp ≠ valType then
      (invalidType, some ("up op expects type '" ++ tp.String ++ "' but operand is '"
        ++ valType.String ++ "'"))
    else (tp, none)

/-- The end of `determineBlockReturnType` after the loop over the
statements; `rebuild` puts the statements back under their node. -/
def finishBlock (rebuild : List node → node) :
    run (List node × List exprType × error) → run (node × exprType × error)
  | .panic => .panic
  | .done (ch, _, some err) => .done (rebuild ch, invalidType, some err)
  | .done (ch, seen, none) => .done (rebuild ch, unifyReturnTypes seen)

/-- The body of `funCallNode.getType`.  `argType idx` is the outcome of
`n.childrenNodes[idx].(ExprNodeIf).getType()` and `bodyType` that of
`determineBlockReturnType(n.definition, []exprType{})`; each is read only on
the path on which the Go code makes the call. -/
def funCallNode.getTypeWith (sp : langSpec) (ctx : context)
    (name field index1 index2 : String) (funType : exprType) (definition : Option node)
    (children : List expr) (argType : Nat → run (List expr × exprType × error))
    (bodyType : run (node × exprType × error)) : run (expr × exprType × error) :=
  if funType ≠ unknownType then
    .done (.funCallNode ctx name field index1 index2 funType definition children, funType, none)
  else
    match (ctx.lookup name).2 with
    | some err =>
      if sp.builtinFun name then
        if (sp.opTypeFromSpec name 0).1 = unknownType then
          match sp.builtinFunDependantTypes name with
          | some idx =>
            match argType idx with
            | .panic => .panic
            | .done (children1, _, some err1) =>
              .done (.funCallNode ctx name field index1 index2 funType definition children1,
                invalidType,
                some ("function " ++ name ++ " type deduction failed: " ++ err1))
            | .done (children1, tp, none) =>
              .done (.funCallNode ctx name field index1 index2 tp definition children1,
                tp, none)
          | none =>
            .done (.funCallNode ctx name field index1 index2 (sp.opTypeFromSpec name 0).1
              definition children, sp.opTypeFromSpec name 0)
        else
          .done (.funCallNode ctx name field index1 index2 (sp.opTypeFromSpec name 0).1
            definition children, sp.opTypeFromSpec name 0)
      else
        .done (.funCallNode ctx name field index1 index2 funType definition children,
          invalidType, some ("function " ++ name ++ " lookup failed: " ++ err))
    | none =>
      match bodyType with
      | .panic => .panic
      | .done (d1, tp, err) =>
        .done (.funCallNode ctx name field index1 index2 tp (some d1) children, tp, err)

mutual
/-- The method `getType` of the expression nodes: the node after the call
(with its cached type), the type and the error. -/
def expr.getType (sp : langSpec) : expr → run (expr × exprType × error)
  | .exprLiteralNode t value => .done (.exprLiteralNode t value, t, none)
  | .exprIdentNode ctx t name =>
    if t = unknownType then
      match ctx.lookup name with
      | (_, some err) =>
        .done (.exprIdentNode ctx t name, invalidType,
          some ("ident lookup for " ++ name ++ " failed: " ++ err))
      | (info, none) =>
        if info.theType = invalidType then .panic
        else .done (.exprIdentNode ctx info.theType name, info.theType, none)
    else .done (.exprIdentNode ctx t name, t, none)
  | .exprBinOpNode t op lhs rhs =>
    match sp.opTypeFromSpec op 0 with
    | (_, some err) =>
      .done (.exprBinOpNode t op lhs rhs, invalidType,
        some ("bin op '" ++ op ++ "' not it the language: " ++ err))
    | (tp, none) =>
      match lhs.getType sp with
      | .panic => .panic
      | .done (lhs1, _, some err) =>
        .done (.exprBinOpNode t op lhs1 rhs, invalidType,
          some ("left operand '" ++ lhs1.String ++ "' has invalid type: " ++ err))
      | .done (lhs1, lhsType, none) =>
        match rhs.getType sp with
        | .panic => .panic
        | .done (rhs1, _, some err) =>
          .done (.exprBinOpNode t op lhs1 rhs1, invalidType,
            some ("right operand '" ++ rhs1.String ++ "' has invalid type: " ++ err))
        | .done (rhs1, rhsType, none) =>
          .done (.exprBinOpNode t op lhs1 rhs1,
            binOpCheck sp op tp lhsType rhsType (expr.exprBinOpNode t op lhs1 rhs1).String)
  | .exprUnOpNode op value =>
    match sp.opTypeFromSpec op 0 with
    | (_, some err) =>
      .done (.exprUnOpNode op value, invalidType,
        some ("un op '" ++ op ++ "' not it the language: " ++ err))
    | (tp, none) =>
      match value.getType sp with
      | .panic => .panic
      | .done (value1, _, some err) =>
        .done (.exprUnOpNode op value1, invalidType,
          some ("operand '" ++ (expr.exprUnOpNode op value1).String
            ++ "' has invalid type: " ++ err))
      | .done (value1, valType, none) =>
        .done (.exprUnOpNode op value1,
          unOpCheck sp op tp valType (expr.exprUnOpNode op value1).String)
  | .ifExprNode condExpr condTrueExpr condFalseExpr =>
    match condExpr.getType sp with
    | .panic => .panic
    | .done (cond1, _, some err) =>
      .done (.ifExprNode cond1 condTrueExpr condFalseExpr, invalidType,
        some ("cond type evaluation failed: " ++ err))
    | .done (cond1, condType, none) =>
      if condType ≠ intType then
        .done (.ifExprNode cond1 condTrueExpr condFalseExpr, invalidType,
          some ("cond type is '" ++ condType.String ++ "', expected '" ++ condType.String ++ "'"))
      else
        match condTrueExpr.getType sp with
        | .panic => .panic
        | .done (true1, _, some err) =>
          .done (.ifExprNode cond1 true1 condFalseExpr, invalidType,
            some ("first block has invalid type: " ++ err))
        | .done (true1, condTrueExprType, none) =>
          match condFalseExpr.getType sp with
          | .panic => .panic
          | .done (false1, _, some err) =>
            .done (.ifExprNode cond1 true1 false1, invalidType,
              some ("second block has invalid type: " ++ err))
          | .done (false1, condFalseExprType, none) =>
            if condTrueExprType ≠ condFalseExprType then
              .done (.ifExprNode cond1 true1 false1, invalidType,
                some ("if blocks types mismatch '" ++ condTrueExprType.String ++ "' vs '"
                  ++ condFalseExprType.String ++ "'"))
            else .done (.ifExprNode cond1 true1 false1, condTrueExprType, none)
  | .exprGroupNode value =>
    match value.getType sp with
    | .panic => .panic
    | .done (value1, tp, err) => .done (.exprGroupNode value1, tp, err)
  | .funCallNode ctx name field index1 index2 funType definition children =>
    funCallNode.getTypeWith sp ctx name field index1 index2 funType definition children
      (fun idx => getTypeAt sp children idx) (definitionReturnType sp definition)
  | .runtimeFieldNode op field index1 index2 t =>
    if t ≠ unknownType then .done (.runtimeFieldNode op field index1 index2 t, t, none)
    else
      match sp.runtimeFieldTypeFromSpec op field with
      | (_, some err) =>
        .done (.runtimeFieldNode op field index1 index2 t, invalidType,
          some ("lookup failed: " ++ err))
      | (tp, none) => .done (.runtimeFieldNode op field index1 index2 tp, tp, none)
  | .runtimeArgNode op number t =>
    if t ≠ unknownType then .done (.runtimeArgNode op number t, t, none)
    else
      match sp.opTypeFromSpec op 0 with
      | (_, some err) =>
        .done (.runtimeArgNode op number t, invalidType, some ("lookup failed: " ++ err))
      | (tp, none) => .done (.runtimeArgNode op number tp, tp, none)
  | .constNode name t value => .done (.constNode name t value, t, none)
  | .typeCastNode e targetType =>
    match e.getType sp with
    | .panic => .panic
    | .done (e1, _, some err) => .done (.typeCastNode e1 targetType, unknownType, some err)
    | .done (e1, exprType, none) =>
      if exprType ≠ unknownType ∧ exprType ≠ targetType then
        .done (.typeCastNode e1 targetType, unknownType,
          some ("cannot cast " ++ exprType.String ++ " to " ++ targetType.String))
      else .done (.typeCastNode e1 targetType, targetType, none)
/-- The call `determineBlockReturnType(n.definition, []exprType{})` of
`funCallNode.getType`: a nil `definition` is passed as an interface that is
not nil, and reading its children panics. -/
def definitionReturnType (sp : langSpec) : Option node → run (node × exprType × error)
  | none => .panic
  | some d => determineBlockReturnType sp d []
/-- The expression `n.childrenNodes[idx].(ExprNodeIf).getType()`: the
children after the call, the type and the error. -/
def getTypeAt (sp : langSpec) : List expr → Nat → run (List expr × exprType × error)
  | [], _ => .panic
  | child :: rest, 0 =>
    match child.getType sp with
    | .panic => .panic
    | .done (child1, tp, err) => .done (child1 :: rest, tp, err)
  | child :: rest, idx + 1 =>
    match getTypeAt sp rest idx with
    | .panic => .panic
    | .done (rest1, tp, err) => .done (child :: rest1, tp, err)
/-- The first loop of `determineBlockReturnType` over the statements that
are left: the statements after the loop, `retTypeSeen`, and the error that
ended the loop early. -/
def determineLoop (sp : langSpec) :
    List node → List exprType → run (List node × List exprType × error)
  | [], retTypeSeen => .done ([], retTypeSeen, none)
  | stmt :: rest, retTypeSeen =>
    match stmt with
    | .returnNode value ch =>
      match value with
      | none => .panic
      | some v =>
        match v.getType sp with
        | .panic => .panic
        | .done (v1, _, some err) =>
          .done (.returnNode (some v1) ch :: rest, retTypeSeen, some err)
        | .done (v1, tp, none) =>
          match determineLoop sp rest (retTypeSeen ++ [tp]) with
          | .panic => .panic
          | .done (rest1, seen, err) => .done (.returnNode (some v1) ch :: rest1, seen, err)
    | .errorNode ch =>
      match determineLoop sp rest (retTypeSeen ++ [intType]) with
      | .panic => .panic
      | .done (rest1, seen, err) => .done (.errorNode ch :: rest1, seen, err)
    | .ifStatementNode condExpr ch =>
      match determineBlockReturnType sp (.ifStatementNode condExpr ch) retTypeSeen with
      | .panic => .panic
      | .done (stmt1, _, some err) => .done (stmt1 :: rest, retTypeSeen, some err)
      | .done (stmt1, blockType, none) =>
        match determineLoop sp rest (retTypeSeen ++ [blockType]) with
        | .panic => .panic
        | .done (rest1, seen, err) => .done (stmt1 :: rest1, seen, err)
    | .blockNode ch =>
      match determineBlockReturnType sp (.blockNode ch) retTypeSeen with
      | .panic => .panic
      | .done (stmt1, _, some err) => .done (stmt1 :: rest, retTypeSeen, some err)
      | .done (stmt1, blockType, none) =>
        match determineLoop sp rest (retTypeSeen ++ [blockType]) with
        | .panic => .panic
        | .done (rest1, seen, err) => .done (stmt1 :: rest1, seen, err)
    | .funDefNode name args inline ch =>
      match determineLoop sp rest retTypeSeen with
      | .panic => .panic
      | .done (rest1, seen, err) => .done (.funDefNode name args inline ch :: rest1, seen, err)
    | .other text ch =>
      match determineLoop sp rest retTypeSeen with
      | .panic => .panic
      | .done (rest1, seen, err) => .done (.other text ch :: rest1, seen, err)
/-- The function `determineBlockReturnType` on a node that is not nil: the
node after the call, the type and the error. -/
def determineBlockReturnType (sp : langSpec) :
    node → List exprType → run (node × exprType × error)
  | .returnNode value ch, retTypeSeen =>
    finishBlock (node.returnNode value) (determineLoop sp ch retTypeSeen)
  | .errorNode ch, retTypeSeen => finishBlock node.errorNode (determineLoop sp ch retTypeSeen)
  | .ifStatementNode condExpr ch, retTypeSeen =>
    finishBlock (node.ifStatementNode condExpr) (determineLoop sp ch retTypeSeen)
  | .blockNode ch, retTypeSeen => finishBlock node.blockNode (determineLoop sp ch retTypeSeen)
  | .funDefNode name args inline ch, retTypeSeen =>
    finishBlock (node.funDefNode name args inline) (determineLoop sp ch retTypeSeen)
  | .other text ch, retTypeSeen => finishBlock (node.other text) (determineLoop sp ch retTypeSeen)
end

mutual
/-- The function `ensureBlockReturns`. -/
def ensureBlockReturns : node → run Bool
  | .returnNode _ ch => ensureLast ch
  | .errorNode ch => ensureLast ch
  | .ifStatementNode _ ch => ensureLast ch
  | .blockNode ch => ensureLast ch
  | .funDefNode _ _ _ ch => ensureLast ch
  | .other _ ch => ensureLast ch
/-- The body of `ensureBlockReturns` on the children of the node: the
switch on the last child. -/
def ensureLast : List node → run Bool
  | [] => .done false
  | [lastNode] =>
    match lastNode with
    | .returnNode _ _ => .done true
    | .errorNode _ => .done true
    | .ifStatementNode _ ch => ensureBranches ch
    | .blockNode _ => .done false
    | .funDefNode _ _ _ _ => .done false
    | .other _ _ => .done false
  | _ :: next :: rest => ensureLast (next :: rest)
/-- The case `*ifStatementNode` of `ensureBlockReturns` on the children of
the if statement; `&&` evaluates its second operand only when the first is
true. -/
def ensureBranches : List node → run Bool
  | [] => .panic
  | [_] => .done false
  | first :: second :: _ =>
    match ensureBlockReturns first with
    | .panic => .panic
    | .done false => .done false
    | .done true => ensureBlockReturns second
end

/-- The method `funCallNode.getTypeTuple`; it reads the fields `name` and
`funType` of its receiver. -/
def funCallNode.getTypeTuple (sp : langSpec) (name : String) (funType : exprType) :
    run (exprType × exprType × error) :=
  if ¬ sp.builtinFun name then .panic
  else
    match sp.opTypeFromSpec name 0 with
    | (tph, some err) => .done (tph, invalidType, some err)
    | (tph, none) =>
      if funType ≠ unknownType then
        if tph = unknownType then
          .done (funType, (sp.opTypeFromSpec name 1).1, (sp.opTypeFromSpec name 1).2)
        else if (sp.opTypeFromSpec name 1).1 = unknownType then
          .done (tph, funType, (sp.opTypeFromSpec name 1).2)
        else .done (tph, (sp.opTypeFromSpec name 1).1, (sp.opTypeFromSpec name 1).2)
      else .done (tph, (sp.opTypeFromSpec name 1).1, (sp.opTypeFromSpec name 1).2)

/-- The method `funCallNode.getTypeQuadruple`; it reads the field `name` of
its receiver. -/
def funCallNode.getTypeQuadruple (sp : langSpec) (name : String) :
    run (exprType × exprType × exprType × exprType × error) :=
  if ¬ sp.builtinFun name then .panic
  else
    match sp.opTypeFromSpec name 3 with
    | (tph, some err) => .done (tph, invalidType, invalidType, invalidType, some err)
    | (tph, none) =>
      match sp.opTypeFromSpec name 2 with
      | (tpl, some err) => .done (tph, tpl, invalidType, invalidType, some err)
      | (tpl, none) =>
        match sp.opTypeFromSpec name 1 with
        | (rtph, some err) => .done (tph, tpl, invalidType, rtph, some err)
        | (rtph, none) =>
          .done (tph, tpl, (sp.opTypeFromSpec name 0).1, rtph, (sp.opTypeFromSpec name 0).2)

/-- The loop of `funCallNode.checkBuiltinArgs` from position `i` on: the
arguments after the loop, `argErrorPos` and the error.  `n` is the text of
the call node. -/
def checkArgsFrom (sp : langSpec) (name n : String) :
    Nat → List expr → run (List expr × Nat × error)
  | _, [] => .done ([], 0, none)
  | i, arg :: rest =>
    match sp.argOpTypeFromSpec name i with
    | (_, some err) => .done (arg :: rest, i, some err)
    | (tp, none) =>
      match arg.getType sp with
      | .panic => .panic
      | .done (arg1, _, some err) => .done (arg1 :: rest, i, some err)
      | .done (arg1, actualType, none) =>
        if tp ≠ unknownType ∧ actualType ≠ unknownType ∧ actualType ≠ tp then
          .done (arg1 :: rest, i,
            some ("incompatible types: (exp) " ++ tp.String ++ " vs " ++ actualType.String
              ++ " (actual) in expr '" ++ n ++ "'"))
        else
          match checkArgsFrom sp name n (i + 1) rest with
          | .panic => .panic
          | .done (rest1, pos, err) => .done (arg1 :: rest1, pos, err)

/-- The method `funCallNode.checkBuiltinArgs` of the call node with this
name and these arguments: the arguments after the call, `argErrorPos` and
the error. -/
def funCallNode.checkBuiltinArgs (sp : langSpec) (ctx : context)
    (name field index1 index2 : String) (funType : exprType) (definition : Option node)
    (children : List expr) : run (List expr × Nat × error) :=
  checkArgsFrom sp name
    (expr.funCallNode ctx name field index1 index2 funType definition children).String
    0 children

/-- A specification for the examples: `+` takes and gives integers, `concat`
takes and gives bytes, `load` gives the type of its argument 0, `pair` has
both result slots open, `len` takes bytes and gives an integer. -/
def sampleSpec : langSpec where
  opTypeFromSpec := fun name pos =>
    if name = "+" then (intType, none)
    else if name = "concat" then (bytesType, none)
    else if name = "len" then (intType, none)
    else if name = "load" then (unknownType, none)
    else if name = "pair" then (unknownType, none)
    else if name = "get" then (if pos = 0 then (unknownType, none) else (intType, none))
    else (invalidType, some ("unknown op " ++ name))
  argOpTypeFromSpec := fun name _ =>
    if name = "+" then (intType, none)
    else if name = "concat" then (bytesType, none)
    else if name = "len" then (bytesType, none)
    else if name = "load" then (unknownType, none)
    else (invalidType, some ("unknown op " ++ name))
  builtinFun := fun name => name = "+" ∨ name = "concat" ∨ name = "len" ∨ name = "load"
    ∨ name = "pair" ∨ name = "get"
  builtinFunDependantTypes := fun name => if name = "load" then some 0 else none
  runtimeFieldTypeFromSpec := fun op field =>
    if op = "txn" ∧ field = "Sender" then (bytesType, none)
    else (invalidType, some ("unknown field " ++ field))

/-- The type and the error of `getType`, without the node after the call. -/
def expr.typeOf (sp : langSpec) (e : expr) : run (exprType × error) :=
  (e.getType sp).map (fun r => r.2)

/-- The type and the error of `determineBlockReturnType`, without the node
after the call. -/
def blockReturnType (sp : langSpec) (n : node) (retTypeSeen : List exprType) :
    run (exprType × error) :=
  (determineBlockReturnType sp n retTypeSeen).map (fun r => r.2)

mutual
/-- Written from the spec: a block satisfies "always returns" if its last
statement is a `Return` or `Error`, or if its last statement is an `If`
statement that has both a true-branch and an else-branch and both branches
themselves satisfy "always returns"; an `If` with only a true-branch never
satisfies the check, and neither does an empty block. -/
def alwaysReturns : node → Bool
  | .returnNode _ ch => lastAlwaysReturns ch
  | .errorNode ch => lastAlwaysReturns ch
  | .ifStatementNode _ ch => lastAlwaysReturns ch
  | .blockNode ch => lastAlwaysReturns ch
  | .funDefNode _ _ _ ch => lastAlwaysReturns ch
  | .other _ ch => lastAlwaysReturns ch
/-- Written from the spec: the last statement of these statements is a
`Return`, an `Error`, or an `If` whose two branches always return. -/
def lastAlwaysReturns : List node → Bool
  | [] => false
  | [.returnNode _ _] => true
  | [.errorNode _] => true
  | [.ifStatementNode _ ch] => branchesAlwaysReturn ch
  | [.blockNode _] => false
  | [.funDefNode _ _ _ _] => false
  | [.other _ _] => false
  | _ :: next :: rest => lastAlwaysReturns (next :: rest)
/-- Written from the spec: there are a true-branch and an else-branch, and
both always return. -/
def branchesAlwaysReturn : List node → Bool
  | [trueBranch, elseBranch] => alwaysReturns trueBranch && alwaysReturns elseBranch
  | _ => false
end

mutual
/-- Every if statement of the node has one or two branches. -/
def ifsHaveBranches : node → Bool
  | .returnNode _ ch => allHaveBranches ch
  | .errorNode ch => allHaveBranches ch
  | .ifStatementNode _ ch => (ch.length = 1 ∨ ch.length = 2) && allHaveBranches ch
  | .blockNode ch => allHaveBranches ch
  | .funDefNode _ _ _ ch => allHaveBranches ch
  | .other _ ch => allHaveBranches ch
/-- Every if statement of these nodes has one or two branches. -/
def allHaveBranches : List node → Bool
  | [] => true
  | n :: rest => ifsHaveBranches n && allHaveBranches rest
end

/-- The types seen and the error of the first loop of
`determineBlockReturnType`, without the statements after the loop. -/
def loopResult (sp : langSpec) (statements : List node) (retTypeSeen : List exprType) :
    run (List exprType × error) :=
  (determineLoop sp statements retTypeSeen).map (fun r => r.2)

/-- The statement is one of the kinds that `determineBlockReturnType` reads:
a `Return`, an `Error`, an if statement or a block. -/
def node.contributes : node → Bool
  | .returnNode _ _ => true
  | .errorNode _ => true
  | .ifStatementNode _ _ => true
  | .blockNode _ => true
  | .funDefNode _ _ _ _ => false
  | .other _ _ => false

/-- The statement is an if statement or a block. -/
def node.isNested : node → Bool
  | .ifStatementNode _ _ => true
  | .blockNode _ => true
  | _ => false

/-- A variable of type Unknown, as an identifier node of its scope. -/
def sampleUnknown : expr :=
  .exprIdentNode (sampleRoot.newVar "u" unknownType).1 unknownType "u"

/-- An identifier `bad` of a scope in which `newVar bad` was called with the
type Invalid: `lookup` finds its descriptor without error. -/
def sampleInvalid : expr :=
  .exprIdentNode (sampleRoot.newVar "bad" invalidType).1 unknownType "bad"

/-- The statements reachable from these statements through nested if
statements and nested blocks: the statements themselves and, for each if
statement and each block among them, the statements reachable from its
children. -/
def reachableFrom : List node → List node
  | [] => []
  | .ifStatementNode condExpr ch :: rest =>
    .ifStatementNode condExpr ch :: (reachableFrom ch ++ reachableFrom rest)
  | .blockNode ch :: rest => .blockNode ch :: (reachableFrom ch ++ reachableFrom rest)
  | .returnNode value ch :: rest => .returnNode value ch :: reachableFrom rest
  | .errorNode ch :: rest => .errorNode ch :: reachableFrom rest
  | .funDefNode name args inline ch :: rest =>
    .funDefNode name args inline ch :: reachableFrom rest
  | .other text ch :: rest => .other text ch :: reachableFrom rest

/-- The statements reachable from a block. -/
def node.reachable (n : node) : List node := reachableFrom n.children

mutual
/-- Written from the claim: some execution path through the statements of
the block falls off its end. -/
def fallsOffEnd : node → Bool
  | .returnNode _ ch => pathFallsOff ch
  | .errorNode ch => pathFallsOff ch
  | .ifStatementNode _ ch => pathFallsOff ch
  | .blockNode ch => pathFallsOff ch
  | .funDefNode _ _ _ ch => pathFallsOff ch
  | .other _ ch => pathFallsOff ch
/-- Written from the claim: a path runs the statements in order, so it falls
off the end when it runs past every statement. -/
def pathFallsOff : List node → Bool
  | [] => true
  | stmt :: rest => runsPast stmt && pathFallsOff rest
/-- Written from the claim: some path runs past the statement.  A path
stops at a `Return` or an `Error`, takes either branch of an if statement or
skips it when it has no else-branch, and falls through every other
statement. -/
def runsPast : node → Bool
  | .returnNode _ _ => false
  | .errorNode _ => false
  | .ifStatementNode _ ch => someBranchFallsOff ch
  | .blockNode _ => true
  | .funDefNode _ _ _ _ => true
  | .other _ _ => true
/-- Written from the claim: the branches of an if statement; without an
else-branch the statement can be skipped, with one a path takes either
branch and runs past the statement when it falls off the end of the branch
it took. -/
def someBranchFallsOff : List node → Bool
  | [] => true
  | [_] => true
  | trueBranch :: elseBranch :: _ => fallsOffEnd trueBranch || fallsOffEnd elseBranch
end

/-! ## Lemmas on Go maps -/

theorem mapGet_mapSet_same {α : Type} (m : List (String × α)) (k : String) (v : α) :
    mapGet (mapSet m k v) k = some v := by
  induction m with
  | nil => simp [mapSet, mapGet]
  | cons p rest ih =>
    obtain ⟨k', v'⟩ := p
    by_cases h : k' = k
    · simp [mapSet, mapGet, h]
    · simp [mapSet, mapGet, h, ih]

theorem mapGet_mapSet_ne {α : Type} (m : List (String × α)) (k k' : String) (v : α)
    (h : k' ≠ k) : mapGet (mapSet m k v) k' = mapGet m k' := by
  induction m with
  | nil => simp [mapSet, mapGet, Ne.symm h]
  | cons p rest ih =>
    obtain ⟨k0, v0⟩ := p
    by_cases h0 : k0 = k
    · subst h0
      simp [mapSet, mapGet, Ne.symm h]
    · by_cases h1 : k0 = k'
      · subst h1
        simp [mapSet, mapGet, h0]
      · simp [mapSet, mapGet, h0, h1, ih]

theorem mapGet_eq_none_iff {α : Type} (m : List (String × α)) (k : String) :
    mapGet m k = none ↔ k ∉ m.map Prod.fst := by
  induction m with
  | nil => simp [mapGet]
  | cons p rest ih =>
    obtain ⟨k0, v0⟩ := p
    by_cases h0 : k0 = k
    · simp [mapGet, h0]
    · simp [mapGet, h0, ih, Ne.symm h0]

theorem mapSet_of_none {α : Type} (m : List (String × α)) (k : String) (v : α)
    (h : mapGet m k = none) : mapSet m k v = m ++ [(k, v)] := by
  induction m with
  | nil => simp [mapSet]
  | cons p rest ih =>
    obtain ⟨k0, v0⟩ := p
    by_cases h0 : k0 = k
    · simp [mapGet, h0] at h
    · simp only [mapGet, h0, if_false] at h
      simp [mapSet, h0, ih h]

theorem mapSet_keys_of_some {α : Type} (m : List (String × α)) (k : String) (v : α)
    (h : mapGet m k ≠ none) : (mapSet m k v).map Prod.fst = m.map Prod.fst := by
  induction m with
  | nil => simp [mapGet] at h
  | cons p rest ih =>
    obtain ⟨k0, v0⟩ := p
    by_cases h0 : k0 = k
    · simp [mapSet, h0]
    · simp only [mapGet, h0, if_false] at h
      simp [mapSet, h0, ih h]

theorem mapGet_mem {α : Type} (m : List (String × α)) (k : String) (v : α)
    (h : mapGet m k = some v) : (k, v) ∈ m := by
  induction m with
  | nil => simp [mapGet] at h
  | cons p rest ih =>
    obtain ⟨k0, v0⟩ := p
    by_cases h0 : k0 = k
    · simp [mapGet, h0] at h
      simp [h0, h]
    · simp only [mapGet, h0, if_false] at h
      exact List.mem_cons_of_mem _ (ih h)

theorem mapGet_of_mem_nodup {α : Type} (m : List (String × α)) (k : String) (v : α)
    (hn : (m.map Prod.fst).Nodup) (h : (k, v) ∈ m) : mapGet m k = some v := by
  induction m with
  | nil => simp at h
  | cons p rest ih =>
    obtain ⟨k0, v0⟩ := p
    simp only [List.map_cons, List.nodup_cons] at hn
    rcases List.mem_cons.mp h with h1 | h1
    · cases h1
      simp [mapGet]
    · have : k0 ≠ k := by
        intro e
        subst e
        exact hn.1 (List.mem_map_of_mem Prod.fst h1)
      simp [mapGet, this, ih hn.2 h1]

/-! ## Lookup and declaration -/

theorem addLiteral_cur (parseStringLiteral : String → Except String (List UInt8))
    (ctx : context) (value : String) (theType : exprType) :
    (ctx.addLiteral parseStringLiteral value theType).1.cur = ctx.cur ∧
    (ctx.addLiteral parseStringLiteral value theType).1.parents = ctx.parents := by
  unfold context.addLiteral
  cases mapGet ctx.literals.literals value with
  | some info => simp
  | none =>
    by_cases h1 : theType = intType
    · simp [h1]
    · by_cases h2 : theType = bytesType
      · cases parseStringLiteral value <;> simp [h2]
      · simp [h1, h2]

theorem lookupChain_none (x : String) (l : List scope)
    (h : ∀ s ∈ l, mapGet s.vars x = none) :
    lookupChain x l = (varInfo.zero, some ("ident '" ++ x ++ "' not defined")) := by
  induction l with
  | nil => rfl
  | cons s rest ih =>
    have hs := h s (List.mem_cons_self _ _)
    simp only [lookupChain, hs]
    exact ih (fun t ht => h t (List.mem_cons_of_mem _ ht))

/-- Claim C1.  Lookup returns the nearest enclosing declaration and never
sees a sibling scope.  Let a parent scope `P` (with ancestors `rest`) have two
child scopes `c1` and `c2`, sharing the chain `P :: rest`, and let `x` be
declared in `c1` with descriptor `d`.  Then `lookup x` from `c1` returns
exactly `d` without error, whatever `P` and its ancestors declare, and
`lookup x` from `c2` fails with the error `ident 'x' not defined` whenever
`x` is declared neither in `c2` nor in any ancestor of `c2`. -/
theorem lookup_nearest_not_sibling (lits : literalInfo) (c1 c2 P : scope) (rest : List scope)
    (x : String) (d : varInfo) (hdecl : mapGet c1.vars x = some d) :
    (context.mk lits c1 (P :: rest)).lookup x = (d, none) ∧
    ((∀ s ∈ (context.mk lits c2 (P :: rest)).chain, mapGet s.vars x = none) →
      (context.mk lits c2 (P :: rest)).lookup x
        = (varInfo.zero, some ("ident '" ++ x ++ "' not defined"))) := by
  refine ⟨?_, ?_⟩
  · simp [context.lookup, context.chain, lookupChain, hdecl]
  · intro h
    exact lookupChain_none x _ h


/-- Witness of C1: the root declares `x` at address 0, its first child
declares `x` again at address 1 and its second child declares only `y`; the
first child sees its own `x`, and once the root no longer declares `x` the
second child sees none. -/
theorem lookup_nearest_not_sibling_witness :
    (context.mk newLiteralInfo (sampleScope [("x", sampleVar "x" bytesType 1)] 1 2)
        [sampleScope [("x", sampleVar "x" intType 0)] 0 1]).lookup "x"
      = (sampleVar "x" bytesType 1, none) ∧
    (context.mk newLiteralInfo (sampleScope [("y", sampleVar "y" intType 1)] 1 2)
        [sampleScope [("z", sampleVar "z" intType 0)] 0 1]).lookup "x"
      = (varInfo.zero, some "ident 'x' not defined") :=
  ⟨(lookup_nearest_not_sibling newLiteralInfo
      (sampleScope [("x", sampleVar "x" bytesType 1)] 1 2)
      (sampleScope [("y", sampleVar "y" intType 1)] 1 2)
      (sampleScope [("x", sampleVar "x" intType 0)] 0 1) [] "x"
      (sampleVar "x" bytesType 1) (by decide)).1,
   (lookup_nearest_not_sibling newLiteralInfo
      (sampleScope [("x", sampleVar "x" bytesType 1)] 1 2)
      (sampleScope [("y", sampleVar "y" intType 1)] 1 2)
      (sampleScope [("z", sampleVar "z" intType 0)] 0 1) [] "x"
      (sampleVar "x" bytesType 1) (by decide)).2 (by decide)⟩

/-- Claim C2, as the code has it.  `newVar name theType` fails exactly when
`name` is already in the scope's own name table, whatever the ancestors
declare; when it succeeds, `name` is bound to a variable descriptor whose
address is the previous `addressNext`, and `addressNext` has grown by exactly
one when it was below `2^64 - 1`, and is 0 when it was `2^64 - 1`. -/
theorem newVar_fails_iff_declared_here (ctx : context) (name : String) (theType : exprType) :
    ((ctx.newVar name theType).2 ≠ none ↔ mapGet ctx.cur.vars name ≠ none) ∧
    ((ctx.newVar name theType).2 = none →
      mapGet (ctx.newVar name theType).1.cur.vars name
        = some { name := name, theType := theType, kind := variableKind,
                 address := ctx.cur.addressNext, value := none, parser := none, node := none } ∧
      (ctx.newVar name theType).1.cur.addressNext = (ctx.cur.addressNext + 1) % 2 ^ 64 ∧
      (ctx.cur.addressNext < 2 ^ 64 - 1 →
        (ctx.newVar name theType).1.cur.addressNext = ctx.cur.addressNext + 1) ∧
      (ctx.cur.addressNext = 2 ^ 64 - 1 →
        (ctx.newVar name theType).1.cur.addressNext = 0)) := by
  unfold context.newVar
  cases h : mapGet ctx.cur.vars name with
  | none =>
    simp only [ne_eq, not_true_eq_false, mapGet_mapSet_same, true_and, forall_const]
    refine ⟨?_, ?_⟩
    · intro hlt
      apply Nat.mod_eq_of_lt
      omega
    · intro he
      rw [he]
      decide
  | some v => simp

/-- Witness of C2: in the sample root `z` is new and gets address 2, and the
next address is 3; `a` is declared and `newVar a` fails. -/
theorem newVar_fails_iff_declared_here_witness :
    (sampleRoot.newVar "a" intType).2 ≠ none ∧
    mapGet (sampleRoot.newVar "z" intType).1.cur.vars "z" = some (sampleVar "z" intType 2) ∧
    (sampleRoot.newVar "z" intType).1.cur.addressNext = 3 :=
  ⟨(newVar_fails_iff_declared_here sampleRoot "a" intType).1.mpr (by decide),
   ((newVar_fails_iff_declared_here sampleRoot "z" intType).2 (by decide)).1,
   ((newVar_fails_iff_declared_here sampleRoot "z" intType).2 (by decide)).2.2.1 (by decide)⟩

/-- Counterexample to C2 as stated.  An empty root scope remapped to
`2^64 - 1` has that next address; `newVar a` succeeds, binds `a` at
`2^64 - 1`, and the next address is 0, not one more. -/
theorem newVar_wraps_addressNext :
    ((newContext sampleParse "0" "1" "global" none).remapTo (2 ^ 64 - 1)).cur.addressNext
      = 2 ^ 64 - 1 ∧
    (((newContext sampleParse "0" "1" "global" none).remapTo (2 ^ 64 - 1)).newVar
      "a" intType).2 = none ∧
    mapGet (((newContext sampleParse "0" "1" "global" none).remapTo (2 ^ 64 - 1)).newVar
      "a" intType).1.cur.vars "a" = some (sampleVar "a" intType (2 ^ 64 - 1)) ∧
    (((newContext sampleParse "0" "1" "global" none).remapTo (2 ^ 64 - 1)).newVar
      "a" intType).1.cur.addressNext = 0 := by
  decide

theorem varsFrom_keys (a : Nat) (decls : List (String × exprType)) :
    (varsFrom a decls).map Prod.fst = decls.map Prod.fst := by
  induction decls generalizing a with
  | nil => rfl
  | cons p rest ih =>
    obtain ⟨n, t⟩ := p
    simp [varsFrom, ih]

theorem varsFrom_addresses (a : Nat) (decls : List (String × exprType)) :
    (varsFrom a decls).map (fun p => p.2.address) = List.range' a decls.length := by
  induction decls generalizing a with
  | nil => rfl
  | cons p rest ih =>
    obtain ⟨n, t⟩ := p
    simp [varsFrom, ih, List.range'_succ]

theorem varsFrom_mem (a : Nat) (decls : List (String × exprType)) (i : Nat)
    (h : i < decls.length) :
    ((decls.get ⟨i, h⟩).1,
      ({ name := (decls.get ⟨i, h⟩).1, theType := (decls.get ⟨i, h⟩).2, kind := variableKind,
         address := a + i, value := none, parser := none, node := none } : varInfo))
      ∈ varsFrom a decls := by
  induction decls generalizing a i with
  | nil => simp at h
  | cons p rest ih =>
    obtain ⟨n, t⟩ := p
    cases i with
    | zero => simp [varsFrom]
    | succ j =>
      have hj : j < rest.length := by simpa using h
      have := ih (a + 1) j hj
      simp only [varsFrom, List.get_cons_succ]
      refine List.mem_cons_of_mem _ ?_
      have e : a + (j + 1) = a + 1 + j := by omega
      rw [e]
      exact this

theorem newVars_fresh (ctx : context) (decls : List (String × exprType))
    (hn : ((ctx.cur.vars.map Prod.fst) ++ decls.map Prod.fst).Nodup)
    (hb : ctx.cur.addressNext + decls.length < 2 ^ 64) :
    (newVars ctx decls).1
      = { ctx with cur := { ctx.cur with
            vars := ctx.cur.vars ++ varsFrom ctx.cur.addressNext decls
            addressNext := ctx.cur.addressNext + decls.length } } ∧
    ∀ e ∈ (newVars ctx decls).2, e = none := by
  induction decls generalizing ctx with
  | nil => simp [newVars, varsFrom]
  | cons p rest ih =>
    obtain ⟨n, t⟩ := p
    have hfresh : mapGet ctx.cur.vars n = none := by
      rw [mapGet_eq_none_iff]
      intro hmem
      have := List.nodup_append.mp hn
      exact this.2.2 hmem (by simp)
    have hlen : ctx.cur.addressNext + 1 + rest.length < 2 ^ 64 := by
      simp only [List.length_cons] at hb
      omega
    have hmod : (ctx.cur.addressNext + 1) % 2 ^ 64 = ctx.cur.addressNext + 1 :=
      Nat.mod_eq_of_lt (by omega)
    have hstep : ctx.newVar n t
        = ({ ctx with cur := { ctx.cur with
              vars := ctx.cur.vars ++
                [(n, (⟨n, t, variableKind, ctx.cur.addressNext, none, none, none⟩ : varInfo))]
              addressNext := ctx.cur.addressNext + 1 } }, none) := by
      unfold context.newVar
      simp only [hfresh, hmod, mapSet_of_none _ _ _ hfresh]
    have hn' : (((ctx.newVar n t).1.cur.vars.map Prod.fst) ++ rest.map Prod.fst).Nodup := by
      rw [hstep]
      simpa [List.append_assoc] using hn
    have := ih (ctx.newVar n t).1 hn' (by rw [hstep]; exact hlen)
    refine ⟨?_, ?_⟩
    · simp only [newVars]
      rw [this.1, hstep]
      simp [varsFrom, List.append_assoc, Nat.add_assoc, Nat.add_comm 1]
    · intro e he
      simp only [newVars, List.mem_cons] at he
      rcases he with he | he
      · rw [he, hstep]
      · exact this.2 e he

/-- Claim C3, as the code has it.  In a freshly created scope (a root, or a
child of any parent) with entry address `addressEntry`, let `N` calls of
`newVar` with pairwise distinct names be made, with `addressEntry + N` below
`2^64`.  The calls all succeed; the variable declared `i`-th (from 0) has
address `addressEntry + i`, the addresses in the name table are exactly
`addressEntry, ..., addressEntry + N - 1`, and `addressNext` is
`addressEntry + N`.  The entry address of a root is zero and that of a child
is its parent's `addressNext`. -/
theorem newVar_addresses_contiguous
    (parseStringLiteral : String → Except String (List UInt8))
    (falseConstValue trueConstValue scopeName : String) (parent : Option context)
    (decls : List (String × exprType)) (hdistinct : (decls.map Prod.fst).Nodup)
    (hbound : (newContext parseStringLiteral falseConstValue trueConstValue scopeName
      parent).cur.addressEntry + decls.length < 2 ^ 64) :
    let fresh := newContext parseStringLiteral falseConstValue trueConstValue scopeName parent
    let after := (newVars fresh decls).1
    (∀ e ∈ (newVars fresh decls).2, e = none) ∧
    (∀ (i : Nat) (h : i < decls.length),
      mapGet after.cur.vars (decls.get ⟨i, h⟩).1
        = some { name := (decls.get ⟨i, h⟩).1, theType := (decls.get ⟨i, h⟩).2,
                 kind := variableKind, address := fresh.cur.addressEntry + i,
                 value := none, parser := none, node := none }) ∧
    after.cur.vars.map (fun p => p.2.address)
      = List.range' fresh.cur.addressEntry decls.length ∧
    after.cur.addressNext = fresh.cur.addressEntry + decls.length ∧
    after.cur.addressEntry = fresh.cur.addressEntry ∧
    fresh.cur.addressEntry = (match parent with
      | none => 0
      | some p => p.cur.addressNext) := by
  intro fresh after
  have hvars : fresh.cur.vars = [] := by
    cases parent <;> simp [fresh, newContext, addLiteral_cur]
  have hentry : fresh.cur.addressNext = fresh.cur.addressEntry := by
    cases parent <;> simp [fresh, newContext, addLiteral_cur]
  have hmain := newVars_fresh fresh decls (by simpa [hvars] using hdistinct)
    (by rw [hentry]; exact hbound)
  have hafter : after = { fresh with cur := { fresh.cur with
            vars := fresh.cur.vars ++ varsFrom fresh.cur.addressNext decls
            addressNext := fresh.cur.addressNext + decls.length } } := hmain.1
  refine ⟨hmain.2, ?_, ?_, ?_, ?_, ?_⟩
  · intro i h
    rw [hafter, hvars, hentry]
    apply mapGet_of_mem_nodup
    · simpa [varsFrom_keys] using hdistinct
    · simpa using varsFrom_mem fresh.cur.addressEntry decls i h
  · rw [hafter, hvars, hentry]
    simpa using varsFrom_addresses fresh.cur.addressEntry decls
  · rw [hafter, hentry]
  · rw [hafter]
  · cases parent <;> simp [fresh, newContext, addLiteral_cur]

/-- Witness of C3: three variables declared in a child of a scope whose next
address is 5 get the addresses 5, 6 and 7. -/
theorem newVar_addresses_contiguous_witness :
    (newVars (newContext sampleParse "0" "1" "f"
        (some (context.mk newLiteralInfo (sampleScope [] 0 5) [])))
      [("a", intType), ("b", bytesType), ("c", intType)]).1.cur.vars.map (fun p => p.2.address)
      = List.range' 5 3 :=
  (newVar_addresses_contiguous sampleParse "0" "1" "f"
    (some (context.mk newLiteralInfo (sampleScope [] 0 5) []))
    [("a", intType), ("b", bytesType), ("c", intType)] (by decide) (by decide)).2.2.1

/-- Counterexample to C3 as stated.  The parent is an empty root scope
remapped to `2^64 - 1`, so a new child scope has that entry address.  Two
`newVar` calls in the child succeed; `a` is at `2^64 - 1`, `b` at 0 and not
at the entry address plus one, and the next address is 1, not the entry
address plus two. -/
theorem newVar_addresses_wrap :
    (newContext sampleParse "0" "1" "f"
      (some ((newContext sampleParse "0" "1" "global" none).remapTo
        (2 ^ 64 - 1)))).cur.addressEntry = 2 ^ 64 - 1 ∧
    (newVars (newContext sampleParse "0" "1" "f"
      (some ((newContext sampleParse "0" "1" "global" none).remapTo (2 ^ 64 - 1))))
      [("a", intType), ("b", intType)]).2 = [none, none] ∧
    mapGet (newVars (newContext sampleParse "0" "1" "f"
      (some ((newContext sampleParse "0" "1" "global" none).remapTo (2 ^ 64 - 1))))
      [("a", intType), ("b", intType)]).1.cur.vars "a"
      = some (sampleVar "a" intType (2 ^ 64 - 1)) ∧
    mapGet (newVars (newContext sampleParse "0" "1" "f"
      (some ((newContext sampleParse "0" "1" "global" none).remapTo (2 ^ 64 - 1))))
      [("a", intType), ("b", intType)]).1.cur.vars "b"
      = some (sampleVar "b" intType 0) ∧
    (newVars (newContext sampleParse "0" "1" "f"
      (some ((newContext sampleParse "0" "1" "global" none).remapTo (2 ^ 64 - 1))))
      [("a", intType), ("b", intType)]).1.cur.addressNext = 1 := by
  decide

/-! ## Remapping -/

theorem insertByAddress_perm (x : varInfo) (l : List varInfo) :
    (insertByAddress x l).Perm (x :: l) := by
  induction l with
  | nil => simp [insertByAddress]
  | cons y ys ih =>
    by_cases h : x.address < y.address
    · simp [insertByAddress, h]
    · simp only [insertByAddress, h, if_false]
      exact ((List.Perm.cons y ih).trans (List.Perm.swap x y ys))

theorem sortByAddress_perm (l : List varInfo) : (sortByAddress l).Perm l := by
  induction l with
  | nil => simp [sortByAddress]
  | cons x xs ih =>
    simp only [sortByAddress]
    exact (insertByAddress_perm x _).trans (List.Perm.cons x ih)

theorem insertByAddress_sorted (x : varInfo) (l : List varInfo)
    (h : l.Pairwise (fun a b => a.address ≤ b.address)) :
    (insertByAddress x l).Pairwise (fun a b => a.address ≤ b.address) := by
  induction l with
  | nil => simp [insertByAddress]
  | cons y ys ih =>
    rw [List.pairwise_cons] at h
    by_cases hxy : x.address < y.address
    · simp only [insertByAddress, hxy, if_true]
      refine List.Pairwise.cons ?_ (List.Pairwise.cons h.1 h.2)
      intro z hz
      rcases List.mem_cons.mp hz with hz | hz
      · subst hz
        omega
      · have := h.1 z hz
        omega
    · simp only [insertByAddress, hxy, if_false]
      refine List.Pairwise.cons ?_ (ih h.2)
      intro z hz
      rcases List.mem_cons.mp ((insertByAddress_perm x ys).mem_iff.mp hz) with hz | hz
      · subst hz
        omega
      · exact h.1 z hz

theorem sortByAddress_sorted (l : List varInfo) :
    (sortByAddress l).Pairwise (fun a b => a.address ≤ b.address) := by
  induction l with
  | nil => simp [sortByAddress]
  | cons x xs ih => exact insertByAddress_sorted x _ ih

/-- In a list with strictly increasing addresses the position of an element
is the number of elements with a smaller address. -/
theorem countP_lt_of_sorted (l : List varInfo)
    (h : l.Pairwise (fun a b => a.address < b.address)) (i : Nat) (hi : i < l.length) :
    l.countP (fun y => decide (y.address < (l.get ⟨i, hi⟩).address)) = i := by
  induction l generalizing i with
  | nil => simp at hi
  | cons x xs ih =>
    rw [List.pairwise_cons] at h
    cases i with
    | zero =>
      simp only [List.get_cons_zero, List.countP_eq_zero]
      intro y hy
      rcases List.mem_cons.mp hy with hy | hy
      · subst hy
        simp
      · have := h.1 y hy
        simp
        omega
    | succ j =>
      have hj : j < xs.length := by simpa using hi
      have hx : x.address < (xs.get ⟨j, hj⟩).address := h.1 _ (List.get_mem _ _ _)
      simp only [List.get_cons_succ, List.countP_cons, hx, decide_True, if_true]
      rw [ih h.2 j hj]

theorem update_own (ctx : context) (name : String) (info : varInfo)
    (h : mapGet ctx.cur.vars name ≠ none) :
    ctx.update name info
      = ({ ctx with cur := { ctx.cur with vars := mapSet ctx.cur.vars name info } }, none) := by
  unfold context.update
  cases h' : mapGet ctx.cur.vars name with
  | none => exact absurd h' h
  | some v => rfl

theorem mapGet_mapSet_ne_none {α : Type} (m : List (String × α)) (k k' : String) (v : α)
    (h : mapGet m k' ≠ none) : mapGet (mapSet m k v) k' ≠ none := by
  by_cases e : k' = k
  · subst e
    simp [mapGet_mapSet_same]
  · rw [mapGet_mapSet_ne m k k' v e]
    exact h

theorem remapLoop_eq (ctx : context) (newBase : Nat) (l : List varInfo)
    (h : ∀ x ∈ l, mapGet ctx.cur.vars x.name ≠ none) :
    remapLoop ctx newBase l
      = ({ ctx with cur := { ctx.cur with vars := remapVars ctx.cur.vars newBase l } },
         if l.length = 0 then newBase else (newBase + l.length) % 2 ^ 64) := by
  induction l generalizing ctx newBase with
  | nil => simp [remapLoop, remapVars]
  | cons x xs ih =>
    have hx := h x (List.mem_cons_self _ _)
    simp only [remapLoop, remapVars]
    rw [update_own ctx x.name _ hx]
    rw [ih]
    · have e : (if xs.length = 0 then (newBase + 1) % 2 ^ 64
          else ((newBase + 1) % 2 ^ 64 + xs.length) % 2 ^ 64)
          = (newBase + (xs.length + 1)) % 2 ^ 64 := by
        by_cases h0 : xs.length = 0
        · rw [if_pos h0, h0]
        · rw [if_neg h0, Nat.mod_add_mod]
          congr 1
          omega
      simp only [List.length_cons, Nat.add_one_ne_zero, if_false, e]
    · intro y hy
      exact mapGet_mapSet_ne_none _ _ _ _ (h y (List.mem_cons_of_mem _ hy))

theorem remapVars_other (vars : List (String × varInfo)) (newBase : Nat) (l : List varInfo)
    (k : String) (hk : k ∉ l.map (fun x => x.name)) :
    mapGet (remapVars vars newBase l) k = mapGet vars k := by
  induction l generalizing vars newBase with
  | nil => rfl
  | cons x xs ih =>
    simp only [List.map_cons, List.mem_cons, not_or] at hk
    simp only [remapVars]
    rw [ih _ _ hk.2, mapGet_mapSet_ne _ _ _ _ hk.1]

/-- The address that the second loop of `remapTo` gives to the `i`-th
descriptor of its list: `newBase` after `i` steps of `newBase++`. -/
theorem remapVars_get (vars : List (String × varInfo)) (newBase : Nat) (l : List varInfo)
    (hn : (l.map (fun x => x.name)).Nodup) (i : Nat) (hi : i < l.length) :
    mapGet (remapVars vars newBase l) (l.get ⟨i, hi⟩).name
      = some { l.get ⟨i, hi⟩ with
          address := if i = 0 then newBase else (newBase + i) % 2 ^ 64 } := by
  induction l generalizing vars newBase i with
  | nil => simp at hi
  | cons x xs ih =>
    simp only [List.map_cons, List.nodup_cons] at hn
    cases i with
    | zero =>
      show mapGet (remapVars (mapSet vars x.name { x with address := newBase })
        ((newBase + 1) % 2 ^ 64) xs) x.name = some { x with address := newBase }
      rw [remapVars_other _ _ _ _ hn.1, mapGet_mapSet_same]
    | succ j =>
      have hj : j < xs.length := by simpa using hi
      simp only [remapVars, List.get_cons_succ]
      rw [ih _ _ hn.2 j hj]
      have e : (if j = 0 then (newBase + 1) % 2 ^ 64
          else ((newBase + 1) % 2 ^ 64 + j) % 2 ^ 64)
          = (newBase + (j + 1)) % 2 ^ 64 := by
        by_cases h0 : j = 0
        · rw [if_pos h0, h0]
        · rw [if_neg h0, Nat.mod_add_mod]
          congr 1
          omega
      simp only [Nat.add_one_ne_zero, if_false, e]

theorem remapVars_keys (vars : List (String × varInfo)) (newBase : Nat) (l : List varInfo)
    (h : ∀ x ∈ l, mapGet vars x.name ≠ none) :
    (remapVars vars newBase l).map Prod.fst = vars.map Prod.fst := by
  induction l generalizing vars newBase with
  | nil => rfl
  | cons x xs ih =>
    have hx := h x (List.mem_cons_self _ _)
    simp only [remapVars]
    rw [ih, mapSet_keys_of_some _ _ _ hx]
    intro y hy
    exact mapGet_mapSet_ne_none _ _ _ _ (h y (List.mem_cons_of_mem _ hy))

theorem mem_mapSet {α : Type} (m : List (String × α)) (k : String) (v : α) (p : String × α)
    (h : p ∈ mapSet m k v) : p = (k, v) ∨ p ∈ m := by
  induction m with
  | nil =>
    simp only [mapSet, List.mem_singleton] at h
    exact Or.inl h
  | cons q rest ih =>
    obtain ⟨k0, v0⟩ := q
    by_cases h0 : k0 = k
    · simp only [mapSet, h0, if_true, List.mem_cons] at h
      rcases h with h | h
      · exact Or.inl h
      · exact Or.inr (List.mem_cons_of_mem _ h)
    · simp only [mapSet, h0, if_false, List.mem_cons] at h
      rcases h with h | h
      · exact Or.inr (by rw [h]; exact List.mem_cons_self _ _)
      · rcases ih h with h | h
        · exact Or.inl h
        · exact Or.inr (List.mem_cons_of_mem _ h)

theorem mapSet_keys_nodup {α : Type} (m : List (String × α)) (k : String) (v : α)
    (h : (m.map Prod.fst).Nodup) : ((mapSet m k v).map Prod.fst).Nodup := by
  cases hg : mapGet m k with
  | none =>
    rw [mapSet_of_none m k v hg, List.map_append, List.nodup_append]
    refine ⟨h, by simp, ?_⟩
    intro a ha hb
    simp only [List.map_cons, List.map_nil, List.mem_singleton] at hb
    subst hb
    exact (mapGet_eq_none_iff m a).mp hg ha
  | some w =>
    rw [mapSet_keys_of_some m k v (by simp [hg])]
    exact h

theorem mapSet_wellFormed (vars : List (String × varInfo)) (k : String) (v : varInfo)
    (hv : v.name = k) (h : scopeWellFormed vars) : scopeWellFormed (mapSet vars k v) := by
  refine ⟨mapSet_keys_nodup vars k v h.1, ?_⟩
  intro p hp
  rcases mem_mapSet vars k v p hp with e | e
  · rw [e]
    exact hv
  · exact h.2 p e

/-- Every scope built from a new root by `addLiteral`, `newConst`, `newVar`
and `newFunc` calls stores each descriptor under the descriptor's own name,
once. -/
theorem afterCall_wellFormed (parseStringLiteral : String → Except String (List UInt8))
    (ctx : context) (c : call) (h : scopeWellFormed ctx.cur.vars) :
    scopeWellFormed (ctx.afterCall parseStringLiteral c).cur.vars := by
  cases c with
  | addLiteral value theType =>
    simp only [context.afterCall, (addLiteral_cur parseStringLiteral ctx value theType).1]
    exact h
  | newConst name theType value =>
    simp only [context.afterCall, context.newConst]
    cases mapGet ctx.cur.vars name with
    | some d => exact h
    | none =>
      have hc := (addLiteral_cur parseStringLiteral ctx value theType).1
      rcases hr : ctx.addLiteral parseStringLiteral value theType with ⟨c1, off, e⟩
      rw [hr] at hc
      simp only at hc
      cases e with
      | some msg =>
        simp only [hc]
        exact h
      | none =>
        simp only [hc]
        exact mapSet_wellFormed _ _ _ rfl h
  | newVar name theType =>
    simp only [context.afterCall, context.newVar]
    cases mapGet ctx.cur.vars name with
    | some d => exact h
    | none => exact mapSet_wellFormed _ _ _ rfl h
  | newFunc name theType p =>
    simp only [context.afterCall, context.newFunc]
    cases mapGet ctx.cur.vars name with
    | some d => exact h
    | none => exact mapSet_wellFormed _ _ _ rfl h

theorem afterCalls_wellFormed (parseStringLiteral : String → Except String (List UInt8))
    (falseConstValue trueConstValue name : String) (parent : Option context)
    (calls : List call) :
    scopeWellFormed ((newContext parseStringLiteral falseConstValue trueConstValue name
      parent).afterCalls parseStringLiteral calls).cur.vars := by
  have h0 : scopeWellFormed
      (newContext parseStringLiteral falseConstValue trueConstValue name parent).cur.vars := by
    cases parent <;> simp [newContext, addLiteral_cur, scopeWellFormed]
  generalize newContext parseStringLiteral falseConstValue trueConstValue name parent = ctx at h0
  induction calls generalizing ctx with
  | nil => exact h0
  | cons c rest ih => exact ih _ (afterCall_wellFormed parseStringLiteral ctx c h0)

/-- Claim C4, as the code has it.  Let a scope hold only variable
descriptors, each stored under its own name, and let `b` plus the number of
variables be below `2^64`.  After `remapTo b`: listing the variables in
ascending order of their addresses before the call, the `k`-th of the list
(from 0) is the same descriptor at address `b + k`; when no two variables had
the same address, the variable with the `k`-th smallest address, that is with
`k` variables of the scope below it, is at `b + k`; `addressEntry` is `b`,
`addressNext` is `b` plus the number of variables, and the scope still holds
only variable descriptors. -/
theorem remapTo_preserves_order (ctx : context) (b : Nat)
    (hvars : ∀ p ∈ ctx.cur.vars, p.2.kind = variableKind)
    (hkeys : (ctx.cur.vars.map Prod.fst).Nodup)
    (hname : ∀ p ∈ ctx.cur.vars, p.2.name = p.1)
    (hb : b + ctx.cur.vars.length < 2 ^ 64) :
    (∃ l : List varInfo, l.Perm (ctx.cur.vars.map Prod.snd) ∧
      l.Pairwise (fun x y => x.address ≤ y.address) ∧
      ∀ (k : Nat) (hk : k < l.length),
        mapGet (ctx.remapTo b).cur.vars (l.get ⟨k, hk⟩).name
          = some { l.get ⟨k, hk⟩ with address := b + k }) ∧
    ((ctx.cur.vars.map (fun p => p.2.address)).Nodup →
      ∀ p ∈ ctx.cur.vars,
        mapGet (ctx.remapTo b).cur.vars p.1
          = some { p.2 with address :=
              b + ctx.cur.vars.countP (fun q => decide (q.2.address < p.2.address)) }) ∧
    (ctx.remapTo b).cur.addressEntry = b ∧
    (ctx.remapTo b).cur.addressNext = b + ctx.cur.vars.length ∧
    (∀ p ∈ (ctx.remapTo b).cur.vars, p.2.kind = variableKind) := by
  have hperm := sortByAddress_perm (ctx.cur.vars.map Prod.snd)
  have hsorted := sortByAddress_sorted (ctx.cur.vars.map Prod.snd)
  have hnameq : (ctx.cur.vars.map Prod.snd).map (fun x => x.name) = ctx.cur.vars.map Prod.fst := by
    rw [List.map_map]
    apply List.map_congr_left
    intro p hp
    exact hname p hp
  have hnodup : ((sortByAddress (ctx.cur.vars.map Prod.snd)).map (fun x => x.name)).Nodup := by
    rw [(hperm.map _).nodup_iff, hnameq]
    exact hkeys
  have hin : ∀ x ∈ sortByAddress (ctx.cur.vars.map Prod.snd),
      mapGet ctx.cur.vars x.name ≠ none := by
    intro x hx
    have hx' := hperm.mem_iff.mp hx
    obtain ⟨p, hp, rfl⟩ := List.mem_map.mp hx'
    rw [Ne, mapGet_eq_none_iff, not_not, hname p hp]
    exact List.mem_map_of_mem Prod.fst hp
  have hloop := remapLoop_eq
    { ctx with cur := { ctx.cur with addressEntry := b } } b
    (sortByAddress (ctx.cur.vars.map Prod.snd)) hin
  have hlen : (sortByAddress (ctx.cur.vars.map Prod.snd)).length = ctx.cur.vars.length := by
    rw [hperm.length_eq, List.length_map]
  have haddr : ∀ k, k < ctx.cur.vars.length →
      (if k = 0 then b else (b + k) % 2 ^ 64) = b + k := by
    intro k hk
    by_cases h0 : k = 0
    · rw [if_pos h0, h0, Nat.add_zero]
    · rw [if_neg h0]
      exact Nat.mod_eq_of_lt (by omega)
  have hkth : ∀ (k : Nat) (hk : k < (sortByAddress (ctx.cur.vars.map Prod.snd)).length),
      mapGet (ctx.remapTo b).cur.vars
          ((sortByAddress (ctx.cur.vars.map Prod.snd)).get ⟨k, hk⟩).name
        = some { (sortByAddress (ctx.cur.vars.map Prod.snd)).get ⟨k, hk⟩ with
            address := b + k } := by
    intro k hk
    simp only [context.remapTo, hloop]
    have hval := remapVars_get ctx.cur.vars b _ hnodup k hk
    rw [haddr k (by rw [← hlen]; exact hk)] at hval
    exact hval
  have hkeys' : (ctx.remapTo b).cur.vars.map Prod.fst = ctx.cur.vars.map Prod.fst := by
    simp only [context.remapTo, hloop]
    exact remapVars_keys ctx.cur.vars b _ hin
  refine ⟨⟨_, hperm, hsorted, hkth⟩, ?_, ?_, ?_, ?_⟩
  · intro hdist p hp
    have hstrict : (sortByAddress (ctx.cur.vars.map Prod.snd)).Pairwise
        (fun a b => a.address < b.address) := by
      have hnd :
          ((sortByAddress (ctx.cur.vars.map Prod.snd)).map (fun x => x.address)).Nodup := by
        rw [(hperm.map _).nodup_iff, List.map_map]
        exact hdist
      have hne := List.pairwise_map.mp hnd
      exact (hsorted.and hne).imp (fun h => Nat.lt_of_le_of_ne h.1 h.2)
    have hmem : p.2 ∈ sortByAddress (ctx.cur.vars.map Prod.snd) :=
      hperm.mem_iff.mpr (List.mem_map_of_mem Prod.snd hp)
    obtain ⟨⟨i, hi⟩, hget⟩ := List.mem_iff_get.mp hmem
    have hrank := countP_lt_of_sorted _ hstrict i hi
    rw [hget, hperm.countP_eq, List.countP_map] at hrank
    have hval := hkth i hi
    rw [hget, hname p hp] at hval
    rw [hval]
    have : List.countP (fun q => decide (q.2.address < p.2.address)) ctx.cur.vars = i := by
      rw [← hrank]
      rfl
    rw [this]
  · simp only [context.remapTo, hloop]
  · simp only [context.remapTo, hloop, hlen]
    by_cases h0 : ctx.cur.vars.length = 0
    · rw [if_pos h0, h0, Nat.add_zero]
    · rw [if_neg h0]
      exact Nat.mod_eq_of_lt hb
  · intro p hp
    have hpk : p.1 ∈ ctx.cur.vars.map Prod.fst := by
      rw [← hkeys']
      exact List.mem_map_of_mem Prod.fst hp
    obtain ⟨q, hq, hq1⟩ := List.mem_map.mp hpk
    have hmem : q.2 ∈ sortByAddress (ctx.cur.vars.map Prod.snd) :=
      hperm.mem_iff.mpr (List.mem_map_of_mem Prod.snd hq)
    obtain ⟨⟨i, hi⟩, hget⟩ := List.mem_iff_get.mp hmem
    have hval := hkth i hi
    rw [hget, hname q hq, hq1] at hval
    have hp2 := mapGet_of_mem_nodup (ctx.remapTo b).cur.vars p.1 p.2
      (by rw [hkeys']; exact hkeys) hp
    rw [hp2] at hval
    have e := Option.some.inj hval
    rw [e]
    exact hvars q hq

/-- Witness of C4: `b` is stored before `a`, `a` is at address 0 and `b` at
address 1; after `remapTo 10`, `a` is at 10, `b` at 11 and the next address
is 12. -/
theorem remapTo_preserves_order_witness :
    mapGet ((context.mk newLiteralInfo
        (sampleScope [("b", sampleVar "b" bytesType 1), ("a", sampleVar "a" intType 0)] 0 2)
        []).remapTo 10).cur.vars "a" = some (sampleVar "a" intType 10) ∧
    mapGet ((context.mk newLiteralInfo
        (sampleScope [("b", sampleVar "b" bytesType 1), ("a", sampleVar "a" intType 0)] 0 2)
        []).remapTo 10).cur.vars "b" = some (sampleVar "b" bytesType 11) ∧
    ((context.mk newLiteralInfo
        (sampleScope [("b", sampleVar "b" bytesType 1), ("a", sampleVar "a" intType 0)] 0 2)
        []).remapTo 10).cur.addressNext = 12 :=
  have h := remapTo_preserves_order
    (context.mk newLiteralInfo
      (sampleScope [("b", sampleVar "b" bytesType 1), ("a", sampleVar "a" intType 0)] 0 2) [])
    10 (by decide) (by decide) (by decide) (by decide)
  ⟨h.2.1 (by decide) ("a", sampleVar "a" intType 0) (by decide),
   h.2.1 (by decide) ("b", sampleVar "b" bytesType 1) (by decide), h.2.2.2.1⟩

/-- Counterexample to C4 as stated.  With `a` at 0 and `b` at 1 in a new
root scope, `remapTo (2^64 - 1)` puts `a` at `2^64 - 1` and `b` at 0, and the
next address is 1.  And in a scope whose only variable is stored under `x`
with a descriptor named `y`, as `update` can store it, `remapTo 10` leaves
the variable at address 0 and advances the next address to 11. -/
theorem remapTo_wraps_and_updates_by_name :
    mapGet ((((newContext sampleParse "0" "1" "global" none).newVar "a" intType).1.newVar
      "b" intType).1.remapTo (2 ^ 64 - 1)).cur.vars "a"
      = some (sampleVar "a" intType (2 ^ 64 - 1)) ∧
    mapGet ((((newContext sampleParse "0" "1" "global" none).newVar "a" intType).1.newVar
      "b" intType).1.remapTo (2 ^ 64 - 1)).cur.vars "b" = some (sampleVar "b" intType 0) ∧
    ((((newContext sampleParse "0" "1" "global" none).newVar "a" intType).1.newVar
      "b" intType).1.remapTo (2 ^ 64 - 1)).cur.addressNext = 1 ∧
    ((((newContext sampleParse "0" "1" "global" none).newVar "x" intType).1.update "x"
      (sampleVar "y" intType 0)).1).cur.vars = [("x", sampleVar "y" intType 0)] ∧
    mapGet (((((newContext sampleParse "0" "1" "global" none).newVar "x" intType).1.update "x"
      (sampleVar "y" intType 0)).1).remapTo 10).cur.vars "x"
      = some (sampleVar "y" intType 0) ∧
    (((((newContext sampleParse "0" "1" "global" none).newVar "x" intType).1.update "x"
      (sampleVar "y" intType 0)).1).remapTo 10).cur.addressNext = 11 := by
  decide

/-- Claim C5, at a failing input.  In the root scope after `newVar a`,
`newVar b` and `newConst c = 7` the constant `c` has address 2, its offset in
`intc`; `remapTo 10` moves it to address 12, where `intc` has no entry, and
advances `addressNext` to 13, counting the constant.  In a scope that holds
only the function `f`, `remapTo 10` moves `f` from address 0 to 10 and
advances `addressNext` to 11. -/
theorem remapTo_moves_constants_and_functions :
    mapGet sampleRoot.cur.vars "c"
      = some ⟨"c", intType, constantKind, 2, some "7", none, none⟩ ∧
    sampleRoot.literals.intc = ["0", "1", "7"] ∧
    mapGet (sampleRoot.remapTo 10).cur.vars "c"
      = some ⟨"c", intType, constantKind, 12, some "7", none, none⟩ ∧
    (sampleRoot.remapTo 10).cur.addressNext = 13 ∧
    mapGet (((newContext sampleParse "0" "1" "global" none).newFunc "f" intType
        (some 0)).1.remapTo 10).cur.vars "f"
      = some ⟨"f", intType, functionKind, 10, none, some 0, none⟩ ∧
    (((newContext sampleParse "0" "1" "global" none).newFunc "f" intType
        (some 0)).1.remapTo 10).cur.addressNext = 11 := by
  decide

/-! ## Interning and rejected calls -/

/-- Claim C6.  Interning is idempotent: when `addLiteral value theType`
succeeds, a second call with the same arguments succeeds with the same offset
and leaves the whole receiver as the first call left it, so that the integer
sequence and the byte sequence keep their lengths and contents. -/
theorem addLiteral_idempotent (parseStringLiteral : String → Except String (List UInt8))
    (ctx : context) (value : String) (theType : exprType)
    (hok : (ctx.addLiteral parseStringLiteral value theType).2.2 = none) :
    ((ctx.addLiteral parseStringLiteral value theType).1.addLiteral
        parseStringLiteral value theType).2.1
      = (ctx.addLiteral parseStringLiteral value theType).2.1 ∧
    ((ctx.addLiteral parseStringLiteral value theType).1.addLiteral
        parseStringLiteral value theType).2.2 = none ∧
    ((ctx.addLiteral parseStringLiteral value theType).1.addLiteral
        parseStringLiteral value theType).1
      = (ctx.addLiteral parseStringLiteral value theType).1 ∧
    ((ctx.addLiteral parseStringLiteral value theType).1.addLiteral
        parseStringLiteral value theType).1.literals.intc.length
      = (ctx.addLiteral parseStringLiteral value theType).1.literals.intc.length ∧
    ((ctx.addLiteral parseStringLiteral value theType).1.addLiteral
        parseStringLiteral value theType).1.literals.bytec.length
      = (ctx.addLiteral parseStringLiteral value theType).1.literals.bytec.length := by
  have key : ∀ c : context, ∀ d : literalDesc, mapGet c.literals.literals value = some d →
      c.addLiteral parseStringLiteral value theType = (c, d.offset, none) := by
    intro c d hd
    simp [context.addLiteral, hd]
  cases hget : mapGet ctx.literals.literals value with
  | some d =>
    have h1 := key ctx d hget
    rw [h1]
    simp only
    rw [h1]
    simp
  | none =>
    by_cases hi : theType = intType
    · have h1 : ctx.addLiteral parseStringLiteral value theType
          = ({ ctx with literals :=
                { literals := mapSet ctx.literals.literals value ⟨ctx.literals.intc.length, intType⟩
                  intc := ctx.literals.intc ++ [value]
                  bytec := ctx.literals.bytec } }, ctx.literals.intc.length, none) := by
        simp [context.addLiteral, hget, hi]
      rw [h1]
      simp only
      rw [key _ ⟨ctx.literals.intc.length, intType⟩ (mapGet_mapSet_same _ _ _)]
      simp
    · by_cases hb : theType = bytesType
      · cases hp : parseStringLiteral value with
        | error e =>
          simp [context.addLiteral, hget, hb, hp] at hok
        | ok parsed =>
          have h1 : ctx.addLiteral parseStringLiteral value theType
              = ({ ctx with literals :=
                    { literals :=
                        mapSet ctx.literals.literals value ⟨ctx.literals.bytec.length, bytesType⟩
                      intc := ctx.literals.intc
                      bytec := ctx.literals.bytec ++ [parsed] } },
                  ctx.literals.bytec.length, none) := by
            simp [context.addLiteral, hget, hb, hp]
          rw [h1]
          simp only
          rw [key _ ⟨ctx.literals.bytec.length, bytesType⟩ (mapGet_mapSet_same _ _ _)]
          simp
      · simp [context.addLiteral, hget, hi, hb] at hok

/-- Witness of C6: interning the byte literal `ab` twice in an empty pool
gives offset 0 both times and one entry in the byte sequence. -/
theorem addLiteral_idempotent_witness :
    (((context.mk newLiteralInfo (sampleScope [] 0 0) []).addLiteral
        sampleParse "ab" bytesType).1.addLiteral sampleParse "ab" bytesType).2.1
      = ((context.mk newLiteralInfo (sampleScope [] 0 0) []).addLiteral
          sampleParse "ab" bytesType).2.1 :=
  (addLiteral_idempotent sampleParse (context.mk newLiteralInfo (sampleScope [] 0 0) [])
    "ab" bytesType (by decide)).1

/-- Claim C8.  A root scope made by `newContext` without a parent has a pool
that records exactly two literals, both integers: the false constant at
offset 0 and the true constant at offset 1 (the two texts being different);
its byte sequence and its name table are empty and its entry and next
addresses are zero. -/
theorem newContext_root_seeds_booleans
    (parseStringLiteral : String → Except String (List UInt8))
    (falseConstValue trueConstValue name : String)
    (hne : falseConstValue ≠ trueConstValue) :
    (newContext parseStringLiteral falseConstValue trueConstValue name none).literals
      = { literals := [(falseConstValue, ⟨0, intType⟩), (trueConstValue, ⟨1, intType⟩)]
          intc := [falseConstValue, trueConstValue]
          bytec := [] } ∧
    (newContext parseStringLiteral falseConstValue trueConstValue name none).cur.vars = [] ∧
    (newContext parseStringLiteral falseConstValue trueConstValue name none).cur.addressEntry = 0 ∧
    (newContext parseStringLiteral falseConstValue trueConstValue name none).cur.addressNext = 0 ∧
    (newContext parseStringLiteral falseConstValue trueConstValue name none).parents = [] := by
  simp [newContext, context.addLiteral, newLiteralInfo, mapGet, mapSet, hne]

/-- Witness of C8, with the texts `0` and `1`. -/
theorem newContext_root_seeds_booleans_witness :
    (newContext sampleParse "0" "1" "global" none).literals
      = { literals := [("0", ⟨0, intType⟩), ("1", ⟨1, intType⟩)]
          intc := ["0", "1"]
          bytec := [] } :=
  (newContext_root_seeds_booleans sampleParse "0" "1" "global" (by decide)).1

/-- Claim C9.  A rejected declaration or intern is atomic: when `newVar`,
`newConst`, `newFunc` or `addLiteral` returns an error, the receiver after
the call (name table, entry and next address, ancestors, and the pool with
its map, integer sequence and byte sequence) is the receiver before it. -/
theorem rejected_calls_change_nothing
    (parseStringLiteral : String → Except String (List UInt8)) (ctx : context)
    (name value : String) (theType : exprType) (callDefParser : Option Nat) :
    ((ctx.newVar name theType).2 ≠ none → (ctx.newVar name theType).1 = ctx) ∧
    ((ctx.newConst parseStringLiteral name theType value).2 ≠ none →
      (ctx.newConst parseStringLiteral name theType value).1 = ctx) ∧
    ((ctx.newFunc name theType callDefParser).2 ≠ none →
      (ctx.newFunc name theType callDefParser).1 = ctx) ∧
    ((ctx.addLiteral parseStringLiteral value theType).2.2 ≠ none →
      (ctx.addLiteral parseStringLiteral value theType).1 = ctx) := by
  have hadd : (ctx.addLiteral parseStringLiteral value theType).2.2 ≠ none →
      (ctx.addLiteral parseStringLiteral value theType).1 = ctx := by
    unfold context.addLiteral
    cases mapGet ctx.literals.literals value with
    | some d => simp
    | none =>
      by_cases hi : theType = intType
      · simp [hi]
      · by_cases hb : theType = bytesType
        · cases parseStringLiteral value <;> simp [hb]
        · simp [hi, hb]
  refine ⟨?_, ?_, ?_, hadd⟩
  · unfold context.newVar
    cases mapGet ctx.cur.vars name <;> simp
  · unfold context.newConst
    cases mapGet ctx.cur.vars name with
    | some d => simp
    | none =>
      rcases hr : ctx.addLiteral parseStringLiteral value theType with ⟨c1, off, e⟩
      cases e with
      | none => simp
      | some msg =>
        intro _
        have := hadd (by rw [hr]; simp)
        rw [hr] at this
        simpa using this
  · unfold context.newFunc
    cases mapGet ctx.cur.vars name <;> simp

/-- Witness of C9: in the sample root scope, which declares `a`, the calls
`newVar a` and `newFunc a` are rejected for the name, `newConst d` for its
malformed byte literal and `addLiteral` for the unknown literal type; each
leaves the scope as it was. -/
theorem rejected_calls_change_nothing_witness :
    ((sampleRoot.newVar "a" intType).2 ≠ none ∧ (sampleRoot.newVar "a" intType).1 = sampleRoot) ∧
    ((sampleRoot.newConst sampleParse "d" bytesType "bad").2 ≠ none ∧
      (sampleRoot.newConst sampleParse "d" bytesType "bad").1 = sampleRoot) ∧
    ((sampleRoot.newFunc "a" intType none).2 ≠ none ∧
      (sampleRoot.newFunc "a" intType none).1 = sampleRoot) ∧
    ((sampleRoot.addLiteral sampleParse "9" unknownType).2.2 ≠ none ∧
      (sampleRoot.addLiteral sampleParse "9" unknownType).1 = sampleRoot) :=
  ⟨⟨by decide,
    (rejected_calls_change_nothing sampleParse sampleRoot "a" "bad" intType none).1
      (by decide)⟩,
   ⟨by decide,
    (rejected_calls_change_nothing sampleParse sampleRoot "d" "bad" bytesType none).2.1
      (by decide)⟩,
   ⟨by decide,
    (rejected_calls_change_nothing sampleParse sampleRoot "a" "bad" intType none).2.2.1
      (by decide)⟩,
   ⟨by decide,
    (rejected_calls_change_nothing sampleParse sampleRoot "a" "9" unknownType none).2.2.2
      (by decide)⟩⟩

/-! ## Update -/

theorem updateChain_not_found (name : String) (d : varInfo) (l : List scope)
    (h : (updateChain name d l).2 = false) : (updateChain name d l).1 = l := by
  induction l with
  | nil => rfl
  | cons s rest ih =>
    cases hs : mapGet s.vars name with
    | some v => simp [updateChain, hs] at h
    | none =>
      simp only [updateChain, hs] at h ⊢
      rw [ih h]

theorem update_eq_updateChain (ctx : context) (name : String) (info : varInfo) :
    (ctx.update name info).1.chain = (updateChain name info ctx.chain).1 ∧
    (ctx.update name info).1.literals = ctx.literals ∧
    ((ctx.update name info).2 = none ↔ (updateChain name info ctx.chain).2 = true) ∧
    ((ctx.update name info).2 ≠ none → (ctx.update name info).1 = ctx) := by
  unfold context.update context.chain
  simp only [updateChain]
  cases h : mapGet ctx.cur.vars name with
  | some v => simp
  | none =>
    cases h2 : (updateChain name info ctx.parents).2
    · simp [updateChain_not_found name info ctx.parents h2]
    · simp

theorem updateChain_spec (name : String) (d : varInfo) (l : List scope) :
    ((updateChain name d l).2 = true ↔ (lookupChain name l).2 = none) ∧
    ((updateChain name d l).2 = false → (updateChain name d l).1 = l) ∧
    ((updateChain name d l).2 = true →
      (lookupChain name (updateChain name d l).1) = (d, none) ∧
      ∃ (i : Nat) (s : scope), l.get? i = some s ∧
        (∀ (j : Nat) (t : scope), j < i → l.get? j = some t → mapGet t.vars name = none) ∧
        mapGet s.vars name ≠ none ∧
        (updateChain name d l).1 = l.set i { s with vars := mapSet s.vars name d }) := by
  induction l with
  | nil => simp [updateChain, lookupChain]
  | cons s rest ih =>
    cases h : mapGet s.vars name with
    | some v =>
      simp only [updateChain, lookupChain, h, true_iff, forall_true_left]
      refine ⟨trivial, by simp, ?_, ?_⟩
      · simp [mapGet_mapSet_same]
      · refine ⟨0, s, rfl, ?_, ?_, rfl⟩
        · intro j t hj
          omega
        · simp [h]
    | none =>
      simp only [updateChain, lookupChain, h]
      refine ⟨ih.1, ?_, ?_⟩
      · intro hf
        rw [updateChain_not_found name d rest hf]
      · intro ht
        obtain ⟨hl, i, s', hget, hbefore, hdecl, heq⟩ := ih.2.2 ht
        refine ⟨hl, i + 1, s', by simpa using hget, ?_, hdecl, ?_⟩
        · intro j t hj hjt
          cases j with
          | zero =>
            simp at hjt
            rw [← hjt]
            exact h
          | succ j' =>
            exact hbefore j' t (by omega) (by simpa using hjt)
        · rw [heq]
          rfl

/-- Claim C10.  `update name d` succeeds exactly when `lookup name`
succeeds.  On success the innermost scope `s` of the chain that declares
`name` (at position `i`, no scope before it declares `name`) gets `d` as its
entry for `name` and `lookup name` then returns `d`; the chain is otherwise
the same: every other scope is untouched, and in `s` only the name table
changes, where only the entry of `name` is overwritten, so all other entries,
the set of names and all address counters stay as they were, as does the
pool.  On failure the receiver is unchanged. -/
theorem update_overwrites_nearest (ctx : context) (name : String) (d : varInfo) :
    ((ctx.update name d).2 = none ↔ (ctx.lookup name).2 = none) ∧
    ((ctx.update name d).2 = none →
      (ctx.update name d).1.lookup name = (d, none) ∧
      (ctx.update name d).1.literals = ctx.literals ∧
      ∃ (i : Nat) (s : scope), ctx.chain.get? i = some s ∧
        (∀ (j : Nat) (t : scope), j < i → ctx.chain.get? j = some t →
          mapGet t.vars name = none) ∧
        mapGet s.vars name ≠ none ∧
        (ctx.update name d).1.chain = ctx.chain.set i { s with vars := mapSet s.vars name d } ∧
        mapGet (mapSet s.vars name d) name = some d ∧
        (∀ k : String, k ≠ name → mapGet (mapSet s.vars name d) k = mapGet s.vars k) ∧
        (mapSet s.vars name d).map Prod.fst = s.vars.map Prod.fst) ∧
    ((ctx.update name d).2 ≠ none → (ctx.update name d).1 = ctx) := by
  have h1 := update_eq_updateChain ctx name d
  have h2 := updateChain_spec name d ctx.chain
  refine ⟨?_, ?_, h1.2.2.2⟩
  · rw [h1.2.2.1, h2.1]
    rfl
  · intro hok
    have ht := h1.2.2.1.mp hok
    obtain ⟨hl, i, s, hget, hbefore, hdecl, heq⟩ := h2.2.2 ht
    refine ⟨?_, h1.2.1, i, s, hget, hbefore, hdecl, ?_, mapGet_mapSet_same _ _ _, ?_, ?_⟩
    · unfold context.lookup
      rw [h1.1]
      exact hl
    · rw [h1.1]
      exact heq
    · intro k hk
      exact mapGet_mapSet_ne _ _ _ _ hk
    · exact mapSet_keys_of_some _ _ _ hdecl

/-- Witness of C10: `x` is declared in the parent only; `update x` from the
child succeeds and rewrites the parent's entry, after which `lookup x` from
the child returns the new descriptor; `update y` fails and changes nothing. -/
theorem update_overwrites_nearest_witness :
    ((context.mk newLiteralInfo (sampleScope [("z", sampleVar "z" intType 1)] 1 2)
        [sampleScope [("x", sampleVar "x" unknownType 0)] 0 1]).update "x"
        (sampleVar "x" bytesType 0)).1
      = context.mk newLiteralInfo (sampleScope [("z", sampleVar "z" intType 1)] 1 2)
          [sampleScope [("x", sampleVar "x" bytesType 0)] 0 1] ∧
    ((context.mk newLiteralInfo (sampleScope [("z", sampleVar "z" intType 1)] 1 2)
        [sampleScope [("x", sampleVar "x" unknownType 0)] 0 1]).update "x"
        (sampleVar "x" bytesType 0)).1.lookup "x" = (sampleVar "x" bytesType 0, none) ∧
    ((context.mk newLiteralInfo (sampleScope [("z", sampleVar "z" intType 1)] 1 2)
        [sampleScope [("x", sampleVar "x" unknownType 0)] 0 1]).update "y"
        (sampleVar "y" bytesType 0)).1
      = context.mk newLiteralInfo (sampleScope [("z", sampleVar "z" intType 1)] 1 2)
          [sampleScope [("x", sampleVar "x" unknownType 0)] 0 1] :=
  ⟨by decide,
   ((update_overwrites_nearest
      (context.mk newLiteralInfo (sampleScope [("z", sampleVar "z" intType 1)] 1 2)
        [sampleScope [("x", sampleVar "x" unknownType 0)] 0 1]) "x"
      (sampleVar "x" bytesType 0)).2.1 (by decide)).1,
   (update_overwrites_nearest
      (context.mk newLiteralInfo (sampleScope [("z", sampleVar "z" intType 1)] 1 2)
        [sampleScope [("x", sampleVar "x" unknownType 0)] 0 1]) "y"
      (sampleVar "y" bytesType 0)).2.2 (by decide)⟩

/-! ## The invariant of the literal pool -/

section pool

variable (parseStringLiteral : String → Except String (List UInt8))

theorem addLiteral_poolStep (ctx : context) (value : String) (theType : exprType) :
    poolStep parseStringLiteral ctx.literals
      (ctx.addLiteral parseStringLiteral value theType).1.literals := by
  unfold context.addLiteral poolStep
  cases h : mapGet ctx.literals.literals value with
  | some d => simp
  | none =>
    by_cases hi : theType = intType
    · simp only [hi, if_true]
      exact Or.inr (Or.inl ⟨value, h, rfl⟩)
    · by_cases hb : theType = bytesType
      · cases hp : parseStringLiteral value with
        | error e => simp [hb]
        | ok b =>
          simp only [hi, hb, if_true, if_false]
          exact Or.inr (Or.inr ⟨value, b, h, hp, rfl⟩)
      · simp [hi, hb]

theorem afterCall_poolStep (ctx : context) (c : call) :
    poolStep parseStringLiteral ctx.literals (ctx.afterCall parseStringLiteral c).literals := by
  cases c with
  | addLiteral value theType => exact addLiteral_poolStep parseStringLiteral ctx value theType
  | newConst name theType value =>
    simp only [context.afterCall, context.newConst]
    cases mapGet ctx.cur.vars name with
    | some d => exact Or.inl rfl
    | none =>
      have := addLiteral_poolStep parseStringLiteral ctx value theType
      rcases hr : ctx.addLiteral parseStringLiteral value theType with ⟨c1, off, e⟩
      rw [hr] at this
      cases e <;> exact this
  | newVar name theType =>
    simp only [context.afterCall, context.newVar]
    cases mapGet ctx.cur.vars name <;> exact Or.inl rfl
  | newFunc name theType p =>
    simp only [context.afterCall, context.newFunc]
    cases mapGet ctx.cur.vars name <;> exact Or.inl rfl

theorem poolStep_keeps (L L' : literalInfo) (h : poolStep parseStringLiteral L L') :
    (∀ v d, mapGet L.literals v = some d → mapGet L'.literals v = some d) ∧
    L.intc <+: L'.intc ∧ L.bytec <+: L'.bytec := by
  rcases h with h | ⟨w, hw, h⟩ | ⟨w, b, hw, _, h⟩
  · subst h
    exact ⟨fun _ _ h => h, List.prefix_refl _, List.prefix_refl _⟩
  · subst h
    refine ⟨?_, List.prefix_append _ _, List.prefix_refl _⟩
    intro v d hv
    have : v ≠ w := by
      intro e
      rw [e, hw] at hv
      cases hv
    simpa [mapGet_mapSet_ne _ _ _ _ this] using hv
  · subst h
    refine ⟨?_, List.prefix_refl _, List.prefix_append _ _⟩
    intro v d hv
    have : v ≠ w := by
      intro e
      rw [e, hw] at hv
      cases hv
    simpa [mapGet_mapSet_ne _ _ _ _ this] using hv

theorem poolStep_invariant (L L' : literalInfo) (h : poolStep parseStringLiteral L L')
    (hinv : poolInvariant parseStringLiteral L) : poolInvariant parseStringLiteral L' := by
  obtain ⟨h2, h3, h4⟩ := hinv
  rcases h with h | ⟨w, hw, h⟩ | ⟨w, b, hw, hb, h⟩
  · subst h
    exact ⟨h2, h3, h4⟩
  · subst h
    refine ⟨?_, ?_, ?_⟩
    · intro v d hv
      by_cases e : v = w
      · subst e
        rw [mapGet_mapSet_same] at hv
        cases hv
        left
        simp
      · rw [mapGet_mapSet_ne _ _ _ _ e] at hv
        rcases h2 v d hv with ⟨ht, hg⟩ | hr
        · left
          refine ⟨ht, ?_⟩
          have hlt : d.offset < L.intc.length := by
            rcases Nat.lt_or_ge d.offset L.intc.length with h | h
            · exact h
            · rw [List.getElem?_eq_none h] at hg
              cases hg
          simp only
          rw [List.getElem?_append_left hlt]
          exact hg
        · right
          exact hr
    · intro i hi
      simp only [List.length_append, List.length_singleton] at hi
      by_cases hlt : i < L.intc.length
      · obtain ⟨u, hu, huniq⟩ := h3 i hlt
        have hne : u ≠ w := by
          intro e
          rw [e, hw] at hu
          cases hu
        refine ⟨u, ?_, ?_⟩
        · simp only
          rw [mapGet_mapSet_ne _ _ _ _ hne]
          exact hu
        · intro y hy
          simp only at hy
          by_cases e : y = w
          · subst e
            rw [mapGet_mapSet_same] at hy
            simp at hy
            omega
          · rw [mapGet_mapSet_ne _ _ _ _ e] at hy
            exact huniq y hy
      · have hi' : i = L.intc.length := by omega
        subst hi'
        refine ⟨w, ?_, ?_⟩
        · simp only
          rw [mapGet_mapSet_same]
        · intro y hy
          simp only at hy
          by_cases e : y = w
          · exact e
          · rw [mapGet_mapSet_ne _ _ _ _ e] at hy
            rcases h2 y _ hy with ⟨_, hg⟩ | ⟨ht, _⟩
            · simp at hg
            · simp at ht
    · intro i hi
      simp only at hi
      obtain ⟨u, hu, huniq⟩ := h4 i hi
      have hne : u ≠ w := by
        intro e
        rw [e, hw] at hu
        cases hu
      refine ⟨u, ?_, ?_⟩
      · simp only
        rw [mapGet_mapSet_ne _ _ _ _ hne]
        exact hu
      · intro y hy
        simp only at hy
        by_cases e : y = w
        · subst e
          rw [mapGet_mapSet_same] at hy
          simp at hy
        · rw [mapGet_mapSet_ne _ _ _ _ e] at hy
          exact huniq y hy
  · subst h
    refine ⟨?_, ?_, ?_⟩
    · intro v d hv
      by_cases e : v = w
      · subst e
        rw [mapGet_mapSet_same] at hv
        cases hv
        right
        exact ⟨rfl, b, hb, by simp⟩
      · rw [mapGet_mapSet_ne _ _ _ _ e] at hv
        rcases h2 v d hv with hl | ⟨ht, b', hb', hg⟩
        · left
          exact hl
        · right
          refine ⟨ht, b', hb', ?_⟩
          have hlt : d.offset < L.bytec.length := by
            rcases Nat.lt_or_ge d.offset L.bytec.length with h | h
            · exact h
            · rw [List.getElem?_eq_none h] at hg
              cases hg
          simp only
          rw [List.getElem?_append_left hlt]
          exact hg
    · intro i hi
      simp only at hi
      obtain ⟨u, hu, huniq⟩ := h3 i hi
      have hne : u ≠ w := by
        intro e
        rw [e, hw] at hu
        cases hu
      refine ⟨u, ?_, ?_⟩
      · simp only
        rw [mapGet_mapSet_ne _ _ _ _ hne]
        exact hu
      · intro y hy
        simp only at hy
        by_cases e : y = w
        · subst e
          rw [mapGet_mapSet_same] at hy
          simp at hy
        · rw [mapGet_mapSet_ne _ _ _ _ e] at hy
          exact huniq y hy
    · intro i hi
      simp only [List.length_append, List.length_singleton] at hi
      by_cases hlt : i < L.bytec.length
      · obtain ⟨u, hu, huniq⟩ := h4 i hlt
        have hne : u ≠ w := by
          intro e
          rw [e, hw] at hu
          cases hu
        refine ⟨u, ?_, ?_⟩
        · simp only
          rw [mapGet_mapSet_ne _ _ _ _ hne]
          exact hu
        · intro y hy
          simp only at hy
          by_cases e : y = w
          · subst e
            rw [mapGet_mapSet_same] at hy
            simp at hy
            omega
          · rw [mapGet_mapSet_ne _ _ _ _ e] at hy
            exact huniq y hy
      · have hi' : i = L.bytec.length := by omega
        subst hi'
        refine ⟨w, ?_, ?_⟩
        · simp only
          rw [mapGet_mapSet_same]
        · intro y hy
          simp only at hy
          by_cases e : y = w
          · exact e
          · rw [mapGet_mapSet_ne _ _ _ _ e] at hy
            rcases h2 y _ hy with ⟨ht, _⟩ | ⟨_, b', _, hg⟩
            · simp at ht
            · simp at hg

theorem afterCalls_invariant (ctx : context) (calls : List call)
    (hinv : poolInvariant parseStringLiteral ctx.literals) :
    poolInvariant parseStringLiteral (ctx.afterCalls parseStringLiteral calls).literals := by
  induction calls generalizing ctx with
  | nil => exact hinv
  | cons c rest ih =>
    exact ih _ (poolStep_invariant parseStringLiteral _ _
      (afterCall_poolStep parseStringLiteral ctx c) hinv)

theorem afterCalls_keeps (ctx : context) (calls : List call) :
    (∀ v d, mapGet ctx.literals.literals v = some d →
      mapGet (ctx.afterCalls parseStringLiteral calls).literals.literals v = some d) ∧
    ctx.literals.intc <+: (ctx.afterCalls parseStringLiteral calls).literals.intc ∧
    ctx.literals.bytec <+: (ctx.afterCalls parseStringLiteral calls).literals.bytec := by
  induction calls generalizing ctx with
  | nil => exact ⟨fun _ _ h => h, List.prefix_refl _, List.prefix_refl _⟩
  | cons c rest ih =>
    have h1 := poolStep_keeps parseStringLiteral _ _ (afterCall_poolStep parseStringLiteral ctx c)
    have h2 := ih (ctx.afterCall parseStringLiteral c)
    exact ⟨fun v d h => h2.1 v d (h1.1 v d h), h1.2.1.trans h2.2.1, h1.2.2.trans h2.2.2⟩

theorem newLiteralInfo_invariant : poolInvariant parseStringLiteral newLiteralInfo := by
  refine ⟨?_, ?_, ?_⟩
  · intro v d h
    simp [newLiteralInfo, mapGet] at h
  · intro i hi
    simp [newLiteralInfo] at hi
  · intro i hi
    simp [newLiteralInfo] at hi

theorem newContext_root_invariant (falseConstValue trueConstValue name : String) :
    poolInvariant parseStringLiteral
      (newContext parseStringLiteral falseConstValue trueConstValue name none).literals := by
  simp only [newContext]
  apply poolStep_invariant parseStringLiteral _ _ (addLiteral_poolStep parseStringLiteral _ _ _)
  apply poolStep_invariant parseStringLiteral _ _ (addLiteral_poolStep parseStringLiteral _ _ _)
  exact newLiteralInfo_invariant parseStringLiteral

theorem poolInvariant_nodup (L : literalInfo) (hinv : poolInvariant parseStringLiteral L) :
    L.intc.Nodup := by
  obtain ⟨h2, h3, _⟩ := hinv
  rw [List.nodup_iff_injective_get]
  intro ⟨i, hi⟩ ⟨j, hj⟩ hij
  obtain ⟨u, hu, _⟩ := h3 i hi
  obtain ⟨u', hu', _⟩ := h3 j hj
  have e1 : L.intc[i]? = some u := by
    rcases h2 u _ hu with ⟨_, hg⟩ | ⟨ht, _⟩
    · exact hg
    · simp at ht
  have e2 : L.intc[j]? = some u' := by
    rcases h2 u' _ hu' with ⟨_, hg⟩ | ⟨ht, _⟩
    · exact hg
    · simp at ht
  rw [List.getElem?_eq_getElem hi] at e1
  rw [List.getElem?_eq_getElem hj] at e2
  have : u = u' := by
    have a := Option.some.inj e1
    have b := Option.some.inj e2
    rw [← a, ← b]
    exact hij
  subst this
  rw [hu] at hu'
  have := Option.some.inj hu'
  simp at this
  exact Fin.ext this

/-- Claim C7.  Take the pool of a scope reached from a new root scope by a
sequence of `addLiteral` and `newConst` calls (calls of `newVar` and
`newFunc` may be mixed in).  Every recorded value sits at its recorded
offset in the sequence of its recorded type: `intc[offset]` is the value text
of an integer literal, `bytec[offset]` the parsed bytes of a byte literal.
Every slot of either sequence is the slot of exactly one recorded value, so
no value is stored twice, and `intc` has no duplicates.  After any further
calls every recorded value keeps its offset and type, and both sequences
keep what they held as a prefix. -/
theorem literal_pool_invariant
    (falseConstValue trueConstValue name : String) (calls later : List call) :
    let reached := (newContext parseStringLiteral falseConstValue trueConstValue name
      none).afterCalls parseStringLiteral calls
    let pool := reached.literals
    let after := (reached.afterCalls parseStringLiteral later).literals
    (∀ v d, mapGet pool.literals v = some d →
      (d.theType = intType ∧ pool.intc[d.offset]? = some v) ∨
      (d.theType = bytesType ∧
        ∃ b, parseStringLiteral v = .ok b ∧ pool.bytec[d.offset]? = some b)) ∧
    (∀ i, i < pool.intc.length → ∃! v, mapGet pool.literals v = some ⟨i, intType⟩) ∧
    (∀ i, i < pool.bytec.length → ∃! v, mapGet pool.literals v = some ⟨i, bytesType⟩) ∧
    pool.intc.Nodup ∧
    (∀ v d, mapGet pool.literals v = some d → mapGet after.literals v = some d) ∧
    pool.intc <+: after.intc ∧
    pool.bytec <+: after.bytec := by
  intro reached pool after
  have hinv : poolInvariant parseStringLiteral pool :=
    afterCalls_invariant parseStringLiteral _ calls
      (newContext_root_invariant parseStringLiteral falseConstValue trueConstValue name)
  have hk := afterCalls_keeps parseStringLiteral reached later
  exact ⟨hinv.1, hinv.2.1, hinv.2.2, poolInvariant_nodup parseStringLiteral _ hinv,
    hk.1, hk.2.1, hk.2.2⟩

end pool

/-! ## Type inference of expressions -/

theorem typeOf_done (sp : langSpec) (e : expr) (r : exprType × error)
    (h : e.typeOf sp = .done r) : ∃ e1, e.getType sp = .done (e1, r) := by
  unfold expr.typeOf at h
  cases hg : e.getType sp with
  | panic => rw [hg] at h; simp [run.map] at h
  | done res =>
    rw [hg] at h
    simp only [run.map, run.done.injEq] at h
    exact ⟨res.1, by rw [← h]⟩

theorem typeOf_panic (sp : langSpec) (e : expr) (h : e.typeOf sp = .panic) :
    e.getType sp = .panic := by
  unfold expr.typeOf at h
  cases hg : e.getType sp with
  | panic => rfl
  | done res => rw [hg] at h; simp [run.map] at h

theorem typeOf_of_getType (sp : langSpec) (e e1 : expr) (r : exprType × error)
    (h : e.getType sp = .done (e1, r)) : e.typeOf sp = .done r := by
  simp [expr.typeOf, h, run.map]

/-- The three outcomes of typing an expression. -/
theorem typeOf_cases (sp : langSpec) (e : expr) :
    e.typeOf sp = .panic ∨ (∃ t, e.typeOf sp = .done (t, none)) ∨
      ∃ t err, e.typeOf sp = .done (t, some err) := by
  cases h : e.typeOf sp with
  | panic => exact Or.inl rfl
  | done r =>
    obtain ⟨t, err⟩ := r
    cases err with
    | none => exact Or.inr (Or.inl ⟨t, rfl⟩)
    | some msg => exact Or.inr (Or.inr ⟨t, msg, rfl⟩)

theorem typeCast_typeOf (sp : langSpec) (e : expr) (targetType : exprType) :
    (expr.typeCastNode e targetType).typeOf sp =
      match e.typeOf sp with
      | .panic => .panic
      | .done (_, some err) => .done (unknownType, some err)
      | .done (exprType, none) =>
        if exprType ≠ unknownType ∧ exprType ≠ targetType then
          .done (unknownType,
            some ("cannot cast " ++ exprType.String ++ " to " ++ targetType.String))
        else .done (targetType, none) := by
  simp only [expr.typeOf, expr.getType]
  cases h : e.getType sp with
  | panic => simp [run.map]
  | done res =>
    obtain ⟨e1, t, err⟩ := res
    cases err with
    | some msg => simp [run.map]
    | none =>
      by_cases hc : t ≠ unknownType ∧ t ≠ targetType
      · simp [run.map, hc]
      · simp only [not_and_or, not_not] at hc
        rcases hc with hc | hc <;> simp [run.map, hc]

/-- Claim C20.  `getType` of a type cast succeeds exactly when the inner
expression types without error as Unknown or as the target type; when it
succeeds the result is the target type; when the inner expression types as
another type it fails with the error `cannot cast <type> to <target>`; an
error or a panic of the inner expression is passed on. -/
theorem typeCast_getType (sp : langSpec) (e : expr) (targetType : exprType) :
    ((∃ tp, (expr.typeCastNode e targetType).typeOf sp = .done (tp, none)) ↔
      (e.typeOf sp = .done (unknownType, none) ∨ e.typeOf sp = .done (targetType, none))) ∧
    (∀ tp, (expr.typeCastNode e targetType).typeOf sp = .done (tp, none) → tp = targetType) ∧
    (∀ t, e.typeOf sp = .done (t, none) → t ≠ unknownType → t ≠ targetType →
      (expr.typeCastNode e targetType).typeOf sp
        = .done (unknownType,
            some ("cannot cast " ++ t.String ++ " to " ++ targetType.String))) ∧
    (∀ t err, e.typeOf sp = .done (t, some err) →
      (expr.typeCastNode e targetType).typeOf sp = .done (unknownType, some err)) ∧
    (e.typeOf sp = .panic → (expr.typeCastNode e targetType).typeOf sp = .panic) := by
  rw [typeCast_typeOf]
  rcases typeOf_cases sp e with h | ⟨t, h⟩ | ⟨t, err, h⟩
  · simp [h]
  · simp only [h]
    by_cases h1 : t = unknownType
    · subst h1
      simp
    · by_cases h2 : t = targetType
      · subst h2
        simp
      · have h3 : ¬ unknownType = t := fun e => h1 e.symm
        have h4 : ¬ targetType = t := fun e => h2 e.symm
        simp [h1, h2, h3, h4]
  · simp [h]

theorem binOpCheck_spec (sp : langSpec) (op : String) (tp a b opLHS opRHS : exprType)
    (n : String)
    (hl : sp.argOpTypeFromSpec op 0 = (opLHS, none))
    (hr : sp.argOpTypeFromSpec op 1 = (opRHS, none)) :
    (((opLHS = unknownType ∨ a = opLHS) ∧ (opRHS = unknownType ∨ b = opRHS) ∧ a = b) →
      binOpCheck sp op tp a b n = (tp, none)) ∧
    (¬ ((opLHS = unknownType ∨ a = opLHS) ∧ (opRHS = unknownType ∨ b = opRHS) ∧ a = b) →
      ∃ err, binOpCheck sp op tp a b n = (invalidType, some err)) := by
  unfold binOpCheck
  rw [hl, hr]
  simp only
  by_cases h1 : opLHS ≠ unknownType ∧ a ≠ opLHS
  · rw [if_pos h1]
    refine ⟨fun h => ?_, fun _ => ⟨_, rfl⟩⟩
    rcases h.1 with h | h
    · exact absurd h h1.1
    · exact absurd h h1.2
  · rw [if_neg h1]
    by_cases h2 : opRHS ≠ unknownType ∧ b ≠ opRHS
    · rw [if_pos h2]
      refine ⟨fun h => ?_, fun _ => ⟨_, rfl⟩⟩
      rcases h.2.1 with h | h
      · exact absurd h h2.1
      · exact absurd h h2.2
    · rw [if_neg h2]
      by_cases h3 : a ≠ b
      · rw [if_pos h3]
        exact ⟨fun h => absurd h.2.2 h3, fun _ => ⟨_, rfl⟩⟩
      · rw [if_neg h3]
        refine ⟨fun _ => rfl, fun h => ?_⟩
        exfalso
        apply h
        simp only [not_and_or, not_not] at h1 h2 h3
        exact ⟨h1, h2, h3⟩

theorem binOp_typeOf (sp : langSpec) (t : exprType) (op : String) (lhs rhs : expr)
    (tp : exprType) (hop : sp.opTypeFromSpec op 0 = (tp, none)) :
    (lhs.typeOf sp = .panic → (expr.exprBinOpNode t op lhs rhs).typeOf sp = .panic) ∧
    (∀ a err, lhs.typeOf sp = .done (a, some err) →
      ∃ msg, (expr.exprBinOpNode t op lhs rhs).typeOf sp = .done (invalidType, some msg)) ∧
    (∀ a, lhs.typeOf sp = .done (a, none) → rhs.typeOf sp = .panic →
      (expr.exprBinOpNode t op lhs rhs).typeOf sp = .panic) ∧
    (∀ a b err, lhs.typeOf sp = .done (a, none) → rhs.typeOf sp = .done (b, some err) →
      ∃ msg, (expr.exprBinOpNode t op lhs rhs).typeOf sp = .done (invalidType, some msg)) ∧
    (∀ a b, lhs.typeOf sp = .done (a, none) → rhs.typeOf sp = .done (b, none) →
      ∃ n, (expr.exprBinOpNode t op lhs rhs).typeOf sp = .done (binOpCheck sp op tp a b n)) := by
  refine ⟨?_, ?_, ?_, ?_, ?_⟩
  · intro h
    have := typeOf_panic sp lhs h
    simp [expr.typeOf, expr.getType, hop, this, run.map]
  · intro a err h
    obtain ⟨l1, hl⟩ := typeOf_done sp lhs _ h
    exact ⟨"left operand '" ++ l1.String ++ "' has invalid type: " ++ err,
      by simp [expr.typeOf, expr.getType, hop, hl, run.map]⟩
  · intro a h h2
    obtain ⟨l1, hl⟩ := typeOf_done sp lhs _ h
    have := typeOf_panic sp rhs h2
    simp [expr.typeOf, expr.getType, hop, hl, this, run.map]
  · intro a b err h h2
    obtain ⟨l1, hl⟩ := typeOf_done sp lhs _ h
    obtain ⟨r1, hr⟩ := typeOf_done sp rhs _ h2
    exact ⟨"right operand '" ++ r1.String ++ "' has invalid type: " ++ err,
      by simp [expr.typeOf, expr.getType, hop, hl, hr, run.map]⟩
  · intro a b h h2
    obtain ⟨l1, hl⟩ := typeOf_done sp lhs _ h
    obtain ⟨r1, hr⟩ := typeOf_done sp rhs _ h2
    exact ⟨(expr.exprBinOpNode t op l1 r1).String,
      by simp [expr.typeOf, expr.getType, hop, hl, hr, run.map]⟩

/-- The typing of a binary-operator node, with the panics of its operands.
Let the operator be known to the specification: `opTypeFromSpec op 0` gives the result type `tp`, and
`argOpTypeFromSpec op 0` and `argOpTypeFromSpec op 1` give the expected
operand types `opLHS` and `opRHS`, all without error.  Then `getType`
succeeds exactly when both operands type without error, to one and the same
type, which is the expected type of each side that is not Unknown; when it
succeeds the result is `tp`; when it returns an error the type is Invalid;
it panics exactly when typing an operand panics (the right operand is typed
only after the left one succeeded), and otherwise it succeeds or returns
Invalid with an error. -/
theorem binOp_getType (sp : langSpec) (t : exprType) (op : String) (lhs rhs : expr)
    (tp opLHS opRHS : exprType)
    (hop : sp.opTypeFromSpec op 0 = (tp, none))
    (hl : sp.argOpTypeFromSpec op 0 = (opLHS, none))
    (hr : sp.argOpTypeFromSpec op 1 = (opRHS, none)) :
    ((∃ r, (expr.exprBinOpNode t op lhs rhs).typeOf sp = .done (r, none)) ↔
      ∃ a, lhs.typeOf sp = .done (a, none) ∧ rhs.typeOf sp = .done (a, none) ∧
        (opLHS = unknownType ∨ a = opLHS) ∧ (opRHS = unknownType ∨ a = opRHS)) ∧
    (∀ r, (expr.exprBinOpNode t op lhs rhs).typeOf sp = .done (r, none) → r = tp) ∧
    (∀ r err, (expr.exprBinOpNode t op lhs rhs).typeOf sp = .done (r, some err) →
      r = invalidType) ∧
    ((expr.exprBinOpNode t op lhs rhs).typeOf sp = .panic ↔
      (lhs.typeOf sp = .panic ∨
        ∃ a, lhs.typeOf sp = .done (a, none) ∧ rhs.typeOf sp = .panic)) ∧
    ((expr.exprBinOpNode t op lhs rhs).typeOf sp = .panic ∨
      (expr.exprBinOpNode t op lhs rhs).typeOf sp = .done (tp, none) ∨
      ∃ err, (expr.exprBinOpNode t op lhs rhs).typeOf sp = .done (invalidType, some err)) := by
  obtain ⟨k1, k2, k3, k4, k5⟩ := binOp_typeOf sp t op lhs rhs tp hop
  rcases typeOf_cases sp lhs with h | ⟨a, h⟩ | ⟨a, err, h⟩
  · have hp := k1 h
    simp [hp, h]
  · rcases typeOf_cases sp rhs with h2 | ⟨b, h2⟩ | ⟨b, err, h2⟩
    · have hp := k3 a h h2
      simp [hp, h, h2]
    · obtain ⟨n, hn⟩ := k5 a b h h2
      have hc := binOpCheck_spec sp op tp a b opLHS opRHS n hl hr
      by_cases hgood : (opLHS = unknownType ∨ a = opLHS) ∧ (opRHS = unknownType ∨ b = opRHS)
          ∧ a = b
      · have he := hc.1 hgood
        rw [he] at hn
        obtain ⟨g1, g2, g3⟩ := hgood
        subst g3
        simp [hn, h, h2, g1, g2]
      · obtain ⟨msg, he⟩ := hc.2 hgood
        rw [he] at hn
        simp only [hn, h, h2]
        refine ⟨?_, by simp, by simp, by simp, by simp⟩
        constructor
        · rintro ⟨r, hr'⟩
          simp at hr'
        · rintro ⟨a', ha1, ha2, ha3, ha4⟩
          simp only [run.done.injEq, Prod.mk.injEq, and_true] at ha1 ha2
          subst ha1
          subst ha2
          exact absurd ⟨ha3, ha4, rfl⟩ hgood
    · obtain ⟨msg, hp⟩ := k4 a b err h h2
      simp [hp, h, h2]
  · obtain ⟨msg, hp⟩ := k2 a err h
    simp [hp, h]

/-- Example: with `+` declared as integer, integer to integer, `1 + 2` types
as an integer and `1 + "a"` does not type. -/
theorem binOp_getType_witness :
    (∃ r, (expr.exprBinOpNode intType "+" (.exprLiteralNode intType "1")
      (.exprLiteralNode intType "2")).typeOf sampleSpec = .done (r, none)) ∧
    ¬ (∃ r, (expr.exprBinOpNode intType "+" (.exprLiteralNode intType "1")
      (.exprLiteralNode bytesType "\"a\"")).typeOf sampleSpec = .done (r, none)) :=
  ⟨(binOp_getType sampleSpec intType "+" (.exprLiteralNode intType "1")
      (.exprLiteralNode intType "2") intType intType intType
      (by decide) (by decide) (by decide)).1.mpr
      ⟨intType, by decide, by decide, by decide, by decide⟩,
   fun h =>
    (by
      obtain ⟨a, h1, h2, _⟩ := (binOp_getType sampleSpec intType "+"
        (.exprLiteralNode intType "1") (.exprLiteralNode bytesType "\"a\"")
        intType intType intType (by decide) (by decide) (by decide)).1.mp h
      have e1 : (expr.exprLiteralNode intType "1").typeOf sampleSpec
          = .done (intType, none) := by decide
      have e2 : (expr.exprLiteralNode bytesType "\"a\"").typeOf sampleSpec
          = .done (bytesType, none) := by decide
      rw [e1] at h1
      rw [e2] at h2
      cases h1
      cases h2)⟩

/-- Claim C15, at a failing input.  `+` is known to the specification as
UInt64 x UInt64 -> UInt64.  `1 + 2` types as UInt64 and `1 + "a"` gets Invalid
with an error, as the claim says.  `bad` is an identifier whose descriptor
has the type Invalid: `getType` of `bad + 1` and of `1 + bad` panics, where
the claim has the result Invalid with an error. -/
theorem binOp_getType_panics_on_invalid_operand :
    sampleSpec.opTypeFromSpec "+" 0 = (intType, none) ∧
    sampleSpec.argOpTypeFromSpec "+" 0 = (intType, none) ∧
    sampleSpec.argOpTypeFromSpec "+" 1 = (intType, none) ∧
    (expr.exprBinOpNode unknownType "+" (.exprLiteralNode intType "1")
      (.exprLiteralNode intType "2")).typeOf sampleSpec = .done (intType, none) ∧
    (expr.exprBinOpNode unknownType "+" (.exprLiteralNode intType "1")
      (.exprLiteralNode bytesType "\"a\"")).typeOf sampleSpec
      = .done (invalidType,
          some "incompatible right operand type: 'uint64' vs 'byte[]' in expr '1 + \"a\"'") ∧
    (expr.exprBinOpNode unknownType "+" sampleInvalid
      (.exprLiteralNode intType "1")).typeOf sampleSpec = .panic ∧
    (expr.exprBinOpNode unknownType "+" (.exprLiteralNode intType "1")
      sampleInvalid).typeOf sampleSpec = .panic := by
  decide

/-! ## Identifiers and result tuples -/

/-- Claim C16, at a failing input.  An identifier that no scope declares
fails with the error `ident lookup for zz failed: ident 'zz' not defined` and
the type Invalid, and an identifier that resolves to a valid descriptor gets
the descriptor's type.  An identifier that resolves to a descriptor whose
type is Invalid makes `getType` panic: `lookup` returned no error, and the
error text is built from `err.Error()`. -/
theorem ident_getType_panics_on_invalid_descriptor :
    (expr.exprIdentNode sampleRoot unknownType "zz").typeOf sampleSpec
      = .done (invalidType, some "ident lookup for zz failed: ident 'zz' not defined") ∧
    (expr.exprIdentNode sampleRoot unknownType "b").typeOf sampleSpec
      = .done (bytesType, none) ∧
    ((sampleRoot.newVar "bad" invalidType).1.lookup "bad").1.theType = invalidType ∧
    ((sampleRoot.newVar "bad" invalidType).1.lookup "bad").2 = none ∧
    (expr.exprIdentNode (sampleRoot.newVar "bad" invalidType).1 unknownType "bad").typeOf
      sampleSpec = .panic := by
  decide

/-- Claim C19, at a failing input.  For the builtin `get`, whose result slot
0 is Unknown and slot 1 an integer, a call resolved to bytes gets the tuple
(bytes, integer).  For the builtin `pair`, whose two result slots are both
Unknown, a call resolved to an integer gets (integer, Unknown): slot 1 is not
replaced. -/
theorem getTypeTuple_replaces_one_slot :
    funCallNode.getTypeTuple sampleSpec "get" bytesType = .done (bytesType, intType, none) ∧
    sampleSpec.builtinFun "pair" = true ∧
    sampleSpec.opTypeFromSpec "pair" 0 = (unknownType, none) ∧
    sampleSpec.opTypeFromSpec "pair" 1 = (unknownType, none) ∧
    funCallNode.getTypeTuple sampleSpec "pair" intType
      = .done (intType, unknownType, none) := by
  decide

/-! ## The termination check -/

mutual
theorem ensureBlockReturns_eq (n : node) (h : ifsHaveBranches n = true) :
    ensureBlockReturns n = .done (alwaysReturns n) := by
  cases n with
  | returnNode v ch =>
    simp only [ifsHaveBranches] at h
    simp only [ensureBlockReturns, alwaysReturns]
    exact ensureLast_eq ch h
  | errorNode ch =>
    simp only [ifsHaveBranches] at h
    simp only [ensureBlockReturns, alwaysReturns]
    exact ensureLast_eq ch h
  | ifStatementNode c ch =>
    simp only [ifsHaveBranches, Bool.and_eq_true] at h
    simp only [ensureBlockReturns, alwaysReturns]
    exact ensureLast_eq ch h.2
  | blockNode ch =>
    simp only [ifsHaveBranches] at h
    simp only [ensureBlockReturns, alwaysReturns]
    exact ensureLast_eq ch h
  | funDefNode a b c ch =>
    simp only [ifsHaveBranches] at h
    simp only [ensureBlockReturns, alwaysReturns]
    exact ensureLast_eq ch h
  | other t ch =>
    simp only [ifsHaveBranches] at h
    simp only [ensureBlockReturns, alwaysReturns]
    exact ensureLast_eq ch h
theorem ensureLast_eq (l : List node) (h : allHaveBranches l = true) :
    ensureLast l = .done (lastAlwaysReturns l) := by
  match l with
  | [] => simp [ensureLast, lastAlwaysReturns]
  | [.returnNode _ _] => simp [ensureLast, lastAlwaysReturns]
  | [.errorNode _] => simp [ensureLast, lastAlwaysReturns]
  | [.blockNode _] => simp [ensureLast, lastAlwaysReturns]
  | [.funDefNode _ _ _ _] => simp [ensureLast, lastAlwaysReturns]
  | [.other _ _] => simp [ensureLast, lastAlwaysReturns]
  | [.ifStatementNode c ch] =>
    simp only [allHaveBranches, ifsHaveBranches, Bool.and_eq_true, Bool.and_true,
      decide_eq_true_eq] at h
    simp only [ensureLast, lastAlwaysReturns]
    exact ensureBranches_eq ch h.1 h.2
  | _ :: next :: rest =>
    simp only [allHaveBranches, Bool.and_eq_true] at h
    simp only [ensureLast, lastAlwaysReturns]
    exact ensureLast_eq (next :: rest) (by simp only [allHaveBranches, Bool.and_eq_true]; exact h.2)
theorem ensureBranches_eq (ch : List node) (hlen : ch.length = 1 ∨ ch.length = 2)
    (h : allHaveBranches ch = true) :
    ensureBranches ch = .done (branchesAlwaysReturn ch) := by
  match ch with
  | [] => simp at hlen
  | [_] => simp [ensureBranches, branchesAlwaysReturn]
  | [a, b] =>
    simp only [allHaveBranches, Bool.and_eq_true, Bool.and_true] at h
    simp only [ensureBranches, branchesAlwaysReturn]
    rw [ensureBlockReturns_eq a h.1, ensureBlockReturns_eq b h.2]
    cases alwaysReturns a <;> simp
  | _ :: _ :: _ :: _ => simp at hlen
end

theorem lastAlwaysReturns_iff (l : List node) :
    lastAlwaysReturns l = true ↔
      ∃ last, l.getLast? = some last ∧
        ((∃ v c, last = node.returnNode v c) ∨ (∃ c, last = node.errorNode c) ∨
          ∃ cond t e, last = node.ifStatementNode cond [t, e] ∧
            alwaysReturns t = true ∧ alwaysReturns e = true) := by
  match l with
  | [] => simp [lastAlwaysReturns]
  | [.returnNode _ _] => simp [lastAlwaysReturns]
  | [.errorNode _] => simp [lastAlwaysReturns]
  | [.blockNode _] => simp [lastAlwaysReturns]
  | [.funDefNode _ _ _ _] => simp [lastAlwaysReturns]
  | [.other _ _] => simp [lastAlwaysReturns]
  | [.ifStatementNode c ch] =>
    simp only [lastAlwaysReturns, List.getLast?_singleton, Option.some.injEq]
    constructor
    · intro h
      match ch, h with
      | [t, e], h =>
        simp only [branchesAlwaysReturn, Bool.and_eq_true] at h
        exact ⟨_, rfl, Or.inr (Or.inr ⟨c, t, e, rfl, h.1, h.2⟩)⟩
      | [], h => simp [branchesAlwaysReturn] at h
      | [_], h => simp [branchesAlwaysReturn] at h
      | _ :: _ :: _ :: _, h => simp [branchesAlwaysReturn] at h
    · rintro ⟨last, hl, h⟩
      subst hl
      rcases h with ⟨v, c', h⟩ | ⟨c', h⟩ | ⟨cond, t, e, h, ht, he⟩
      · cases h
      · cases h
      · cases h
        simp [branchesAlwaysReturn, ht, he]
  | _ :: next :: rest =>
    simp only [lastAlwaysReturns, List.getLast?_cons_cons]
    exact lastAlwaysReturns_iff (next :: rest)

theorem allHaveBranches_mem (l : List node) (h : allHaveBranches l = true) (n : node)
    (hn : n ∈ l) : ifsHaveBranches n = true := by
  induction l with
  | nil => simp at hn
  | cons x rest ih =>
    simp only [allHaveBranches, Bool.and_eq_true] at h
    rcases List.mem_cons.mp hn with e | e
    · rw [e]
      exact h.1
    · exact ih h.2 e

theorem ifsHaveBranches_children (n : node) (h : ifsHaveBranches n = true) :
    allHaveBranches n.children = true := by
  cases n <;> simp only [ifsHaveBranches, Bool.and_eq_true] at h <;>
    simp only [node.children] <;> first | exact h | exact h.2

theorem alwaysReturns_children (n : node) :
    alwaysReturns n = lastAlwaysReturns n.children := by
  cases n <;> simp [alwaysReturns, node.children]

/-- Claim C14.  Let every if statement of a block have one or two branch
blocks.  Then `ensureBlockReturns` returns, and it returns true exactly when
the block is not empty and its last statement is a `Return`, an `Error`, or
an if statement with a true-branch and an else-branch for each of which
`ensureBlockReturns` is true.  It agrees with the check as the spec words
it (`alwaysReturns`). -/
theorem ensureBlockReturns_last_statement (n : node) (h : ifsHaveBranches n = true) :
    (∃ b, ensureBlockReturns n = .done b) ∧
    (ensureBlockReturns n = .done true ↔
      ∃ last, n.children.getLast? = some last ∧
        ((∃ v c, last = node.returnNode v c) ∨ (∃ c, last = node.errorNode c) ∨
          ∃ cond t e, last = node.ifStatementNode cond [t, e] ∧
            ensureBlockReturns t = .done true ∧ ensureBlockReturns e = .done true)) ∧
    ensureBlockReturns n = .done (alwaysReturns n) := by
  have heq := ensureBlockReturns_eq n h
  refine ⟨⟨_, heq⟩, ?_, heq⟩
  rw [heq, alwaysReturns_children]
  simp only [run.done.injEq]
  rw [lastAlwaysReturns_iff]
  have hch := ifsHaveBranches_children n h
  constructor
  · rintro ⟨last, hl, hcase⟩
    refine ⟨last, hl, ?_⟩
    rcases hcase with h1 | h1 | ⟨cond, t, e, hlast, ht, he⟩
    · exact Or.inl h1
    · exact Or.inr (Or.inl h1)
    · have hmem : last ∈ n.children := List.mem_of_mem_getLast? hl
      have hw := allHaveBranches_mem _ hch last hmem
      subst hlast
      simp only [ifsHaveBranches, allHaveBranches, Bool.and_eq_true, Bool.and_true] at hw
      refine Or.inr (Or.inr ⟨cond, t, e, rfl, ?_, ?_⟩)
      · rw [ensureBlockReturns_eq t hw.2.1, ht]
      · rw [ensureBlockReturns_eq e hw.2.2, he]
  · rintro ⟨last, hl, hcase⟩
    refine ⟨last, hl, ?_⟩
    rcases hcase with h1 | h1 | ⟨cond, t, e, hlast, ht, he⟩
    · exact Or.inl h1
    · exact Or.inr (Or.inl h1)
    · have hmem : last ∈ n.children := List.mem_of_mem_getLast? hl
      have hw := allHaveBranches_mem _ hch last hmem
      subst hlast
      simp only [ifsHaveBranches, allHaveBranches, Bool.and_eq_true, Bool.and_true] at hw
      refine Or.inr (Or.inr ⟨cond, t, e, rfl, ?_, ?_⟩)
      · rw [ensureBlockReturns_eq t hw.2.1] at ht
        exact run.done.inj ht
      · rw [ensureBlockReturns_eq e hw.2.2] at he
        exact run.done.inj he

/-- Witness of C14: an empty block and a block whose only statement is an
if with a returning true-branch and no else-branch do not pass; with an
else-branch that returns too, the block passes. -/
theorem ensureBlockReturns_last_statement_witness :
    ensureBlockReturns (.blockNode []) = .done false ∧
    ensureBlockReturns (.blockNode [.ifStatementNode (.exprLiteralNode intType "1")
      [.blockNode [.returnNode (some (.exprLiteralNode intType "1")) []]]]) = .done false ∧
    ensureBlockReturns (.blockNode [.ifStatementNode (.exprLiteralNode intType "1")
      [.blockNode [.returnNode (some (.exprLiteralNode intType "1")) []],
       .blockNode [.returnNode (some (.exprLiteralNode intType "2")) []]]]) = .done true :=
  ⟨(ensureBlockReturns_last_statement (.blockNode []) (by decide)).2.2,
   (ensureBlockReturns_last_statement (.blockNode [.ifStatementNode
      (.exprLiteralNode intType "1")
      [.blockNode [.returnNode (some (.exprLiteralNode intType "1")) []]]])
      (by decide)).2.2,
   (ensureBlockReturns_last_statement (.blockNode [.ifStatementNode
      (.exprLiteralNode intType "1")
      [.blockNode [.returnNode (some (.exprLiteralNode intType "1")) []],
       .blockNode [.returnNode (some (.exprLiteralNode intType "2")) []]]])
      (by decide)).2.2⟩

/-! ## Arguments of builtin calls -/

theorem checkArgsFrom_spec (sp : langSpec) (name n : String) (children : List expr) :
    ∀ (i0 : Nat) (actual : List exprType),
    (∀ k, k < children.length → (sp.argOpTypeFromSpec name (i0 + k)).2 = none) →
    children.map (fun a => a.typeOf sp) = actual.map (fun t => run.done (t, none)) →
    ∃ ch1 pos err, checkArgsFrom sp name n i0 children = .done (ch1, pos, err) ∧
      (err = none → pos = 0 ∧ ∀ k t, actual[k]? = some t →
        ¬ ((sp.argOpTypeFromSpec name (i0 + k)).1 ≠ unknownType ∧ t ≠ unknownType ∧
            t ≠ (sp.argOpTypeFromSpec name (i0 + k)).1)) ∧
      (err ≠ none → ∃ k t, pos = i0 + k ∧ actual[k]? = some t ∧
        ((sp.argOpTypeFromSpec name (i0 + k)).1 ≠ unknownType ∧ t ≠ unknownType ∧
            t ≠ (sp.argOpTypeFromSpec name (i0 + k)).1) ∧
        ∀ j u, j < k → actual[j]? = some u →
          ¬ ((sp.argOpTypeFromSpec name (i0 + j)).1 ≠ unknownType ∧ u ≠ unknownType ∧
              u ≠ (sp.argOpTypeFromSpec name (i0 + j)).1)) := by
  induction children with
  | nil =>
    intro i0 actual _ htyped
    have : actual = [] := by
      cases actual with
      | nil => rfl
      | cons a rest => simp at htyped
    subst this
    exact ⟨[], 0, none, rfl, fun _ => ⟨rfl, by simp⟩, fun h => absurd rfl h⟩
  | cons arg rest ih =>
    intro i0 actual hknown htyped
    cases actual with
    | nil => simp at htyped
    | cons t ts =>
      simp only [List.map_cons, List.cons.injEq] at htyped
      obtain ⟨harg, hrest⟩ := htyped
      obtain ⟨arg1, hget⟩ := typeOf_done sp arg _ harg
      have hk0 := hknown 0 (by simp)
      simp only [Nat.add_zero] at hk0
      have hspec : sp.argOpTypeFromSpec name i0 = ((sp.argOpTypeFromSpec name i0).1, none) := by
        rw [← hk0]
      by_cases hbad : (sp.argOpTypeFromSpec name i0).1 ≠ unknownType ∧ t ≠ unknownType ∧
          t ≠ (sp.argOpTypeFromSpec name i0).1
      · refine ⟨arg1 :: rest, i0,
          some ("incompatible types: (exp) " ++ (sp.argOpTypeFromSpec name i0).1.String
            ++ " vs " ++ t.String ++ " (actual) in expr '" ++ n ++ "'"), ?_, ?_, ?_⟩
        · generalize hq : sp.argOpTypeFromSpec name i0 = q at hspec hbad
          unfold checkArgsFrom
          rw [hq, hspec]
          simp only [hget]
          rw [if_pos hbad]
        · intro h
          cases h
        · intro _
          refine ⟨0, t, rfl, by simp, by simpa using hbad, ?_⟩
          intro j u hj
          omega
      · have hknown' : ∀ k, k < rest.length →
            (sp.argOpTypeFromSpec name (i0 + 1 + k)).2 = none := by
          intro k hk
          have := hknown (k + 1) (by simp; omega)
          rw [show i0 + 1 + k = i0 + (k + 1) by omega]
          exact this
        obtain ⟨ch1, pos, err, hrun, hnone, hsome⟩ := ih (i0 + 1) ts hknown' hrest
        refine ⟨arg1 :: ch1, pos, err, ?_, ?_, ?_⟩
        · generalize hq : sp.argOpTypeFromSpec name i0 = q at hspec hbad
          unfold checkArgsFrom
          rw [hq, hspec]
          simp only [hget]
          rw [if_neg hbad, hrun]
        · intro he
          obtain ⟨hp, hall⟩ := hnone he
          refine ⟨hp, ?_⟩
          intro k u hk
          cases k with
          | zero =>
            simp only [List.getElem?_cons_zero, Option.some.injEq] at hk
            subst hk
            simpa using hbad
          | succ k' =>
            simp only [List.getElem?_cons_succ] at hk
            have := hall k' u hk
            rw [show i0 + (k' + 1) = i0 + 1 + k' by omega]
            exact this
        · intro he
          obtain ⟨k, u, hp, hk, hbadk, hfirst⟩ := hsome he
          refine ⟨k + 1, u, by omega, by simpa using hk, ?_, ?_⟩
          · rw [show i0 + (k + 1) = i0 + 1 + k by omega]
            exact hbadk
          · intro j w hj hw
            cases j with
            | zero =>
              simp only [List.getElem?_cons_zero, Option.some.injEq] at hw
              subst hw
              simpa using hbad
            | succ j' =>
              simp only [List.getElem?_cons_succ] at hw
              have := hfirst j' w (by omega) hw
              rw [show i0 + (j' + 1) = i0 + 1 + j' by omega]
              exact this

/-- Claim C17, as the code has it.  Let every argument position of a builtin
call be known to the specification and every argument type without error.
Then `checkBuiltinArgs` returns, and it returns an error exactly when there
is a position whose expected type is not Unknown and whose actual type is
not Unknown either and differs from the expected one; the position it then
reports is the first such position.  An expected type of Unknown is always
satisfied, and so is an actual type of Unknown. -/
theorem checkBuiltinArgs_first_disagreement (sp : langSpec) (ctx : context)
    (name field index1 index2 : String) (funType : exprType) (definition : Option node)
    (children : List expr) (actual : List exprType)
    (hknown : ∀ i, i < children.length → (sp.argOpTypeFromSpec name i).2 = none)
    (htyped : children.map (fun a => a.typeOf sp) = actual.map (fun t => run.done (t, none))) :
    ∃ ch1 pos err,
      funCallNode.checkBuiltinArgs sp ctx name field index1 index2 funType definition children
        = .done (ch1, pos, err) ∧
      (err ≠ none ↔ ∃ i t, actual[i]? = some t ∧
        (sp.argOpTypeFromSpec name i).1 ≠ unknownType ∧ t ≠ unknownType ∧
        t ≠ (sp.argOpTypeFromSpec name i).1) ∧
      (err ≠ none → ∃ t, actual[pos]? = some t ∧
        (sp.argOpTypeFromSpec name pos).1 ≠ unknownType ∧ t ≠ unknownType ∧
        t ≠ (sp.argOpTypeFromSpec name pos).1 ∧
        ∀ j u, j < pos → actual[j]? = some u →
          ¬ ((sp.argOpTypeFromSpec name j).1 ≠ unknownType ∧ u ≠ unknownType ∧
              u ≠ (sp.argOpTypeFromSpec name j).1)) := by
  obtain ⟨ch1, pos, err, hrun, hnone, hsome⟩ :=
    checkArgsFrom_spec sp name
      (expr.funCallNode ctx name field index1 index2 funType definition children).String
      children 0 actual (by simpa using hknown) htyped
  refine ⟨ch1, pos, err, hrun, ?_, ?_⟩
  · constructor
    · intro he
      obtain ⟨k, t, _, hk, hbad, _⟩ := hsome he
      simp only [Nat.zero_add] at hbad
      exact ⟨k, t, hk, hbad⟩
    · rintro ⟨i, t, hi, hbad⟩ he
      have := (hnone he).2 i t hi
      simp only [Nat.zero_add] at this
      exact this hbad
  · intro he
    obtain ⟨k, t, hp, hk, hbad, hfirst⟩ := hsome he
    simp only [Nat.zero_add] at hp hbad
    subst hp
    refine ⟨t, hk, hbad.1, hbad.2.1, hbad.2.2, ?_⟩
    intro j u hj hu
    have := hfirst j u hj hu
    simpa using this

/-- Witness of C17: `len` expects bytes; for `len(1)` the check fails. -/
theorem checkBuiltinArgs_first_disagreement_witness :
    ∃ ch1 pos err,
      funCallNode.checkBuiltinArgs sampleSpec sampleRoot "len" "" "" "" unknownType none
        [.exprLiteralNode intType "1"] = .done (ch1, pos, err) ∧ err ≠ none :=
  (checkBuiltinArgs_first_disagreement sampleSpec sampleRoot "len" "" "" "" unknownType none
    [.exprLiteralNode intType "1"] [intType] (by decide) (by decide)).elim
    (fun ch1 h => h.elim (fun pos h => h.elim (fun err h =>
      ⟨ch1, pos, err, h.1, h.2.1.mpr ⟨0, intType, by decide, by decide, by decide, by decide⟩⟩)))

/-- Counterexample to C17 as stated.  `len` expects bytes at position 0; the
argument `u` is a variable of type Unknown, so the expected type is concrete
and differs from the actual one, and `checkBuiltinArgs` returns no error. -/
theorem checkBuiltinArgs_accepts_unknown_argument :
    sampleSpec.argOpTypeFromSpec "len" 0 = (bytesType, none) ∧
    (expr.exprIdentNode (sampleRoot.newVar "u" unknownType).1 unknownType "u").typeOf sampleSpec
      = .done (unknownType, none) ∧
    bytesType ≠ unknownType ∧
    (funCallNode.checkBuiltinArgs sampleSpec sampleRoot "len" "" "" "" unknownType none
      [.exprIdentNode (sampleRoot.newVar "u" unknownType).1 unknownType "u"]).map
        (fun r => r.2) = .done (0, none) := by
  decide

/-! ## Unification of return types -/

theorem unifyFrom_sound (l : List exprType) :
    ∀ (c T : exprType), unifyFrom c l = (T, none) →
      (c = unknownType ∨ c = T) ∧ ∀ x ∈ l, x = unknownType ∨ x = T := by
  induction l with
  | nil =>
    intro c T h
    simp only [unifyFrom, Prod.mk.injEq, and_true] at h
    exact ⟨Or.inr h, by simp⟩
  | cons tp rest ih =>
    intro c T h
    unfold unifyFrom at h
    by_cases h1 : c = unknownType ∧ tp ≠ unknownType
    · rw [if_pos h1] at h
      obtain ⟨k1, k2⟩ := ih tp T h
      refine ⟨Or.inl h1.1, ?_⟩
      intro x hx
      rcases List.mem_cons.mp hx with e | e
      · rw [e]
        exact k1
      · exact k2 x e
    · rw [if_neg h1] at h
      by_cases h2 : c ≠ unknownType ∧ tp ≠ c
      · rw [if_pos h2] at h
        simp at h
      · rw [if_neg h2] at h
        obtain ⟨k1, k2⟩ := ih c T h
        refine ⟨k1, ?_⟩
        intro x hx
        rcases List.mem_cons.mp hx with e | e
        · rw [e]
          simp only [not_and_or, not_not] at h1 h2
          rcases h2 with h2 | h2
          · rcases h1 with h1 | h1
            · exact absurd h2 h1
            · exact Or.inl h1
          · rw [h2]
            exact k1
        · exact k2 x e

theorem unifyReturnTypes_sound (seen : List exprType) (T : exprType)
    (h : unifyReturnTypes seen = (T, none)) : ∀ x ∈ seen, x = unknownType ∨ x = T := by
  cases seen with
  | nil => simp
  | cons first rest => exact (unifyFrom_sound (first :: rest) first T h).2

theorem blockReturnType_eq (sp : langSpec) (n : node) (seen : List exprType) :
    blockReturnType sp n seen =
      match loopResult sp n.children seen with
      | .panic => .panic
      | .done (_, some err) => .done (invalidType, some err)
      | .done (seen1, none) => .done (unifyReturnTypes seen1) := by
  cases n <;>
    simp only [blockReturnType, determineBlockReturnType, loopResult, node.children] <;>
    (rename_i ch
     cases hl : determineLoop sp ch seen with
     | panic => simp [finishBlock, run.map]
     | done r =>
       obtain ⟨ch1, seen1, err⟩ := r
       cases err <;> simp [finishBlock, run.map])

theorem loopResult_nil (sp : langSpec) (seen : List exprType) :
    loopResult sp [] seen = .done (seen, none) := by
  simp [loopResult, determineLoop, run.map]

theorem loopResult_quiet (sp : langSpec) (stmt : node) (rest : List node)
    (seen : List exprType) (h : stmt.contributes = false) :
    loopResult sp (stmt :: rest) seen = loopResult sp rest seen := by
  cases stmt with
  | returnNode _ _ => simp [node.contributes] at h
  | errorNode _ => simp [node.contributes] at h
  | ifStatementNode _ _ => simp [node.contributes] at h
  | blockNode _ => simp [node.contributes] at h
  | funDefNode _ _ _ _ =>
    simp only [loopResult, determineLoop]
    cases hl : determineLoop sp rest seen with
    | panic => simp [run.map]
    | done r => simp [run.map]
  | other _ _ =>
    simp only [loopResult, determineLoop]
    cases hl : determineLoop sp rest seen with
    | panic => simp [run.map]
    | done r => simp [run.map]

theorem loopResult_error (sp : langSpec) (ch : List node) (rest : List node)
    (seen : List exprType) :
    loopResult sp (.errorNode ch :: rest) seen = loopResult sp rest (seen ++ [intType]) := by
  simp only [loopResult, determineLoop]
  cases hl : determineLoop sp rest (seen ++ [intType]) with
  | panic => simp [run.map]
  | done r => simp [run.map]

theorem loopResult_return (sp : langSpec) (value : Option expr) (ch : List node)
    (rest : List node) (seen : List exprType) :
    loopResult sp (.returnNode value ch :: rest) seen =
      match value with
      | none => .panic
      | some v =>
        match v.typeOf sp with
        | .panic => .panic
        | .done (_, some err) => .done (seen, some err)
        | .done (tp, none) => loopResult sp rest (seen ++ [tp]) := by
  cases value with
  | none => simp [loopResult, determineLoop, run.map]
  | some v =>
    simp only [loopResult, determineLoop, expr.typeOf]
    cases hv : v.getType sp with
    | panic => simp [run.map]
    | done r =>
      obtain ⟨v1, tp, err⟩ := r
      cases err with
      | some msg => simp [run.map]
      | none =>
        simp only [run.map]
        cases hl : determineLoop sp rest (seen ++ [tp]) with
        | panic => simp
        | done r => simp

theorem loopResult_nested (sp : langSpec) (stmt : node) (rest : List node)
    (seen : List exprType) (h : stmt.isNested = true) :
    loopResult sp (stmt :: rest) seen =
      match blockReturnType sp stmt seen with
      | .panic => .panic
      | .done (_, some err) => .done (seen, some err)
      | .done (blockType, none) => loopResult sp rest (seen ++ [blockType]) := by
  cases stmt with
  | returnNode _ _ => simp [node.isNested] at h
  | errorNode _ => simp [node.isNested] at h
  | funDefNode _ _ _ _ => simp [node.isNested] at h
  | other _ _ => simp [node.isNested] at h
  | ifStatementNode c ch =>
    simp only [loopResult, determineLoop, blockReturnType]
    cases hb : determineBlockReturnType sp (.ifStatementNode c ch) seen with
    | panic => simp [run.map]
    | done r =>
      obtain ⟨s1, tp, err⟩ := r
      cases err with
      | some msg => simp [run.map]
      | none =>
        simp only [run.map]
        cases hl : determineLoop sp rest (seen ++ [tp]) with
        | panic => simp
        | done r => simp
  | blockNode ch =>
    simp only [loopResult, determineLoop, blockReturnType]
    cases hb : determineBlockReturnType sp (.blockNode ch) seen with
    | panic => simp [run.map]
    | done r =>
      obtain ⟨s1, tp, err⟩ := r
      cases err with
      | some msg => simp [run.map]
      | none =>
        simp only [run.map]
        cases hl : determineLoop sp rest (seen ++ [tp]) with
        | panic => simp
        | done r => simp

theorem node_kinds (stmt : node) :
    stmt.contributes = false ∨ (∃ c, stmt = .errorNode c) ∨ (∃ v c, stmt = .returnNode v c) ∨
      stmt.isNested = true := by
  cases stmt <;> simp [node.contributes, node.isNested]

theorem loopResult_sound (sp : langSpec) (ch : List node) :
    ∀ (seen seen1 : List exprType), loopResult sp ch seen = .done (seen1, none) →
      (∀ x ∈ seen, x ∈ seen1) ∧
      (∀ v c, node.returnNode (some v) c ∈ ch →
        ∃ t, v.typeOf sp = .done (t, none) ∧ t ∈ seen1) ∧
      (∀ c, node.errorNode c ∈ ch → intType ∈ seen1) ∧
      (∀ stmt ∈ ch, stmt.isNested = true →
        ∃ s T, blockReturnType sp stmt s = .done (T, none) ∧ T ∈ seen1 ∧
          ∀ x ∈ seen, x ∈ s) := by
  induction ch with
  | nil =>
    intro seen seen1 h
    rw [loopResult_nil] at h
    simp only [run.done.injEq, Prod.mk.injEq, and_true] at h
    subst h
    simp
  | cons stmt rest ih =>
    intro seen seen1 h
    rcases node_kinds stmt with hq | ⟨c0, hq⟩ | ⟨v0, c0, hq⟩ | hq
    · rw [loopResult_quiet sp stmt rest seen hq] at h
      obtain ⟨k1, k2, k3, k4⟩ := ih seen seen1 h
      refine ⟨k1, ?_, ?_, ?_⟩
      · intro v c hm
        rcases List.mem_cons.mp hm with e | e
        · rw [← e] at hq
          simp [node.contributes] at hq
        · exact k2 v c e
      · intro c hm
        rcases List.mem_cons.mp hm with e | e
        · rw [← e] at hq
          simp [node.contributes] at hq
        · exact k3 c e
      · intro s hm hn
        rcases List.mem_cons.mp hm with e | e
        · rw [e] at hn
          cases stmt <;> simp [node.contributes, node.isNested] at hq hn
        · exact k4 s e hn
    · subst hq
      rw [loopResult_error] at h
      obtain ⟨k1, k2, k3, k4⟩ := ih _ seen1 h
      refine ⟨fun x hx => k1 x (List.mem_append_left _ hx), ?_, ?_, ?_⟩
      · intro v c hm
        rcases List.mem_cons.mp hm with e | e
        · cases e
        · exact k2 v c e
      · intro c hm
        exact k1 intType (by simp)
      · intro s hm hn
        rcases List.mem_cons.mp hm with e | e
        · rw [e] at hn
          simp [node.isNested] at hn
        · obtain ⟨s', T, g1, g2, g3⟩ := k4 s e hn
          exact ⟨s', T, g1, g2, fun x hx => g3 x (List.mem_append_left _ hx)⟩
    · subst hq
      rw [loopResult_return] at h
      cases v0 with
      | none => simp at h
      | some v =>
        simp only at h
        rcases typeOf_cases sp v with hv | ⟨t, hv⟩ | ⟨t, err, hv⟩
        · rw [hv] at h
          simp at h
        · rw [hv] at h
          simp only at h
          obtain ⟨k1, k2, k3, k4⟩ := ih _ seen1 h
          refine ⟨fun x hx => k1 x (List.mem_append_left _ hx), ?_, ?_, ?_⟩
          · intro v' c hm
            rcases List.mem_cons.mp hm with e | e
            · cases e
              exact ⟨t, hv, k1 t (by simp)⟩
            · exact k2 v' c e
          · intro c hm
            rcases List.mem_cons.mp hm with e | e
            · cases e
            · exact k3 c e
          · intro s hm hn
            rcases List.mem_cons.mp hm with e | e
            · rw [e] at hn
              simp [node.isNested] at hn
            · obtain ⟨s', T, g1, g2, g3⟩ := k4 s e hn
              exact ⟨s', T, g1, g2, fun x hx => g3 x (List.mem_append_left _ hx)⟩
        · rw [hv] at h
          simp at h
    · rw [loopResult_nested sp stmt rest seen hq] at h
      cases hb : blockReturnType sp stmt seen with
      | panic =>
        rw [hb] at h
        simp at h
      | done r =>
        obtain ⟨T, err⟩ := r
        rw [hb] at h
        cases err with
        | some msg => simp at h
        | none =>
          simp only at h
          obtain ⟨k1, k2, k3, k4⟩ := ih _ seen1 h
          refine ⟨fun x hx => k1 x (List.mem_append_left _ hx), ?_, ?_, ?_⟩
          · intro v c hm
            rcases List.mem_cons.mp hm with e | e
            · rw [← e] at hq
              simp [node.isNested] at hq
            · exact k2 v c e
          · intro c hm
            rcases List.mem_cons.mp hm with e | e
            · rw [← e] at hq
              simp [node.isNested] at hq
            · exact k3 c e
          · intro s hm hn
            rcases List.mem_cons.mp hm with e | e
            · rw [e]
              exact ⟨seen, T, hb, k1 T (by simp), fun x hx => hx⟩
            · obtain ⟨s', T', g1, g2, g3⟩ := k4 s e hn
              exact ⟨s', T', g1, g2, fun x hx => g3 x (List.mem_append_left _ hx)⟩

theorem blockReturnType_success (sp : langSpec) (n : node) (s : List exprType) (T : exprType)
    (h : blockReturnType sp n s = .done (T, none)) :
    ∃ seen1, loopResult sp n.children s = .done (seen1, none) ∧
      unifyReturnTypes seen1 = (T, none) := by
  rw [blockReturnType_eq] at h
  cases hl : loopResult sp n.children s with
  | panic =>
    rw [hl] at h
    simp at h
  | done r =>
    obtain ⟨seen1, err⟩ := r
    rw [hl] at h
    cases err with
    | some msg => simp at h
    | none =>
      simp only [run.done.injEq] at h
      exact ⟨seen1, rfl, h⟩

/-- Claim C12, at a failing input.  `u` types as Unknown.  A block that
returns `u` and then `1` gets the type UInt64, and an empty block the type
Unknown; a block that returns `1` and then `u` fails with
`block types mismatch: uint64 vs unknown`: Unknown is absorbed only before
the first concrete type. -/
theorem unknown_after_concrete_type_rejected :
    sampleUnknown.typeOf sampleSpec = .done (unknownType, none) ∧
    blockReturnType sampleSpec
      (.blockNode [.returnNode (some sampleUnknown) [],
        .returnNode (some (.exprLiteralNode intType "1")) []]) []
      = .done (intType, none) ∧
    blockReturnType sampleSpec (.blockNode []) [] = .done (unknownType, none) ∧
    blockReturnType sampleSpec
      (.blockNode [.returnNode (some (.exprLiteralNode intType "1")) [],
        .returnNode (some sampleUnknown) []]) []
      = .done (invalidType, some "block types mismatch: uint64 vs unknown") := by
  decide

/-- Claim C13, at a failing input.  A function body that returns bytes and
holds an `Error` statement, after the `Return` or in a branch before it, has
no return type: `determineBlockReturnType` fails with a block types mismatch
between `byte[]` and the `uint64` that the `Error` statement contributes. -/
theorem abort_rejected_with_bytes :
    blockReturnType sampleSpec
      (.funDefNode "f" [] false
        [.returnNode (some (.exprLiteralNode bytesType "\"a\"")) [], .errorNode []]) []
      = .done (invalidType, some "block types mismatch: byte[] vs uint64") ∧
    blockReturnType sampleSpec
      (.funDefNode "f" [] false
        [.ifStatementNode (.exprLiteralNode intType "1") [.blockNode [.errorNode []]],
         .returnNode (some (.exprLiteralNode bytesType "\"a\"")) []]) []
      = .done (invalidType, some "block types mismatch: uint64 vs byte[]") := by
  decide

mutual
theorem getType_idem (sp : langSpec) (e e1 : expr) (t : exprType)
    (h : e.getType sp = .done (e1, t, none)) : e1.getType sp = .done (e1, t, none) := by
  match e with
  | .exprLiteralNode t0 v =>
    simp only [expr.getType, run.done.injEq, Prod.mk.injEq, and_true] at h
    obtain ⟨rfl, rfl⟩ := h
    simp [expr.getType]
  | .constNode name t0 v =>
    simp only [expr.getType, run.done.injEq, Prod.mk.injEq, and_true] at h
    obtain ⟨rfl, rfl⟩ := h
    simp [expr.getType]
  | .exprIdentNode ctx t0 name =>
    rw [expr.getType] at h
    by_cases h0 : t0 = unknownType
    · rw [if_pos h0] at h
      rcases hlk : ctx.lookup name with ⟨info, err⟩
      rw [hlk] at h
      cases err with
      | some msg => simp at h
      | none =>
        simp only at h
        by_cases hi : info.theType = invalidType
        · rw [if_pos hi] at h
          cases h
        · rw [if_neg hi] at h
          simp only [run.done.injEq, Prod.mk.injEq, and_true] at h
          obtain ⟨rfl, rfl⟩ := h
          rw [expr.getType]
          by_cases hu : info.theType = unknownType
          · rw [if_pos hu, hlk]
            simp only
            rw [if_neg hi]
          · rw [if_neg hu]
    · rw [if_neg h0] at h
      simp only [run.done.injEq, Prod.mk.injEq, and_true] at h
      obtain ⟨rfl, rfl⟩ := h
      rw [expr.getType]
      rw [if_neg h0]
  | .runtimeFieldNode op field i1 i2 t0 =>
    rw [expr.getType] at h
    by_cases h0 : t0 ≠ unknownType
    · rw [if_pos h0] at h
      simp only [run.done.injEq, Prod.mk.injEq, and_true] at h
      obtain ⟨rfl, rfl⟩ := h
      rw [expr.getType]
      rw [if_pos h0]
    · rw [if_neg h0] at h
      rcases hs : sp.runtimeFieldTypeFromSpec op field with ⟨tp, err⟩
      rw [hs] at h
      cases err with
      | some msg => simp at h
      | none =>
        simp only [run.done.injEq, Prod.mk.injEq, and_true] at h
        obtain ⟨rfl, rfl⟩ := h
        rw [expr.getType]
        by_cases hu : tp ≠ unknownType
        · rw [if_pos hu]
        · rw [if_neg hu, hs]
  | .runtimeArgNode op number t0 =>
    rw [expr.getType] at h
    by_cases h0 : t0 ≠ unknownType
    · rw [if_pos h0] at h
      simp only [run.done.injEq, Prod.mk.injEq, and_true] at h
      obtain ⟨rfl, rfl⟩ := h
      rw [expr.getType]
      rw [if_pos h0]
    · rw [if_neg h0] at h
      rcases hs : sp.opTypeFromSpec op 0 with ⟨tp, err⟩
      rw [hs] at h
      cases err with
      | some msg => simp at h
      | none =>
        simp only [run.done.injEq, Prod.mk.injEq, and_true] at h
        obtain ⟨rfl, rfl⟩ := h
        rw [expr.getType]
        by_cases hu : tp ≠ unknownType
        · rw [if_pos hu]
        · rw [if_neg hu, hs]
  | .exprGroupNode value =>
    rw [expr.getType] at h
    cases hv : value.getType sp with
    | panic => rw [hv] at h; cases h
    | done r =>
      obtain ⟨v1, tp, err⟩ := r
      rw [hv] at h
      simp only [run.done.injEq, Prod.mk.injEq] at h
      obtain ⟨rfl, rfl, rfl⟩ := h
      have ih := getType_idem sp value v1 tp hv
      rw [expr.getType]
      rw [ih]
  | .typeCastNode e0 target =>
    rw [expr.getType] at h
    cases hv : e0.getType sp with
    | panic => rw [hv] at h; cases h
    | done r =>
      obtain ⟨v1, tp, err⟩ := r
      rw [hv] at h
      cases err with
      | some msg => simp at h
      | none =>
        simp only at h
        have ih := getType_idem sp e0 v1 tp hv
        by_cases hc : tp ≠ unknownType ∧ tp ≠ target
        · rw [if_pos hc] at h
          simp at h
        · rw [if_neg hc] at h
          simp only [run.done.injEq, Prod.mk.injEq, and_true] at h
          obtain ⟨rfl, rfl⟩ := h
          rw [expr.getType]
          rw [ih]
          simp only
          rw [if_neg hc]
  | .exprUnOpNode op value =>
    rw [expr.getType] at h
    rcases hs : sp.opTypeFromSpec op 0 with ⟨tp, err⟩
    rw [hs] at h
    cases err with
    | some msg => simp at h
    | none =>
      simp only at h
      cases hv : value.getType sp with
      | panic => rw [hv] at h; cases h
      | done r =>
        obtain ⟨v1, vt, verr⟩ := r
        rw [hv] at h
        cases verr with
        | some msg => simp at h
        | none =>
          simp only [run.done.injEq, Prod.mk.injEq] at h
          obtain ⟨rfl, hc⟩ := h
          have ih := getType_idem sp value v1 vt hv
          rw [expr.getType]
          rw [hs]
          simp only
          rw [ih]
          simp only [run.done.injEq, Prod.mk.injEq, true_and]
          exact hc
  | .exprBinOpNode t0 op lhs rhs =>
    rw [expr.getType] at h
    rcases hs : sp.opTypeFromSpec op 0 with ⟨tp, err⟩
    rw [hs] at h
    cases err with
    | some msg => simp at h
    | none =>
      simp only at h
      cases hl : lhs.getType sp with
      | panic => rw [hl] at h; cases h
      | done r =>
        obtain ⟨l1, lt, lerr⟩ := r
        rw [hl] at h
        cases lerr with
        | some msg => simp at h
        | none =>
          simp only at h
          cases hr : rhs.getType sp with
          | panic => rw [hr] at h; cases h
          | done r =>
            obtain ⟨r1, rt, rerr⟩ := r
            rw [hr] at h
            cases rerr with
            | some msg => simp at h
            | none =>
              simp only [run.done.injEq, Prod.mk.injEq] at h
              obtain ⟨rfl, hc⟩ := h
              have ihl := getType_idem sp lhs l1 lt hl
              have ihr := getType_idem sp rhs r1 rt hr
              rw [expr.getType]
              rw [hs]
              simp only
              rw [ihl]
              simp only
              rw [ihr]
              simp only [run.done.injEq, Prod.mk.injEq, true_and]
              exact hc
  | .ifExprNode c tb fb =>
    rw [expr.getType] at h
    cases hc : c.getType sp with
    | panic => rw [hc] at h; cases h
    | done r =>
      obtain ⟨c1, ct, cerr⟩ := r
      rw [hc] at h
      cases cerr with
      | some msg => simp at h
      | none =>
        simp only at h
        by_cases hci : ct ≠ intType
        · rw [if_pos hci] at h
          simp at h
        · rw [if_neg hci] at h
          cases ht : tb.getType sp with
          | panic => rw [ht] at h; cases h
          | done r =>
            obtain ⟨t1, tt, terr⟩ := r
            rw [ht] at h
            cases terr with
            | some msg => simp at h
            | none =>
              simp only at h
              cases hf : fb.getType sp with
              | panic => rw [hf] at h; cases h
              | done r =>
                obtain ⟨f1, ft, ferr⟩ := r
                rw [hf] at h
                cases ferr with
                | some msg => simp at h
                | none =>
                  simp only at h
                  by_cases hne : tt ≠ ft
                  · rw [if_pos hne] at h
                    simp at h
                  · rw [if_neg hne] at h
                    simp only [run.done.injEq, Prod.mk.injEq, and_true] at h
                    obtain ⟨rfl, rfl⟩ := h
                    have ihc := getType_idem sp c c1 ct hc
                    have iht := getType_idem sp tb t1 tt ht
                    have ihf := getType_idem sp fb f1 ft hf
                    rw [expr.getType]
                    rw [ihc]
                    simp only
                    rw [if_neg hci, iht]
                    simp only
                    rw [ihf]
                    simp only
                    rw [if_neg hne]
  | .funCallNode ctx name field i1 i2 ft0 definition children =>
    rw [expr.getType] at h
    unfold funCallNode.getTypeWith at h
    by_cases h0 : ft0 ≠ unknownType
    · rw [if_pos h0] at h
      simp only [run.done.injEq, Prod.mk.injEq, and_true] at h
      obtain ⟨rfl, rfl⟩ := h
      rw [expr.getType]
      unfold funCallNode.getTypeWith
      rw [if_pos h0]
    · rw [if_neg h0] at h
      cases hlk : (ctx.lookup name).2 with
      | some lerr =>
        rw [hlk] at h
        simp only at h
        by_cases hb : sp.builtinFun name = true
        · rw [if_pos hb] at h
          by_cases hu : (sp.opTypeFromSpec name 0).1 = unknownType
          · rw [if_pos hu] at h
            cases hd : sp.builtinFunDependantTypes name with
            | some idx =>
              rw [hd] at h
              simp only at h
              cases hat : getTypeAt sp children idx with
              | panic => rw [hat] at h; cases h
              | done r =>
                obtain ⟨ch1, tp, aerr⟩ := r
                rw [hat] at h
                cases aerr with
                | some msg => simp at h
                | none =>
                  simp only [run.done.injEq, Prod.mk.injEq, and_true] at h
                  obtain ⟨rfl, rfl⟩ := h
                  have ih := getTypeAt_idem sp children ch1 idx tp hat
                  rw [expr.getType]
                  unfold funCallNode.getTypeWith
                  by_cases hq : tp ≠ unknownType
                  · rw [if_pos hq]
                  · rw [if_neg hq, hlk]
                    simp only
                    rw [if_pos hb, if_pos hu, hd]
                    simp only
                    rw [ih]
            | none =>
              rw [hd] at h
              simp only [run.done.injEq, Prod.mk.injEq] at h
              obtain ⟨rfl, hop⟩ := h
              rw [expr.getType]
              unfold funCallNode.getTypeWith
              have hq : ¬ (sp.opTypeFromSpec name 0).1 ≠ unknownType := by
                rw [hu]
                simp
              rw [if_neg hq, hlk]
              simp only
              rw [if_pos hb, if_pos hu, hd]
              simp only [run.done.injEq, Prod.mk.injEq, true_and]
              exact hop
          · rw [if_neg hu] at h
            simp only [run.done.injEq, Prod.mk.injEq] at h
            obtain ⟨rfl, hop⟩ := h
            rw [expr.getType]
            unfold funCallNode.getTypeWith
            rw [if_pos hu]
            rw [hop]
        · rw [if_neg hb] at h
          simp at h
      | none =>
        rw [hlk] at h
        simp only at h
        cases hdef : definition with
        | none =>
          rw [hdef] at h
          simp only [definitionReturnType] at h
          cases h
        | some d =>
          rw [hdef] at h
          simp only [definitionReturnType] at h
          cases hdet : determineBlockReturnType sp d [] with
          | panic => rw [hdet] at h; cases h
          | done r =>
            obtain ⟨d1, tp, derr⟩ := r
            rw [hdet] at h
            simp only [run.done.injEq, Prod.mk.injEq] at h
            obtain ⟨rfl, rfl, rfl⟩ := h
            have ih := determineBlock_idem sp d d1 [] tp hdet
            rw [expr.getType]
            unfold funCallNode.getTypeWith
            by_cases hq : tp ≠ unknownType
            · rw [if_pos hq]
            · rw [if_neg hq, hlk]
              simp only [definitionReturnType]
              rw [ih]
termination_by sizeOf e
decreasing_by
  all_goals simp_wf
  all_goals first | omega | (subst_vars; simp; omega)
theorem getTypeAt_idem (sp : langSpec) (l l1 : List expr) (idx : Nat) (t : exprType)
    (h : getTypeAt sp l idx = .done (l1, t, none)) :
    getTypeAt sp l1 idx = .done (l1, t, none) := by
  match l, idx with
  | [], _ => simp [getTypeAt] at h
  | child :: rest, 0 =>
    unfold getTypeAt at h
    cases hc : child.getType sp with
    | panic => rw [hc] at h; cases h
    | done r =>
      obtain ⟨c1, tp, err⟩ := r
      rw [hc] at h
      simp only [run.done.injEq, Prod.mk.injEq] at h
      obtain ⟨rfl, rfl, rfl⟩ := h
      have ih := getType_idem sp child c1 tp hc
      unfold getTypeAt
      rw [ih]
  | child :: rest, k + 1 =>
    unfold getTypeAt at h
    cases hc : getTypeAt sp rest k with
    | panic => rw [hc] at h; cases h
    | done r =>
      obtain ⟨r1, tp, err⟩ := r
      rw [hc] at h
      simp only [run.done.injEq, Prod.mk.injEq] at h
      obtain ⟨rfl, rfl, rfl⟩ := h
      have ih := getTypeAt_idem sp rest r1 k tp hc
      unfold getTypeAt
      rw [ih]
termination_by sizeOf l
decreasing_by
  all_goals simp_wf
  all_goals omega
theorem determineLoop_idem (sp : langSpec) (l l1 : List node) (seen seen1 : List exprType)
    (h : determineLoop sp l seen = .done (l1, seen1, none)) :
    determineLoop sp l1 seen = .done (l1, seen1, none) := by
  match l with
  | [] =>
    simp only [determineLoop, run.done.injEq, Prod.mk.injEq, and_true] at h
    obtain ⟨rfl, rfl⟩ := h
    simp [determineLoop]
  | .returnNode value ch :: rest =>
    unfold determineLoop at h
    simp only at h
    cases hval : value with
    | none => rw [hval] at h; cases h
    | some v =>
      rw [hval] at h
      simp only at h
      cases hv : v.getType sp with
      | panic => rw [hv] at h; cases h
      | done r =>
        obtain ⟨v1, tp, err⟩ := r
        rw [hv] at h
        cases err with
        | some msg => simp at h
        | none =>
          simp only at h
          cases hr : determineLoop sp rest (seen ++ [tp]) with
          | panic => rw [hr] at h; cases h
          | done r =>
            obtain ⟨rest1, s1, rerr⟩ := r
            rw [hr] at h
            simp only [run.done.injEq, Prod.mk.injEq] at h
            obtain ⟨rfl, rfl, rfl⟩ := h
            have ihv := getType_idem sp v v1 tp hv
            have ihr := determineLoop_idem sp rest rest1 _ _ hr
            unfold determineLoop
            simp only
            rw [ihv]
            simp only
            rw [ihr]
  | .errorNode ch :: rest =>
    unfold determineLoop at h
    simp only at h
    cases hr : determineLoop sp rest (seen ++ [intType]) with
    | panic => rw [hr] at h; cases h
    | done r =>
      obtain ⟨rest1, s1, rerr⟩ := r
      rw [hr] at h
      simp only [run.done.injEq, Prod.mk.injEq] at h
      obtain ⟨rfl, rfl, rfl⟩ := h
      have ihr := determineLoop_idem sp rest rest1 _ _ hr
      unfold determineLoop
      rw [ihr]
  | .funDefNode a b c ch :: rest =>
    unfold determineLoop at h
    simp only at h
    cases hr : determineLoop sp rest seen with
    | panic => rw [hr] at h; cases h
    | done r =>
      obtain ⟨rest1, s1, rerr⟩ := r
      rw [hr] at h
      simp only [run.done.injEq, Prod.mk.injEq] at h
      obtain ⟨rfl, rfl, rfl⟩ := h
      have ihr := determineLoop_idem sp rest rest1 _ _ hr
      unfold determineLoop
      rw [ihr]
  | .other a ch :: rest =>
    unfold determineLoop at h
    simp only at h
    cases hr : determineLoop sp rest seen with
    | panic => rw [hr] at h; cases h
    | done r =>
      obtain ⟨rest1, s1, rerr⟩ := r
      rw [hr] at h
      simp only [run.done.injEq, Prod.mk.injEq] at h
      obtain ⟨rfl, rfl, rfl⟩ := h
      have ihr := determineLoop_idem sp rest rest1 _ _ hr
      unfold determineLoop
      rw [ihr]
  | .ifStatementNode c ch :: rest =>
    unfold determineLoop at h
    simp only at h
    cases hb : determineBlockReturnType sp (.ifStatementNode c ch) seen with
    | panic => rw [hb] at h; cases h
    | done r =>
      obtain ⟨s1, bt, berr⟩ := r
      rw [hb] at h
      cases berr with
      | some msg => simp at h
      | none =>
        simp only at h
        cases hr : determineLoop sp rest (seen ++ [bt]) with
        | panic => rw [hr] at h; cases h
        | done r =>
          obtain ⟨rest1, sn, rerr⟩ := r
          rw [hr] at h
          simp only [run.done.injEq, Prod.mk.injEq] at h
          obtain ⟨rfl, rfl, rfl⟩ := h
          have ihb := determineBlock_idem sp (.ifStatementNode c ch) s1 seen bt hb
          have ihr := determineLoop_idem sp rest rest1 _ _ hr
          have hshape : ∃ ch1, s1 = .ifStatementNode c ch1 := by
            simp only [determineBlockReturnType] at hb
            cases hx : determineLoop sp ch seen with
            | panic => rw [hx] at hb; simp [finishBlock] at hb
            | done q =>
              obtain ⟨q1, q2, q3⟩ := q
              rw [hx] at hb
              cases q3 <;> simp only [finishBlock, run.done.injEq, Prod.mk.injEq] at hb <;>
                exact ⟨q1, hb.1.symm⟩
          obtain ⟨ch1, rfl⟩ := hshape
          unfold determineLoop
          simp only
          rw [ihb]
          simp only
          rw [ihr]
  | .blockNode ch :: rest =>
    unfold determineLoop at h
    simp only at h
    cases hb : determineBlockReturnType sp (.blockNode ch) seen with
    | panic => rw [hb] at h; cases h
    | done r =>
      obtain ⟨s1, bt, berr⟩ := r
      rw [hb] at h
      cases berr with
      | some msg => simp at h
      | none =>
        simp only at h
        cases hr : determineLoop sp rest (seen ++ [bt]) with
        | panic => rw [hr] at h; cases h
        | done r =>
          obtain ⟨rest1, sn, rerr⟩ := r
          rw [hr] at h
          simp only [run.done.injEq, Prod.mk.injEq] at h
          obtain ⟨rfl, rfl, rfl⟩ := h
          have ihb := determineBlock_idem sp (.blockNode ch) s1 seen bt hb
          have ihr := determineLoop_idem sp rest rest1 _ _ hr
          have hshape : ∃ ch1, s1 = .blockNode ch1 := by
            simp only [determineBlockReturnType] at hb
            cases hx : determineLoop sp ch seen with
            | panic => rw [hx] at hb; simp [finishBlock] at hb
            | done q =>
              obtain ⟨q1, q2, q3⟩ := q
              rw [hx] at hb
              cases q3 <;> simp only [finishBlock, run.done.injEq, Prod.mk.injEq] at hb <;>
                exact ⟨q1, hb.1.symm⟩
          obtain ⟨ch1, rfl⟩ := hshape
          unfold determineLoop
          simp only
          rw [ihb]
          simp only
          rw [ihr]
termination_by sizeOf l
decreasing_by
  all_goals simp_wf
  all_goals first | omega | (subst_vars; simp; omega)
theorem determineBlock_idem (sp : langSpec) (n n1 : node) (seen : List exprType)
    (T : exprType) (h : determineBlockReturnType sp n seen = .done (n1, T, none)) :
    determineBlockReturnType sp n1 seen = .done (n1, T, none) := by
  match n with
  | .returnNode v ch =>
    simp only [determineBlockReturnType] at h
    cases hx : determineLoop sp ch seen with
    | panic => rw [hx] at h; simp [finishBlock] at h
    | done q =>
      obtain ⟨q1, q2, q3⟩ := q
      rw [hx] at h
      cases q3 with
      | some msg => simp [finishBlock] at h
      | none =>
        simp only [finishBlock, run.done.injEq, Prod.mk.injEq] at h
        obtain ⟨rfl, hu⟩ := h
        have ih := determineLoop_idem sp ch q1 seen q2 hx
        simp only [determineBlockReturnType, ih, finishBlock, run.done.injEq, Prod.mk.injEq,
          true_and]
        exact hu
  | .errorNode ch =>
    simp only [determineBlockReturnType] at h
    cases hx : determineLoop sp ch seen with
    | panic => rw [hx] at h; simp [finishBlock] at h
    | done q =>
      obtain ⟨q1, q2, q3⟩ := q
      rw [hx] at h
      cases q3 with
      | some msg => simp [finishBlock] at h
      | none =>
        simp only [finishBlock, run.done.injEq, Prod.mk.injEq] at h
        obtain ⟨rfl, hu⟩ := h
        have ih := determineLoop_idem sp ch q1 seen q2 hx
        simp only [determineBlockReturnType, ih, finishBlock, run.done.injEq, Prod.mk.injEq,
          true_and]
        exact hu
  | .ifStatementNode c ch =>
    simp only [determineBlockReturnType] at h
    cases hx : determineLoop sp ch seen with
    | panic => rw [hx] at h; simp [finishBlock] at h
    | done q =>
      obtain ⟨q1, q2, q3⟩ := q
      rw [hx] at h
      cases q3 with
      | some msg => simp [finishBlock] at h
      | none =>
        simp only [finishBlock, run.done.injEq, Prod.mk.injEq] at h
        obtain ⟨rfl, hu⟩ := h
        have ih := determineLoop_idem sp ch q1 seen q2 hx
        simp only [determineBlockReturnType, ih, finishBlock, run.done.injEq, Prod.mk.injEq,
          true_and]
        exact hu
  | .blockNode ch =>
    simp only [determineBlockReturnType] at h
    cases hx : determineLoop sp ch seen with
    | panic => rw [hx] at h; simp [finishBlock] at h
    | done q =>
      obtain ⟨q1, q2, q3⟩ := q
      rw [hx] at h
      cases q3 with
      | some msg => simp [finishBlock] at h
      | none =>
        simp only [finishBlock, run.done.injEq, Prod.mk.injEq] at h
        obtain ⟨rfl, hu⟩ := h
        have ih := determineLoop_idem sp ch q1 seen q2 hx
        simp only [determineBlockReturnType, ih, finishBlock, run.done.injEq, Prod.mk.injEq,
          true_and]
        exact hu
  | .funDefNode a b c ch =>
    simp only [determineBlockReturnType] at h
    cases hx : determineLoop sp ch seen with
    | panic => rw [hx] at h; simp [finishBlock] at h
    | done q =>
      obtain ⟨q1, q2, q3⟩ := q
      rw [hx] at h
      cases q3 with
      | some msg => simp [finishBlock] at h
      | none =>
        simp only [finishBlock, run.done.injEq, Prod.mk.injEq] at h
        obtain ⟨rfl, hu⟩ := h
        have ih := determineLoop_idem sp ch q1 seen q2 hx
        simp only [determineBlockReturnType, ih, finishBlock, run.done.injEq, Prod.mk.injEq,
          true_and]
        exact hu
  | .other a ch =>
    simp only [determineBlockReturnType] at h
    cases hx : determineLoop sp ch seen with
    | panic => rw [hx] at h; simp [finishBlock] at h
    | done q =>
      obtain ⟨q1, q2, q3⟩ := q
      rw [hx] at h
      cases q3 with
      | some msg => simp [finishBlock] at h
      | none =>
        simp only [finishBlock, run.done.injEq, Prod.mk.injEq] at h
        obtain ⟨rfl, hu⟩ := h
        have ih := determineLoop_idem sp ch q1 seen q2 hx
        simp only [determineBlockReturnType, ih, finishBlock, run.done.injEq, Prod.mk.injEq,
          true_and]
        exact hu
termination_by sizeOf n
decreasing_by
  all_goals simp_wf
end

theorem ifExpr_typeOf (sp : langSpec) (c t f : expr) :
    (expr.ifExprNode c t f).typeOf sp =
      match c.typeOf sp with
      | .panic => .panic
      | .done (_, some err) =>
        .done (invalidType, some ("cond type evaluation failed: " ++ err))
      | .done (condType, none) =>
        if condType ≠ intType then
          .done (invalidType,
            some ("cond type is '" ++ condType.String ++ "', expected '"
              ++ condType.String ++ "'"))
        else
          match t.typeOf sp with
          | .panic => .panic
          | .done (_, some err) =>
            .done (invalidType, some ("first block has invalid type: " ++ err))
          | .done (trueType, none) =>
            match f.typeOf sp with
            | .panic => .panic
            | .done (_, some err) =>
              .done (invalidType, some ("second block has invalid type: " ++ err))
            | .done (falseType, none) =>
              if trueType ≠ falseType then
                .done (invalidType,
                  some ("if blocks types mismatch '" ++ trueType.String ++ "' vs '"
                    ++ falseType.String ++ "'"))
              else .done (trueType, none) := by
  simp only [expr.typeOf, expr.getType]
  cases hc : c.getType sp with
  | panic => simp [run.map]
  | done res =>
    obtain ⟨c1, ct, cerr⟩ := res
    cases cerr with
    | some msg => simp [run.map]
    | none =>
      by_cases hci : ct = intType
      · subst hci
        cases ht : t.getType sp with
        | panic => simp [run.map]
        | done res =>
          obtain ⟨t1, tt, terr⟩ := res
          cases terr with
          | some msg => simp [run.map]
          | none =>
            cases hf : f.getType sp with
            | panic => simp [run.map]
            | done res =>
              obtain ⟨f1, ft, ferr⟩ := res
              cases ferr with
              | some msg => simp [run.map]
              | none =>
                by_cases hne : tt = ft
                · simp [run.map, hne]
                · simp [run.map, hne]
      · simp [run.map, hci]

/-- The typing of an if expression, with the panics of its parts.
`getType` of an if expression succeeds exactly when the
condition types without error as UInt64 and both branches type without
error to one and the same type; when it succeeds the result is that common
type; when it returns an error the type is Invalid; it panics exactly when
typing the condition or a branch panics (a branch is typed only after what
stands before it succeeded), and otherwise it succeeds or returns Invalid
with an error. -/
theorem ifExpr_getType (sp : langSpec) (c t f : expr) :
    ((∃ r, (expr.ifExprNode c t f).typeOf sp = .done (r, none)) ↔
      c.typeOf sp = .done (intType, none) ∧
        ∃ a, t.typeOf sp = .done (a, none) ∧ f.typeOf sp = .done (a, none)) ∧
    (∀ a, c.typeOf sp = .done (intType, none) → t.typeOf sp = .done (a, none) →
      f.typeOf sp = .done (a, none) → (expr.ifExprNode c t f).typeOf sp = .done (a, none)) ∧
    (∀ r, (expr.ifExprNode c t f).typeOf sp = .done (r, none) →
      t.typeOf sp = .done (r, none) ∧ f.typeOf sp = .done (r, none)) ∧
    (∀ r err, (expr.ifExprNode c t f).typeOf sp = .done (r, some err) → r = invalidType) ∧
    ((expr.ifExprNode c t f).typeOf sp = .panic ↔
      (c.typeOf sp = .panic ∨
        (c.typeOf sp = .done (intType, none) ∧ t.typeOf sp = .panic) ∨
        (c.typeOf sp = .done (intType, none) ∧
          ∃ a, t.typeOf sp = .done (a, none) ∧ f.typeOf sp = .panic))) ∧
    ((expr.ifExprNode c t f).typeOf sp = .panic ∨
      (∃ r, (expr.ifExprNode c t f).typeOf sp = .done (r, none)) ∨
      ∃ err, (expr.ifExprNode c t f).typeOf sp = .done (invalidType, some err)) := by
  rw [ifExpr_typeOf]
  rcases typeOf_cases sp c with hc | ⟨ct, hc⟩ | ⟨ct, cerr, hc⟩
  · simp [hc]
  · by_cases hci : ct = intType
    · subst hci
      rcases typeOf_cases sp t with ht | ⟨tt, ht⟩ | ⟨tt, terr, ht⟩
      · simp [hc, ht]
      · rcases typeOf_cases sp f with hf | ⟨ft, hf⟩ | ⟨ft, ferr, hf⟩
        · simp [hc, ht, hf]
        · by_cases hne : tt = ft
          · subst hne
            simp [hc, ht, hf]
          · have hne' : ¬ ft = tt := fun e => hne e.symm
            simp [hc, ht, hf, hne, hne']
        · simp [hc, ht, hf]
      · simp [hc, ht]
    · have hci' : ¬ intType = ct := fun e => hci e.symm
      simp [hc, hci, hci']
  · simp [hc]

/-- Claim C21, at a failing input.  `if 1 then 1 else 2` types as UInt64, and
with branches of two types or a condition of type Bytes the result is
Invalid with an error, as the claim says.  `bad` is an identifier whose
descriptor has the type Invalid: `getType` of an if expression with `bad` as
its condition or as one of its branches panics, where the claim has the
result Invalid with an error. -/
theorem ifExpr_getType_panics_on_invalid_operand :
    (expr.ifExprNode (.exprLiteralNode intType "1") (.exprLiteralNode intType "1")
      (.exprLiteralNode intType "2")).typeOf sampleSpec = .done (intType, none) ∧
    (expr.ifExprNode (.exprLiteralNode intType "1") (.exprLiteralNode intType "1")
      (.exprLiteralNode bytesType "\"a\"")).typeOf sampleSpec
      = .done (invalidType, some "if blocks types mismatch 'uint64' vs 'byte[]'") ∧
    (expr.ifExprNode (.exprLiteralNode bytesType "\"a\"") (.exprLiteralNode intType "1")
      (.exprLiteralNode intType "2")).typeOf sampleSpec
      = .done (invalidType, some "cond type is 'byte[]', expected 'byte[]'") ∧
    (expr.ifExprNode sampleInvalid (.exprLiteralNode intType "1")
      (.exprLiteralNode intType "2")).typeOf sampleSpec = .panic ∧
    (expr.ifExprNode (.exprLiteralNode intType "1") sampleInvalid
      (.exprLiteralNode intType "2")).typeOf sampleSpec = .panic ∧
    (expr.ifExprNode (.exprLiteralNode intType "1") (.exprLiteralNode intType "2")
      sampleInvalid).typeOf sampleSpec = .panic := by
  decide

/-! ## Soundness of the return type -/

theorem mem_reachableFrom (ch : List node) (x : node) :
    x ∈ reachableFrom ch ↔
      x ∈ ch ∨ ∃ s ∈ ch, s.isNested = true ∧ x ∈ reachableFrom s.children := by
  induction ch with
  | nil => simp [reachableFrom]
  | cons stmt rest ih =>
    cases stmt with
    | ifStatementNode c b =>
      simp only [reachableFrom, List.mem_cons, List.mem_append, ih, exists_eq_or_imp,
        node.isNested, node.children, true_and]
      tauto
    | blockNode b =>
      simp only [reachableFrom, List.mem_cons, List.mem_append, ih, exists_eq_or_imp,
        node.isNested, node.children, true_and]
      tauto
    | returnNode v b =>
      simp only [reachableFrom, List.mem_cons, ih, exists_eq_or_imp, node.isNested,
        Bool.false_eq_true, false_and, false_or]
      tauto
    | errorNode b =>
      simp only [reachableFrom, List.mem_cons, ih, exists_eq_or_imp, node.isNested,
        Bool.false_eq_true, false_and, false_or]
      tauto
    | funDefNode a1 a2 a3 b =>
      simp only [reachableFrom, List.mem_cons, ih, exists_eq_or_imp, node.isNested,
        Bool.false_eq_true, false_and, false_or]
      tauto
    | other a1 b =>
      simp only [reachableFrom, List.mem_cons, ih, exists_eq_or_imp, node.isNested,
        Bool.false_eq_true, false_and, false_or]
      tauto

theorem sizeOf_children_lt (s : node) : sizeOf s.children < sizeOf s := by
  cases s <;> simp [node.children]

/-- A loop that ends without error met no `Return` without a value. -/
theorem loopResult_return_value (sp : langSpec) (ch : List node) :
    ∀ (seen seen1 : List exprType), loopResult sp ch seen = .done (seen1, none) →
      ∀ c, node.returnNode none c ∉ ch := by
  induction ch with
  | nil =>
    intro seen seen1 _ c
    simp
  | cons stmt rest ih =>
    intro seen seen1 h c hm
    rcases node_kinds stmt with hq | ⟨c0, hq⟩ | ⟨v0, c0, hq⟩ | hq
    · rw [loopResult_quiet sp stmt rest seen hq] at h
      rcases List.mem_cons.mp hm with e | e
      · rw [← e] at hq
        simp [node.contributes] at hq
      · exact ih seen seen1 h c e
    · subst hq
      rw [loopResult_error] at h
      rcases List.mem_cons.mp hm with e | e
      · cases e
      · exact ih _ seen1 h c e
    · subst hq
      rw [loopResult_return] at h
      cases v0 with
      | none => simp at h
      | some v =>
        simp only at h
        rcases List.mem_cons.mp hm with e | e
        · cases e
        · rcases typeOf_cases sp v with hv | ⟨t, hv⟩ | ⟨t, err, hv⟩
          · rw [hv] at h
            simp at h
          · rw [hv] at h
            exact ih _ seen1 h c e
          · rw [hv] at h
            simp at h
    · rw [loopResult_nested sp stmt rest seen hq] at h
      rcases List.mem_cons.mp hm with e | e
      · rw [← e] at hq
        simp [node.isNested] at hq
      · cases hb : blockReturnType sp stmt seen with
        | panic =>
          rw [hb] at h
          simp at h
        | done r =>
          obtain ⟨B, berr⟩ := r
          rw [hb] at h
          cases berr with
          | some msg => simp at h
          | none => exact ih _ seen1 h c e

/-- When the loop of `determineBlockReturnType` ends without error and every
type it has seen is Unknown or `T`, every reachable `Return` has a value of
type `T` or Unknown, and a reachable `Error` makes `T` UInt64. -/
theorem loopResult_reachable (sp : langSpec) (ch : List node) (seen seen1 : List exprType)
    (T : exprType) (h : loopResult sp ch seen = .done (seen1, none))
    (hT : ∀ t ∈ seen1, t = unknownType ∨ t = T) (x : node) (hx : x ∈ reachableFrom ch) :
    (∀ value c, x = node.returnNode value c →
      ∃ v, value = some v ∧
        (v.typeOf sp = .done (T, none) ∨ v.typeOf sp = .done (unknownType, none))) ∧
    (∀ c, x = node.errorNode c → T = intType) := by
  obtain ⟨_, kret, kerr, knest⟩ := loopResult_sound sp ch seen seen1 h
  rcases (mem_reachableFrom ch x).mp hx with hm | ⟨s, hs, hn, hxs⟩
  · constructor
    · intro value c e
      subst e
      cases value with
      | none => exact absurd hm (loopResult_return_value sp ch seen seen1 h c)
      | some v =>
        obtain ⟨t, ht, htm⟩ := kret v c hm
        refine ⟨v, rfl, ?_⟩
        rcases hT t htm with e | e
        · rw [e] at ht
          exact Or.inr ht
        · rw [e] at ht
          exact Or.inl ht
    · intro c e
      subst e
      rcases hT intType (kerr c hm) with e | e
      · cases e
      · exact e.symm
  · obtain ⟨s0, B, hB, hBm, _⟩ := knest s hs hn
    obtain ⟨seen2, hl2, hu2⟩ := blockReturnType_success sp s s0 B hB
    have hsound := unifyReturnTypes_sound seen2 B hu2
    have hT2 : ∀ t ∈ seen2, t = unknownType ∨ t = T := by
      intro t ht
      rcases hsound t ht with e | e
      · exact Or.inl e
      · rw [e]
        exact hT B hBm
    exact loopResult_reachable sp s.children s0 seen2 T hl2 hT2 x hxs
termination_by sizeOf ch
decreasing_by
  have h1 := List.sizeOf_lt_of_mem hs
  have h2 := sizeOf_children_lt s
  omega

/-- Claim C22.  Let `determineBlockReturnType(block, [])` return the type
`T` without an error.  Then every `Return` reachable from the block through
nested if statements and nested blocks has a value, which types without
error as `T` or as Unknown, and if an `Error` statement is reachable then `T`
is UInt64.  When `T` is Unknown, every reachable `Return` types as Unknown
and no `Error` statement is reachable. -/
theorem determineBlockReturnType_sound (sp : langSpec) (n : node) (T : exprType)
    (h : blockReturnType sp n [] = .done (T, none)) :
    (∀ value c, node.returnNode value c ∈ n.reachable →
      ∃ v, value = some v ∧
        (v.typeOf sp = .done (T, none) ∨ v.typeOf sp = .done (unknownType, none))) ∧
    ((∃ c, node.errorNode c ∈ n.reachable) → T = intType) ∧
    (T = unknownType →
      (∀ value c, node.returnNode value c ∈ n.reachable →
        ∃ v, value = some v ∧ v.typeOf sp = .done (unknownType, none)) ∧
      ∀ c, node.errorNode c ∉ n.reachable) := by
  obtain ⟨seen1, hl, hu⟩ := blockReturnType_success sp n [] T h
  have hT := unifyReturnTypes_sound seen1 T hu
  have key := loopResult_reachable sp n.children [] seen1 T hl hT
  refine ⟨?_, ?_, ?_⟩
  · intro value c hm
    exact (key _ hm).1 value c rfl
  · rintro ⟨c, hm⟩
    exact (key _ hm).2 c rfl
  · intro hu0
    subst hu0
    constructor
    · intro value c hm
      obtain ⟨v, hv, ht⟩ := (key _ hm).1 value c rfl
      exact ⟨v, hv, ht.elim id id⟩
    · intro c hm
      have := (key _ hm).2 c rfl
      cases this

/-- Witness of C22: a block with `return u`, where `u` types as Unknown, an
if statement whose branch returns `1`, and an `Error` statement gets the
type UInt64. -/
theorem determineBlockReturnType_sound_witness :
    blockReturnType sampleSpec
      (.blockNode [.returnNode (some sampleUnknown) [],
        .ifStatementNode (.exprLiteralNode intType "1")
          [.blockNode [.returnNode (some (.exprLiteralNode intType "1")) []]],
        .errorNode []]) [] = .done (intType, none) ∧
    ∀ value c, node.returnNode value c ∈ (node.blockNode
        [.returnNode (some sampleUnknown) [],
        .ifStatementNode (.exprLiteralNode intType "1")
          [.blockNode [.returnNode (some (.exprLiteralNode intType "1")) []]],
        .errorNode []]).reachable →
      ∃ v, value = some v ∧
        (v.typeOf sampleSpec = .done (intType, none) ∨
          v.typeOf sampleSpec = .done (unknownType, none)) :=
  ⟨by decide,
   (determineBlockReturnType_sound sampleSpec
      (.blockNode [.returnNode (some sampleUnknown) [],
        .ifStatementNode (.exprLiteralNode intType "1")
          [.blockNode [.returnNode (some (.exprLiteralNode intType "1")) []]],
        .errorNode []]) intType (by decide)).1⟩

/-! ## Soundness of the termination check -/

theorem pathFallsOff_of_last (l : List node) (last : node) (hl : l.getLast? = some last)
    (hp : runsPast last = false) : pathFallsOff l = false := by
  induction l with
  | nil => simp at hl
  | cons stmt rest ih =>
    cases rest with
    | nil =>
      simp only [List.getLast?_singleton, Option.some.injEq] at hl
      subst hl
      simp [pathFallsOff, hp]
    | cons next more =>
      rw [List.getLast?_cons_cons] at hl
      show (runsPast stmt && pathFallsOff (next :: more)) = false
      rw [ih hl, Bool.and_false]

theorem fallsOffEnd_children (n : node) : fallsOffEnd n = pathFallsOff n.children := by
  cases n <;> simp [fallsOffEnd, node.children]

/-- A block that always returns, in the words of the spec, has no path that
falls off its end. -/
theorem alwaysReturns_sound (n : node) (h : alwaysReturns n = true) :
    fallsOffEnd n = false := by
  rw [alwaysReturns_children, lastAlwaysReturns_iff] at h
  obtain ⟨last, hl, hcase⟩ := h
  rw [fallsOffEnd_children]
  apply pathFallsOff_of_last _ last hl
  rcases hcase with ⟨v, c, e⟩ | ⟨c, e⟩ | ⟨cond, t, e, hlast, ht, he⟩
  · subst e
    rfl
  · subst e
    rfl
  · have hmem : last ∈ n.children := List.mem_of_mem_getLast? hl
    subst hlast
    have ht' := alwaysReturns_sound t ht
    have he' := alwaysReturns_sound e he
    simp [runsPast, someBranchFallsOff, ht', he']
termination_by sizeOf n
decreasing_by
  all_goals
    have h1 := List.sizeOf_lt_of_mem hmem
    have h2 := sizeOf_children_lt n
    simp at h1
    omega

/-- Claim C25.  Let every if statement of a block have one or two branch
blocks.  If `ensureBlockReturns` is true for the block, no execution path
through the block falls off its end, where a path runs the statements in
order, stops at a `Return` or an `Error`, takes either branch of an if
statement or skips it when it has no else-branch, and falls through every
other statement. -/
theorem ensureBlockReturns_sound (n : node) (h : ifsHaveBranches n = true)
    (hr : ensureBlockReturns n = .done true) : fallsOffEnd n = false := by
  rw [ensureBlockReturns_eq n h] at hr
  exact alwaysReturns_sound n (run.done.inj hr)

/-- Witness of C25: the check is true for a block that ends in an if
statement whose two branches return, and no path falls off its end. -/
theorem ensureBlockReturns_sound_witness :
    ensureBlockReturns (.blockNode [.other "x = 1" [],
      .ifStatementNode (.exprLiteralNode intType "1")
        [.blockNode [.returnNode (some (.exprLiteralNode intType "1")) []],
         .blockNode [.other "x = 2" [], .errorNode []]]]) = .done true ∧
    fallsOffEnd (.blockNode [.other "x = 1" [],
      .ifStatementNode (.exprLiteralNode intType "1")
        [.blockNode [.returnNode (some (.exprLiteralNode intType "1")) []],
         .blockNode [.other "x = 2" [], .errorNode []]]]) = false :=
  ⟨by decide, ensureBlockReturns_sound _ (by decide) (by decide)⟩

/-! ## The frame of remapping -/

/-- Claim C24.  Let every descriptor of a scope be stored under its own
name, as `newVar`, `newConst` and `newFunc` store it.  `remapTo` leaves the
declared names of the scope as they are, and each descriptor keeps its name,
type, kind, value and references: only its address can change.  The scopes
of the ancestors, with their name tables and address counters, and the
literal pool are the same after the call, and so are the name and the
function table of the scope. -/
theorem remapTo_changes_addresses_only (ctx : context) (b : Nat)
    (h : scopeWellFormed ctx.cur.vars) :
    (ctx.remapTo b).cur.vars.map Prod.fst = ctx.cur.vars.map Prod.fst ∧
    (∀ name d, mapGet ctx.cur.vars name = some d →
      ∃ a, mapGet (ctx.remapTo b).cur.vars name = some { d with address := a }) ∧
    (∀ name, mapGet ctx.cur.vars name = none →
      mapGet (ctx.remapTo b).cur.vars name = none) ∧
    (ctx.remapTo b).parents = ctx.parents ∧
    (ctx.remapTo b).literals = ctx.literals ∧
    (ctx.remapTo b).cur.name = ctx.cur.name ∧
    (ctx.remapTo b).cur.functions = ctx.cur.functions := by
  obtain ⟨hkeys, hname⟩ := h
  have hperm := sortByAddress_perm (ctx.cur.vars.map Prod.snd)
  have hnameq : (ctx.cur.vars.map Prod.snd).map (fun x => x.name) = ctx.cur.vars.map Prod.fst := by
    rw [List.map_map]
    apply List.map_congr_left
    intro p hp
    exact hname p hp
  have hnodup : ((sortByAddress (ctx.cur.vars.map Prod.snd)).map (fun x => x.name)).Nodup := by
    rw [(hperm.map _).nodup_iff, hnameq]
    exact hkeys
  have hin : ∀ x ∈ sortByAddress (ctx.cur.vars.map Prod.snd),
      mapGet ctx.cur.vars x.name ≠ none := by
    intro x hx
    have hx' := hperm.mem_iff.mp hx
    obtain ⟨p, hp, rfl⟩ := List.mem_map.mp hx'
    rw [Ne, mapGet_eq_none_iff, not_not, hname p hp]
    exact List.mem_map_of_mem Prod.fst hp
  have hloop := remapLoop_eq
    { ctx with cur := { ctx.cur with addressEntry := b } } b
    (sortByAddress (ctx.cur.vars.map Prod.snd)) hin
  have hk : (ctx.remapTo b).cur.vars.map Prod.fst = ctx.cur.vars.map Prod.fst := by
    simp only [context.remapTo, hloop]
    exact remapVars_keys ctx.cur.vars b _ hin
  refine ⟨hk, ?_, ?_, ?_, ?_, ?_, ?_⟩
  · intro name d hd
    have hmem := mapGet_mem _ _ _ hd
    have hdn : d.name = name := hname (name, d) hmem
    have hsorted : d ∈ sortByAddress (ctx.cur.vars.map Prod.snd) :=
      hperm.mem_iff.mpr (List.mem_map_of_mem Prod.snd hmem)
    obtain ⟨⟨i, hi⟩, hget⟩ := List.mem_iff_get.mp hsorted
    have hval := remapVars_get ctx.cur.vars b _ hnodup i hi
    rw [hget, hdn] at hval
    refine ⟨if i = 0 then b else (b + i) % 2 ^ 64, ?_⟩
    simp only [context.remapTo, hloop]
    exact hval
  · intro name hn
    rw [mapGet_eq_none_iff] at hn ⊢
    rw [hk]
    exact hn
  · simp only [context.remapTo, hloop]
  · simp only [context.remapTo, hloop]
  · simp only [context.remapTo, hloop]
  · simp only [context.remapTo, hloop]

/-- Witness of C24: a child scope of the sample root that declares `x` and
its own `a`; after `remapTo 10` the root and the pool are as before and `a`
differs in its address only. -/
theorem remapTo_changes_addresses_only_witness :
    ((((newContext sampleParse "0" "1" "f" (some sampleRoot)).newVar "x" intType).1.newVar
      "a" bytesType).1.remapTo 10).parents = [sampleRoot.cur] ∧
    ((((newContext sampleParse "0" "1" "f" (some sampleRoot)).newVar "x" intType).1.newVar
      "a" bytesType).1.remapTo 10).literals = sampleRoot.literals ∧
    ∃ a, mapGet ((((newContext sampleParse "0" "1" "f" (some sampleRoot)).newVar "x"
      intType).1.newVar "a" bytesType).1.remapTo 10).cur.vars "a"
        = some { sampleVar "a" bytesType 3 with address := a } :=
  have h := remapTo_changes_addresses_only
    (((newContext sampleParse "0" "1" "f" (some sampleRoot)).newVar "x" intType).1.newVar
      "a" bytesType).1 10 (by unfold scopeWellFormed; decide)
  ⟨h.2.2.2.1, h.2.2.2.2.1, h.2.1 "a" (sampleVar "a" bytesType 3) (by decide)⟩

/-! ## Constants and the pool -/

/-- Claim C23, at a failing input.  In a new root scope `newConst n` with
type UInt64 and the text `0x10` gets address 2, where `intc` holds `0x10`.
A following `newConst s` with type Bytes and the same text succeeds and gets
the descriptor of type Bytes with address 2, the offset recorded for the
integer, while `bytec` is empty.  In the other order `s` gets address 0 in
`bytec`, and `n` gets the descriptor of type UInt64 with address 0, where
`intc` holds `0`. -/
theorem newConst_reuses_offset_of_other_type :
    mapGet ((newContext sampleParse "0" "1" "global" none).newConst sampleParse
        "n" intType "0x10").1.cur.vars "n"
      = some ⟨"n", intType, constantKind, 2, some "0x10", none, none⟩ ∧
    ((newContext sampleParse "0" "1" "global" none).newConst sampleParse
        "n" intType "0x10").1.literals.intc[2]? = some "0x10" ∧
    (((newContext sampleParse "0" "1" "global" none).newConst sampleParse
        "n" intType "0x10").1.newConst sampleParse "s" bytesType "0x10").2 = none ∧
    mapGet (((newContext sampleParse "0" "1" "global" none).newConst sampleParse
        "n" intType "0x10").1.newConst sampleParse "s" bytesType "0x10").1.cur.vars "s"
      = some ⟨"s", bytesType, constantKind, 2, some "0x10", none, none⟩ ∧
    (((newContext sampleParse "0" "1" "global" none).newConst sampleParse
        "n" intType "0x10").1.newConst sampleParse "s" bytesType "0x10").1.literals.bytec
      = [] ∧
    (((newContext sampleParse "0" "1" "global" none).newConst sampleParse
        "s" bytesType "0x10").1.newConst sampleParse "n" intType "0x10").2 = none ∧
    mapGet (((newContext sampleParse "0" "1" "global" none).newConst sampleParse
        "s" bytesType "0x10").1.newConst sampleParse "n" intType "0x10").1.cur.vars "n"
      = some ⟨"n", intType, constantKind, 0, some "0x10", none, none⟩ ∧
    (((newContext sampleParse "0" "1" "global" none).newConst sampleParse
        "s" bytesType "0x10").1.newConst sampleParse "n" intType "0x10").1.literals.intc
      = ["0", "1"] := by
  decide

end compiler
